import Mathlib

/-!
# ESP32-BLECollector: device cache and BLE file sharing

A shallow embedding of `BLECache.h` (the device-record cache and its slot
selection) and of `BLEFileSharing.h` (the routing protocol, the file receiver,
the file sender and the client task that sequences the two files).

Conventions of the embedding:

* a C string or byte buffer is a `List Nat` of byte values; a NUL-terminated
  buffer is read up to its first `0`;
* `byte` values are naturals reduced `% 256`, `size_t` values are naturals
  reduced `% 2 ^ 32` (the ESP32 is a 32-bit target);
* global variables of the firmware are fields of an explicit state record;
* the outcome of a BLE write or of opening a file is supplied by an explicit
  environment, and every write that is performed is appended to a trace.
-/

namespace BLECollector

/-! ## BLECache.h -/

/-- Bytes of a string literal, without the terminating NUL. -/
def cstr (s : String) : List Nat := s.toList.map Char.toNat

/-- The record `struct BlueToothDevice` of `BLECache.h`; character arrays are
byte lists, `hits` is a `byte`. -/
structure BlueToothDevice where
  in_db : Bool := false
  hits : Nat := 0
  appearance : Nat := 0
  name : List Nat := []
  address : List Nat := []
  ouiname : List Nat := []
  rssi : Int := 0
  manufid : Int := -1
  manufname : List Nat := []
  uuid : List Nat := []
deriving DecidableEq, Repr

instance : Inhabited BlueToothDevice := ⟨{}⟩

/-- Default value of the macro `BLEDEVCACHE_SIZE` (it may be overridden from
`Settings.h`, so the operations below take the size as an argument). -/
def BLEDEVCACHE_SIZE : Nat := 10

/-- The test `BLEDevCache[tempIndex].address[0]=='\0'`: the slot is free. -/
def slotFree (BLEDevCache : List BlueToothDevice) (i : Nat) : Bool :=
  (BLEDevCache.getD i default).address.getD 0 0 == 0

/-- The `hits` byte of slot `i`. -/
def slotHits (BLEDevCache : List BlueToothDevice) (i : Nat) : Nat :=
  (BLEDevCache.getD i default).hits

/-- Local variables of `getNextBLEDevCacheIndex` that the loop updates. -/
structure ScanState where
  minCacheValue : Nat
  maxCacheValue : Nat
  outIndex : Nat
deriving DecidableEq, Repr

/-- Body of the `for` loop of `getNextBLEDevCacheIndex`, run over the successive
values of `i`. `Sum.inl t` is the early `return tempIndex`, `Sum.inr st` the
local variables when the loop runs to its end. -/
def scanLoop (BLEDevCache : List BlueToothDevice) (size : Nat) :
    List Nat → ScanState → Nat ⊕ ScanState
  | [], st => Sum.inr st
  | i :: rest, st =>
    let tempIndex := (i % size) % 256
    if slotFree BLEDevCache tempIndex then Sum.inl tempIndex
    else
      let st1 : ScanState :=
        if slotHits BLEDevCache tempIndex > st.maxCacheValue then
          { st with maxCacheValue := slotHits BLEDevCache tempIndex }
        else st
      let st2 : ScanState :=
        if slotHits BLEDevCache tempIndex < st1.minCacheValue then
          { st1 with minCacheValue := slotHits BLEDevCache tempIndex, outIndex := tempIndex }
        else st1
      scanLoop BLEDevCache size rest st2

/-- The start of the scan: `defaultIndex = BLEDevCacheIndex; defaultIndex++;
defaultIndex = defaultIndex % BLEDEVCACHE_SIZE` on a `byte`. -/
def scanStart (size BLEDevCacheIndex : Nat) : Nat :=
  ((BLEDevCacheIndex + 1) % 256) % size

/-- The function `getNextBLEDevCacheIndex` of `BLECache.h`. The loop counter
`i` runs from `defaultIndex` to `defaultIndex + size - 1`; after the loop the
function returns `defaultIndex` (the computed `outIndex` is not used). -/
def getNextBLEDevCacheIndex (BLEDevCache : List BlueToothDevice) (size BLEDevCacheIndex : Nat) :
    Nat :=
  let defaultIndex := scanStart size BLEDevCacheIndex
  match scanLoop BLEDevCache size (List.range' defaultIndex size)
      { minCacheValue := 255, maxCacheValue := 0, outIndex := defaultIndex } with
  | Sum.inl tempIndex => tempIndex
  | Sum.inr _ => defaultIndex

/-- The value of `outIndex` when the loop of `getNextBLEDevCacheIndex` has run
to its end (`none` when the loop returned early on a free slot). -/
def leastHitsIndex (BLEDevCache : List BlueToothDevice) (size BLEDevCacheIndex : Nat) :
    Option Nat :=
  let defaultIndex := scanStart size BLEDevCacheIndex
  match scanLoop BLEDevCache size (List.range' defaultIndex size)
      { minCacheValue := 255, maxCacheValue := 0, outIndex := defaultIndex } with
  | Sum.inl _ => none
  | Sum.inr st => some st.outIndex

/-- A cache slot holding the given address bytes and hit count. -/
def mkDevice (address : List Nat) (hits : Nat) : BlueToothDevice :=
  { address := address, hits := hits }

/-- Ten occupied slots; slot 3 has 0 hits, every other slot has 5. -/
def fullCacheExample : List BlueToothDevice :=
  (List.range 10).map fun i => mkDevice (cstr "aa:bb:cc:dd:ee:0" ++ [48 + i]) (if i = 3 then 0 else 5)

/-- Ten slots of which slots 0 and 6 are free. -/
def twoFreeExample : List BlueToothDevice :=
  (List.range 10).map fun i =>
    if i = 0 ∨ i = 6 then ({} : BlueToothDevice) else mkDevice (cstr "aa:bb:cc:dd:ee:0" ++ [48 + i]) 1


/-- Slot `r` is the first free slot met when the slots are visited in the
cyclic order `start, start + 1, ...` (indices taken modulo `size`). -/
def IsFirstFreeFrom (BLEDevCache : List BlueToothDevice) (size start r : Nat) : Prop :=
  ∃ k, k < size ∧ r = (start + k) % size ∧ slotFree BLEDevCache r = true ∧
    ∀ j, j < k → slotFree BLEDevCache ((start + j) % size) = false


/-! ## C library functions used by BLEFileSharing.h -/

/-- The string held by a NUL-terminated buffer: its bytes before the first `0`. -/
def cString (buf : List Nat) : List Nat := buf.takeWhile (fun c => c != 0)

/-- The C function `strlen`. -/
def strlen (buf : List Nat) : Nat := (cString buf).length

/-- Search of `needle` in a string without NUL: the suffix that starts at the
first occurrence, `none` when there is none. -/
def strstrAux (needle : List Nat) : List Nat → Option (List Nat)
  | [] => if needle.isPrefixOf [] then some [] else none
  | c :: rest => if needle.isPrefixOf (c :: rest) then some (c :: rest) else strstrAux needle rest

/-- The C function `strstr`: `none` is the null pointer. -/
def strstr (haystack needle : List Nat) : Option (List Nat) :=
  strstrAux (cString needle) (cString haystack)

/-- The test `strcmp(a, b) == 0`. -/
def strcmpEq (a b : List Nat) : Bool := cString a == cString b

/-- The C function `isspace` in the "C" locale. -/
def isspace (c : Nat) : Bool := c == 32 || (9 ≤ c && c ≤ 13)

/-- The C function `isdigit`. -/
def isdigit (c : Nat) : Bool := 48 ≤ c && c ≤ 57

/-- Accumulation of the leading decimal digits of a string. -/
def atoiDigits : List Nat → Nat → Nat
  | [], acc => acc
  | c :: rest, acc => if isdigit c then atoiDigits rest (acc * 10 + (c - 48)) else acc

/-- The C function `atoi` on a 32-bit `int`: leading white space, an optional
sign, then decimal digits. Out of the range of `int` the C standard leaves the
result undefined; the model saturates, as `strtol` of the ESP32 C library does. -/
def atoi (s : List Nat) : Int :=
  match (cString s).dropWhile isspace with
  | [] => 0
  | c :: rest =>
    if c = 45 then -(Int.ofNat (min (atoiDigits rest 0) (2 ^ 31)))
    else if c = 43 then Int.ofNat (min (atoiDigits rest 0) (2 ^ 31 - 1))
    else Int.ofNat (min (atoiDigits (c :: rest) 0) (2 ^ 31 - 1))

/-- Conversion of an `int` to the 32-bit `size_t`. -/
def toSizeT (v : Int) : Nat := (v % (2 ^ 32 : Int)).toNat

/-- Decimal digits of `n`, most significant first, prepended to `acc`. -/
def decimalAux : Nat → Nat → List Nat → List Nat
  | 0, _, acc => acc
  | fuel + 1, n, acc =>
    if n / 10 = 0 then (48 + n % 10) :: acc
    else decimalAux fuel (n / 10) ((48 + n % 10) :: acc)

/-- Decimal rendering of a natural number. -/
def decimal (n : Nat) : List Nat := decimalAux (n + 1) n []

/-- The conversion `%d` of `sprintf` applied to a 32-bit `size_t` argument: the
32 bits are read as a signed `int`. -/
def sprintf_d (v : Nat) : List Nat :=
  if v % 2 ^ 32 < 2 ^ 31 then decimal (v % 2 ^ 32)
  else 45 :: decimal (2 ^ 32 - v % 2 ^ 32)

/-- The helper `substr` of `BLEFileSharing.h`: `none` is the null pointer
returned when `len <= 0`; otherwise a fresh zeroed buffer that receives, by
`strncat`, at most `len` bytes of `src + pos`, stopping at a NUL. -/
def substr (src : List Nat) (pos : Nat) (len : Int) : Option (List Nat) :=
  if len > 0 then some ((cString (src.drop pos)).take len.toNat) else none

/-! ## Floating-point arithmetic of the progress computations

Non-negative values are fractions `(numerator, denominator)` of naturals. -/

/-- Position of the most significant bit of `n`, counted from 0 (`0` for `n = 0`);
the first argument bounds the recursion and `n` itself is enough. -/
def log2Aux : Nat → Nat → Nat
  | 0, _ => 0
  | fuel + 1, n => if n / 2 = 0 then 0 else log2Aux fuel (n / 2) + 1

/-- Floor of the binary logarithm. -/
def log2 (n : Nat) : Nat := log2Aux n n

/-- Rounding of the fraction `n / d` to `p` significant bits, to nearest, ties to
even (the IEEE 754 default). The exponent range is not modelled: the operands
of the firmware (sizes below `2 ^ 32` and their ratios) are far from the
overflow and underflow thresholds of `float` and `double`. -/
def roundToBits (p n d : Nat) : Nat × Nat :=
  if n = 0 then (0, 1)
  else
    let k := p + 2 + log2 d
    let scaled := n * 2 ^ k
    let s := log2 (scaled / d) + 1 - p
    let unit := d * 2 ^ s
    let m := scaled / unit
    let r := scaled % unit
    let m1 := if 2 * r > unit ∨ (2 * r = unit ∧ m % 2 = 1) then m + 1 else m
    (m1 * 2 ^ s, 2 ^ k)

/-- The C expression `(float)a / (float)b` for two `size_t` values. -/
def floatRatio (a b : Nat) : Nat × Nat :=
  let fa := roundToBits 24 a 1
  let fb := roundToBits 24 b 1
  roundToBits 24 (fa.1 * fb.2) (fa.2 * fb.1)

/-- The C expression `((float)a / (float)b) * 100.00`, a `double`. -/
def ratioTimes100 (a b : Nat) : Nat × Nat :=
  let q := floatRatio a b
  roundToBits 53 (q.1 * 100) q.2

/-- The value stored in `size_t progress` by the file receiver:
`(((float)received / (float)expected) * 100.00)` truncated. A value out of the
range of `size_t` (undefined in C) is reduced modulo `2 ^ 32`. -/
def receiverProgress (received expected : Nat) : Nat :=
  let x := ratioTimes100 received expected
  (x.1 / x.2) % 2 ^ 32

/-- The value stored in `int percent` by the file sender:
`100 - (((float)progress / (float)totalsize) * 100.00)` truncated toward zero. -/
def senderPercent (progress totalsize : Nat) : Int :=
  let x := ratioTimes100 progress totalsize
  if x.1 ≤ 100 * x.2 then
    let y := roundToBits 53 (100 * x.2 - x.1) x.2
    Int.ofNat (y.1 / y.2)
  else
    let y := roundToBits 53 (x.1 - 100 * x.2) x.2
    Int.negOfNat (y.1 / y.2)

/-! ## BLEFileSharing.h: constants and the time record -/

/-- The constant `sizeMarker`. -/
def sizeMarker : List Nat := cstr "size:"

/-- The constant `dateTimeMarker`. -/
def dateTimeMarker : List Nat := cstr "dateTime:"

/-- The constant `closeMessage`. -/
def closeMessage : List Nat := cstr "close"

/-- The constant `restartMessage`. -/
def restartMessage : List Nat := cstr "restart"

/-- The two file-name macros, defined outside `BLEFileSharing.h`. -/
structure Config where
  BLE_VENDOR_NAMES_DB_FILE : List Nat
  MAC_OUI_NAMES_DB_FILE : List Nat
deriving DecidableEq, Repr

/-- The literal `"/" BLE_VENDOR_NAMES_DB_FILE`. -/
def Config.BLEFileToSend (cfg : Config) : List Nat := 47 :: cfg.BLE_VENDOR_NAMES_DB_FILE

/-- The literal `"/" MAC_OUI_NAMES_DB_FILE`. -/
def Config.MACFileToSend (cfg : Config) : List Nat := 47 :: cfg.MAC_OUI_NAMES_DB_FILE

/-- File names used in the examples. -/
def exampleConfig : Config :=
  { BLE_VENDOR_NAMES_DB_FILE := cstr "ble-oui.db", MAC_OUI_NAMES_DB_FILE := cstr "mac-oui-light.db" }

/-- The record `bt_time_t`; every field but `year` (16 bits) is one byte. -/
structure bt_time_t where
  year : Nat := 0
  month : Nat := 0
  day : Nat := 0
  hour : Nat := 0
  minutes : Nat := 0
  seconds : Nat := 0
  wday : Nat := 0
  fraction : Nat := 0
  adjust : Nat := 0
  tz : Nat := 0
deriving DecidableEq, Repr

/-- Size of `bt_time_t` in memory: eleven bytes of fields and one of padding. -/
def sizeof_bt_time_t : Nat := 12

/-- Memory image of a `bt_time_t` (little-endian `year`, trailing padding byte). -/
def bt_time_t.toBytes (t : bt_time_t) : List Nat :=
  [t.year % 256, t.year / 256 % 256, t.month % 256, t.day % 256, t.hour % 256, t.minutes % 256,
   t.seconds % 256, t.wday % 256, t.fraction % 256, t.adjust % 256, t.tz % 256, 0]

/-- The `bt_time_t` held by a memory image. -/
def bt_time_t.ofBytes (b : List Nat) : bt_time_t :=
  { year := b.getD 0 0 + 256 * b.getD 1 0, month := b.getD 2 0, day := b.getD 3 0,
    hour := b.getD 4 0, minutes := b.getD 5 0, seconds := b.getD 6 0, wday := b.getD 7 0,
    fraction := b.getD 8 0, adjust := b.getD 9 0, tz := b.getD 10 0 }

/-- The call `memcpy(&t, src, n)` for `n` within the size of the record. -/
def bt_time_t.memcpy (t : bt_time_t) (src : List Nat) (n : Nat) : bt_time_t :=
  bt_time_t.ofBytes (src.take n ++ t.toBytes.drop n)

/-! ## BLE file receiver -/

/-- An open file of `BLE_FS`: its path and the bytes written so far. -/
structure FsFile where
  path : List Nat
  content : List Nat
deriving DecidableEq, Repr

/-- Global state of the receiving peer. `FileReceiver = none` is a `File` that
tests false; `Out` collects the lines printed on the console; `storage` the
files that were closed; `timeSet` the records with which `setBLETime` was
called; `restarted` tells that `ESP.restart()` was called. -/
structure ReceiverState where
  FileReceiver : Option FsFile := none
  FileReceiverExpectedSize : Nat := 0
  FileReceiverReceivedSize : Nat := 0
  FileReceiverProgress : Nat := 0
  BLERemoteTime : bt_time_t := {}
  Out : List (List Nat) := []
  storage : List FsFile := []
  timeSet : List bt_time_t := []
  restarted : Bool := false
deriving DecidableEq, Repr

/-- The function `FileSharingReceiveFile`; `openOk` is the outcome of
`BLE_FS.open( filename, FILE_WRITE )`. -/
def FileSharingReceiveFile (st : ReceiverState) (filename : List Nat) (openOk : Bool) :
    ReceiverState :=
  { st with
    FileReceiverReceivedSize := 0
    FileReceiverProgress := 0
    FileReceiver := if openOk then some { path := filename, content := [] } else none }

/-- The function `FileSharingCloseFile`. With no open file it returns at once
and resets nothing; `FileReceiver.close()` leaves a `File` that tests false. -/
def FileSharingCloseFile (st : ReceiverState) : ReceiverState :=
  match st.FileReceiver with
  | none => st
  | some f =>
    { st with
      FileReceiver := none
      storage := st.storage ++ [f]
      Out := st.Out ++
        [if st.FileReceiverReceivedSize != st.FileReceiverExpectedSize then
           cstr "Copy Failed, please try again."
         else cstr "Copy successful!"]
      FileReceiverExpectedSize := 0
      FileReceiverReceivedSize := 0
      FileReceiverProgress := 0 }

/-- The method `FileSharingWriteCallbacks::onWrite`, called with the bytes
written to the data characteristic. -/
def FileSharingWriteCallbacks_onWrite (st : ReceiverState) (data : List Nat) : ReceiverState :=
  let len := data.length
  if st.FileReceiverExpectedSize = 0 then st
  else
    let progress := receiverProgress st.FileReceiverReceivedSize st.FileReceiverExpectedSize
    let st1 : ReceiverState :=
      match st.FileReceiver with
      | some f =>
        { st with
          FileReceiver := some { f with content := f.content ++ data }
          FileReceiverReceivedSize := (st.FileReceiverReceivedSize + len) % 2 ^ 32 }
      | none => st
    if st1.FileReceiverProgress ≠ progress then { st1 with FileReceiverProgress := progress }
    else st1

/-- The function `setBLETime`, as far as the receiver state records it: the
call is logged with the record it reads. -/
def setBLETime (st : ReceiverState) : ReceiverState :=
  { st with timeSet := st.timeSet ++ [st.BLERemoteTime] }

/-- The branch of `FileSharingRouteCallbacks::onWrite` that a buffer selects. -/
inductive RouteBranch where
  | size
  | dateTime
  | close
  | restart
  | filenames
deriving DecidableEq, Repr

/-- The chain of tests of `FileSharingRouteCallbacks::onWrite`. -/
def routeBranch (routing : List Nat) : RouteBranch :=
  if (strstr routing sizeMarker).isSome then RouteBranch.size
  else if (strstr routing dateTimeMarker).isSome then RouteBranch.dateTime
  else if strcmpEq routing closeMessage then RouteBranch.close
  else if strcmpEq routing restartMessage then RouteBranch.restart
  else RouteBranch.filenames

/-- The local buffer `char routing[512] = {0}` after `memcpy` of the payload. -/
def routingBuffer (data : List Nat) : List Nat := data ++ List.replicate (512 - data.length) 0

/-- The method `FileSharingRouteCallbacks::onWrite`, called with the bytes
written to the route characteristic; `openOk` is the outcome of opening a file,
should the message select one. The result is `none` where C leaves the
behaviour undefined: a payload of 512 bytes or more (no terminator in
`routing`), or a time payload longer than the record it is copied to. After
`ESP.restart()` nothing else runs. -/
def FileSharingRouteCallbacks_onWrite (cfg : Config) (st : ReceiverState) (data : List Nat)
    (openOk : Bool) : Option ReceiverState :=
  if 512 ≤ data.length then none
  else
    let routing := routingBuffer data
    let println (s : ReceiverState) : ReceiverState := { s with Out := s.Out ++ [cString routing, []] }
    match routeBranch routing with
    | RouteBranch.size =>
      if strlen routing > strlen sizeMarker then
        match substr routing (strlen sizeMarker) (strlen routing - strlen sizeMarker : Int) with
        | some lenStr => some (println { st with FileReceiverExpectedSize := toSizeT (atoi lenStr) })
        | none => none
      else some (println st)
    | RouteBranch.dateTime =>
      if strlen routing > strlen dateTimeMarker then
        match substr routing (strlen dateTimeMarker)
            (strlen routing - strlen dateTimeMarker : Int) with
        | some lenStr =>
          if strlen lenStr ≤ sizeof_bt_time_t then
            some (println (setBLETime
              { st with BLERemoteTime := st.BLERemoteTime.memcpy lenStr (strlen lenStr) }))
          else none
        | none => none
      else some (println st)
    | RouteBranch.close => some (println (FileSharingCloseFile st))
    | RouteBranch.restart => some { st with restarted := true }
    | RouteBranch.filenames =>
      let st1 :=
        if strcmpEq routing cfg.BLEFileToSend then
          FileSharingReceiveFile st cfg.BLEFileToSend openOk
        else st
      let st2 :=
        if strcmpEq routing cfg.MACFileToSend then
          FileSharingReceiveFile st1 cfg.MACFileToSend openOk
        else st1
      some (println st2)

/-- One event at the receiving peer. -/
inductive ReceiverEvent where
  | route (data : List Nat) (openOk : Bool)
  | write (data : List Nat)
deriving DecidableEq, Repr

/-- The receiver state after one event. -/
def receiverStep (cfg : Config) (st : ReceiverState) : ReceiverEvent → Option ReceiverState
  | ReceiverEvent.route data openOk => FileSharingRouteCallbacks_onWrite cfg st data openOk
  | ReceiverEvent.write data => some (FileSharingWriteCallbacks_onWrite st data)

/-- The receiver state after a sequence of events. -/
def receiverRun (cfg : Config) : ReceiverState → List ReceiverEvent → Option ReceiverState
  | st, [] => some st
  | st, e :: rest =>
    match receiverStep cfg st e with
    | some st1 => receiverRun cfg st1 rest
    | none => none

/-- The state of the receiver at boot: the initial values of its globals. -/
def initialReceiver : ReceiverState := {}

/-- The message that announces the size `totalsize`, as `FileSharingSendFile`
builds it: `sprintf( myTotalSize, "%s%d", sizeMarker, totalsize )`. -/
def sizeMessage (totalsize : Nat) : List Nat := sizeMarker ++ sprintf_d totalsize

/-- Conditions on the two file names under which a file-selection message
reaches the file-name branch of the route handler: no NUL byte, a path that
fits the routing buffer, and no marker inside the path. -/
def Config.WellFormed (cfg : Config) : Prop :=
  (∀ c ∈ cfg.BLEFileToSend, c ≠ 0) ∧ (∀ c ∈ cfg.MACFileToSend, c ≠ 0) ∧
  cfg.BLEFileToSend.length < 512 ∧ cfg.MACFileToSend.length < 512 ∧
  strstr cfg.BLEFileToSend sizeMarker = none ∧ strstr cfg.BLEFileToSend dateTimeMarker = none ∧
  strstr cfg.MACFileToSend sizeMarker = none ∧ strstr cfg.MACFileToSend dateTimeMarker = none

instance (cfg : Config) : Decidable cfg.WellFormed := by
  unfold Config.WellFormed; infer_instance

/-- The messages of one file transfer as the receiving peer meets them: the
selection of one of the two files (with the outcome of opening it), the size
announcement, the close message, and a write to the data characteristic. -/
inductive PeerMessage where
  | fileSelect (second : Bool) (openOk : Bool)
  | sizeAnnounce (S : Nat)
  | close
  | data (bytes : List Nat)
deriving DecidableEq, Repr

/-- The receiver event that carries a message. -/
def PeerMessage.toEvent (cfg : Config) : PeerMessage → ReceiverEvent
  | PeerMessage.fileSelect second openOk =>
    ReceiverEvent.route (if second then cfg.MACFileToSend else cfg.BLEFileToSend) openOk
  | PeerMessage.sizeAnnounce S => ReceiverEvent.route (sizeMessage S) true
  | PeerMessage.close => ReceiverEvent.route closeMessage true
  | PeerMessage.data bytes => ReceiverEvent.write bytes

/-- The receiver state after a sequence of messages. -/
def peerRun (cfg : Config) (st : ReceiverState) (msgs : List PeerMessage) : Option ReceiverState :=
  receiverRun cfg st (msgs.map (PeerMessage.toEvent cfg))

/-- A sequence of messages in which the sending peer stays within what it
announced, by the peer's own account: `announced` is the size of its last
announcement (0 before the first one) and `sent` the number of data bytes it
wrote since it last selected or closed a file. Each size announcement is below
`2 ^ 32` and is zero or at least `sent`; each data write made after a non-zero
announcement keeps `sent` within `announced`. -/
def sendsWithinAnnounced : Nat → Nat → List PeerMessage → Bool
  | _, _, [] => true
  | announced, _, PeerMessage.fileSelect _ _ :: rest => sendsWithinAnnounced announced 0 rest
  | _, sent, PeerMessage.sizeAnnounce S :: rest =>
    decide (S < 2 ^ 32) && (S == 0 || decide (sent ≤ S)) && sendsWithinAnnounced S sent rest
  | announced, _, PeerMessage.close :: rest => sendsWithinAnnounced announced 0 rest
  | announced, sent, PeerMessage.data bytes :: rest =>
    (announced == 0 || decide (sent + bytes.length ≤ announced)) &&
      sendsWithinAnnounced announced (sent + bytes.length) rest

/-- What the receiver state and the account of the sending peer have in common:
the expected size is zero or the size announced last, the received size is at
most the number of bytes sent, it is zero while no file is open, and the peer
is within its announcement. -/
def AgreesWithPeer (st : ReceiverState) (announced sent : Nat) : Prop :=
  (st.FileReceiverExpectedSize = 0 ∨ st.FileReceiverExpectedSize = announced) ∧
  st.FileReceiverReceivedSize ≤ sent ∧
  (st.FileReceiver = none → st.FileReceiverReceivedSize = 0) ∧
  (announced = 0 ∨ sent ≤ announced)

/-- A byte list without a NUL byte. -/
def NulFree (s : List Nat) : Prop := ∀ c ∈ s, c ≠ 0

/-- Total number of bytes of a sequence of data writes. -/
def totalLength (chunks : List (List Nat)) : Nat := (chunks.map List.length).sum

/-! ## BLE file sender -/

/-- The accessors of the `DateTime` value that `getBLETime` reads. -/
structure DateTime where
  year : Nat
  month : Nat
  day : Nat
  hour : Nat
  minute : Nat
  second : Nat
deriving DecidableEq, Repr

/-- The assignments of `getBLETime` to `BLELocalTime`, given the value of its
local `UTCTime` and the global `timeZone`; `adjust` keeps its initial 0. -/
def getBLETime (UTCTime : DateTime) (timeZone : Int) : bt_time_t :=
  { year := UTCTime.year % 65536
    month := UTCTime.month % 256
    wday := 0
    day := UTCTime.day % 256
    hour := UTCTime.hour % 256
    minutes := UTCTime.minute % 256
    seconds := UTCTime.second % 256
    fraction := 0
    adjust := 0
    tz := (timeZone % 256).toNat }

/-- The message that announces the time, as `FileSharingSendFile` builds it:
`sprintf( myDateTimeMarker, "%s%s", dateTimeMarker, dateTimeAsChar )` copies the
bytes of the record up to its first NUL byte. Only the string so built is kept:
the receiver reads its routing buffer as a string. -/
def dateTimeMessage (t : bt_time_t) : List Nat := dateTimeMarker ++ cString t.toBytes

/-- A file of `BLE_FS` opened for reading: the value of `size()` and the
successive results of `read( buff, BLE_FILECOPY_BUFFSIZE )`. -/
structure StoredFile where
  size : Nat
  reads : List (List Nat)
deriving DecidableEq, Repr

/-- The constant `BLE_FILECOPY_BUFFSIZE`. -/
def BLE_FILECOPY_BUFFSIZE : Nat := 512

/-- What the sending peer does to the outside world. -/
inductive SenderEvent where
  | fileOpen (filename : List Nat) (ok : Bool)
  | routeWrite (data : List Nat) (ok : Bool)
  | dataWrite (data : List Nat) (ok : Bool)
  | progressBar (percent : Int)
deriving DecidableEq, Repr

/-- The outside world of the sending peer: the files of `BLE_FS`, the result of
the `n`-th call of `writeValue` (counted from 0 over both characteristics), the
clock read by `getBLETime`, and the outcomes of the connection steps. -/
structure SenderEnv where
  fsOpen : List Nat → Option StoredFile
  writeOk : Nat → Bool
  UTCTime : DateTime
  timeZone : Int
  connectOk : Bool := true
  serviceFound : Bool := true
  writeCharFound : Bool := true
  routeCharFound : Bool := true

/-- State of the sending peer: the global `fileSharingSendFileError`, the number
of `writeValue` calls made, the events so far, and the value of `percent`
computed for each chunk. -/
structure SenderState where
  fileSharingSendFileError : Bool := false
  writes : Nat := 0
  trace : List SenderEvent := []
  percents : List Int := []
deriving DecidableEq, Repr

/-- A call `FileSharingRouterRemoteChar->writeValue(...)`: the result and the
state after it. -/
def routeWriteValue (env : SenderEnv) (st : SenderState) (data : List Nat) : Bool × SenderState :=
  (env.writeOk st.writes,
   { st with
     writes := st.writes + 1
     trace := st.trace ++ [SenderEvent.routeWrite data (env.writeOk st.writes)] })

/-- The `while ( len > 0 )` loop of `FileSharingSendFile`, run over the results
of the successive reads; `progress` and `lastpercent` are its local variables. -/
def sendLoop (env : SenderEnv) (totalsize : Nat) :
    List (List Nat) → Nat → Int → SenderState → SenderState
  | [], _, _, st => st
  | r :: rest, progress, lastpercent, st =>
    let buff := r.take BLE_FILECOPY_BUFFSIZE
    let len := buff.length
    if len = 0 then st
    else
      let progress1 := (progress + 2 ^ 32 - len) % 2 ^ 32
      let percent := senderPercent progress1 totalsize
      let ok := env.writeOk st.writes
      let st1 : SenderState :=
        { st with
          writes := st.writes + 1
          trace := st.trace ++ [SenderEvent.dataWrite buff ok]
          percents := st.percents ++ [percent] }
      if !ok then { st1 with fileSharingSendFileError := true }
      else if lastpercent ≠ percent then
        sendLoop env totalsize rest progress1 percent
          { st1 with trace := st1.trace ++ [SenderEvent.progressBar percent] }
      else sendLoop env totalsize rest progress1 lastpercent st1

/-- The function `FileSharingSendFile`. -/
def FileSharingSendFile (env : SenderEnv) (filename : List Nat) (st : SenderState) : SenderState :=
  let st0 : SenderState := { st with fileSharingSendFileError := false }
  match env.fsOpen filename with
  | none =>
    { st0 with
      fileSharingSendFileError := true
      trace := st0.trace ++ [SenderEvent.fileOpen filename false] }
  | some fileToTransfert =>
    let st1 : SenderState := { st0 with trace := st0.trace ++ [SenderEvent.fileOpen filename true] }
    let totalsize := fileToTransfert.size % 2 ^ 32
    let st2 := (routeWriteValue env st1 (sizeMessage totalsize)).2
    let st3 := (routeWriteValue env st2 (dateTimeMessage (getBLETime env.UTCTime env.timeZone))).2
    let st4 : SenderState := { st3 with trace := st3.trace ++ [SenderEvent.progressBar 0] }
    let st5 := sendLoop env totalsize fileToTransfert.reads totalsize 0 st4
    { st5 with trace := st5.trace ++ [SenderEvent.progressBar 0] }

/-- The first `if` statement of `FileSharingClientTask` after the connection:
selection, transfer and close of the first file. -/
def sendFirstFile (cfg : Config) (env : SenderEnv) (st : SenderState) : SenderState :=
  let w := routeWriteValue env st (cString cfg.BLEFileToSend)
  if w.1 then
    let st1 := FileSharingSendFile env cfg.BLEFileToSend w.2
    if !st1.fileSharingSendFileError then (routeWriteValue env st1 closeMessage).2
    else st1
  else w.2

/-- The second `if` statement of `FileSharingClientTask`: selection, transfer
and close of the second file, then the restart message. -/
def sendSecondFile (cfg : Config) (env : SenderEnv) (st : SenderState) : SenderState :=
  if !st.fileSharingSendFileError then
    let w := routeWriteValue env st (cString cfg.MACFileToSend)
    if w.1 then
      let st1 := FileSharingSendFile env cfg.MACFileToSend w.2
      if !st1.fileSharingSendFileError then
        let c := routeWriteValue env st1 closeMessage
        if c.1 then (routeWriteValue env c.2 restartMessage).2
        else c.2
      else st1
    else w.2
  else st

/-- The function `FileSharingClientTask`: when the connection, the service or one
of the two characteristics is missing the task ends before any write. -/
def FileSharingClientTask (cfg : Config) (env : SenderEnv) (st : SenderState) : SenderState :=
  if !env.connectOk then st
  else if !env.serviceFound then st
  else if !env.writeCharFound then st
  else if !env.routeCharFound then st
  else sendSecondFile cfg env (sendFirstFile cfg env st)

/-- A world in which both files hold the three bytes 1, 2, 3 and every
`writeValue` succeeds except the call number `refused`. -/
def exampleEnv (refused : Nat) : SenderEnv :=
  { fsOpen := fun _ => some { size := 3, reads := [[1, 2, 3]] }
    writeOk := fun n => n != refused
    UTCTime := { year := 2019, month := 6, day := 15, hour := 12, minute := 30, second := 45 }
    timeZone := 2 }

/-- Some event of the trace writes the restart message. -/
def restartWritten (trace : List SenderEvent) : Prop :=
  ∃ ok, SenderEvent.routeWrite restartMessage ok ∈ trace

/-- The second file completed: its selection message was written and accepted,
and after it a close message was written and accepted. -/
def secondFileClosed (cfg : Config) (trace : List SenderEvent) : Prop :=
  ∃ pre post, trace = pre ++ SenderEvent.routeWrite (cString cfg.MACFileToSend) true :: post ∧
    SenderEvent.routeWrite closeMessage true ∈ post

/-- The state of the sender when the client task, entered with the error flag
`flag`, reaches its second `if` statement. -/
def afterFirstFile (cfg : Config) (env : SenderEnv) (flag : Bool) : SenderState :=
  sendFirstFile cfg env { fileSharingSendFileError := flag }

/-- The state of the sender when the call `FileSharingSendFile( MACFileToSend )`
of the second `if` statement returns, the selection of the second file having
been written. -/
def afterSecondSend (cfg : Config) (env : SenderEnv) (flag : Bool) : SenderState :=
  FileSharingSendFile env cfg.MACFileToSend
    (routeWriteValue env (afterFirstFile cfg env flag) (cString cfg.MACFileToSend)).2

/-- A world in which every connection step succeeds. -/
def SenderEnv.connected (env : SenderEnv) : Prop :=
  env.connectOk = true ∧ env.serviceFound = true ∧ env.writeCharFound = true ∧
    env.routeCharFound = true

/-- A world in which both files hold the three bytes 1, 2, 3 and every
`writeValue` succeeds. -/
def acceptingEnv : SenderEnv :=
  { fsOpen := fun _ => some { size := 3, reads := [[1, 2, 3]] }
    writeOk := fun _ => true
    UTCTime := { year := 2019, month := 6, day := 15, hour := 12, minute := 30, second := 45 }
    timeZone := 2 }

/-- An event that `FileSharingSendFile` may produce: when it is a write to the
route characteristic, the payload starts with `s` (a size announcement) or with
`d` (a time announcement). -/
def PayloadEvent (e : SenderEvent) : Prop :=
  ∀ d ok, e = SenderEvent.routeWrite d ok → d.head? = some 115 ∨ d.head? = some 100

/-! ## Further definitions: slots in use, the time conversions -/

/-- Number of occupied slots of a cache (slots whose address is not empty). -/
def occupiedSlots (BLEDevCache : List BlueToothDevice) : Nat :=
  BLEDevCache.countP (fun d => d.address.getD 0 0 != 0)

/-- The three transfer counters of the receiver. -/
def ReceiverState.counters (st : ReceiverState) : Nat × Nat × Nat :=
  (st.FileReceiverExpectedSize, st.FileReceiverReceivedSize, st.FileReceiverProgress)

/-- A receiver with an open file and the given expected and received sizes. -/
def receivingExample (expected received progress : Nat) : ReceiverState :=
  { FileReceiver := some { path := exampleConfig.BLEFileToSend, content := [] }
    FileReceiverExpectedSize := expected
    FileReceiverReceivedSize := received
    FileReceiverProgress := progress }

/-- The two conversions of the class `DateTime` that `getBLETime` and
`setBLETime` use: `unixtime()` and the constructor from a `uint32_t`. The class
is declared outside `BLEFileSharing.h`, so the conversions are arguments. -/
structure DateTimeClass where
  unixtime : DateTime → Nat
  ofUnixtime : Nat → DateTime

/-- Reduction of an integer to an unsigned 32-bit value. -/
def wrap32 (v : Int) : Nat := (v % (2 ^ 32 : Int)).toNat

/-- The function `getBLETime` from the local time it reads:
`UTCTime = LocalTime.unixtime() - timeZone * 3600`, then the record. -/
def getBLETimeAt (dt : DateTimeClass) (LocalTime : DateTime) (timeZone : Int) : bt_time_t :=
  getBLETime (dt.ofUnixtime (wrap32 (Int.ofNat (dt.unixtime LocalTime) - timeZone * 3600)))
    timeZone

/-- The value of `LocalTime` in `setBLETime`: the record read as a UTC
`DateTime`, then `UTCTime.unixtime() + BLERemoteTime.tz * 3600` with the
unsigned byte `tz`. -/
def setBLETimeLocalTime (dt : DateTimeClass) (BLERemoteTime : bt_time_t) : DateTime :=
  let UTCTime : DateTime :=
    { year := BLERemoteTime.year, month := BLERemoteTime.month, day := BLERemoteTime.day
      hour := BLERemoteTime.hour, minute := BLERemoteTime.minutes
      second := BLERemoteTime.seconds }
  dt.ofUnixtime (wrap32 (Int.ofNat (dt.unixtime UTCTime) + Int.ofNat BLERemoteTime.tz * 3600))

/-- Days of the months of a common year. -/
def daysInMonth : List Nat := [31, 28, 31, 30, 31, 30, 31, 31, 30, 31, 30, 31]

/-- Days from 2000-01-01 to the given date, for the years 2000 to 2099. -/
def date2days (y m d : Nat) : Nat :=
  let yOff := if 2000 ≤ y then y - 2000 else y
  let days := d + (daysInMonth.take (m - 1)).sum + (if 2 < m ∧ yOff % 4 = 0 then 1 else 0)
  days + 365 * yOff + (yOff + 3) / 4 - 1

/-- Year offset and day of the year of a day count from 2000-01-01. -/
def splitYear : Nat → Nat → Nat → Nat × Nat
  | 0, yOff, days => (yOff, days)
  | fuel + 1, yOff, days =>
    let len := if yOff % 4 = 0 then 366 else 365
    if days < len then (yOff, days) else splitYear fuel (yOff + 1) (days - len)

/-- Month and day of the month of a day of the year. -/
def splitMonth (leap : Bool) : List Nat → Nat → Nat → Nat × Nat
  | [], m, days => (m, days + 1)
  | len :: rest, m, days =>
    let len1 := if leap && m == 2 then len + 1 else len
    if days < len1 then (m, days + 1) else splitMonth leap rest (m + 1) (days - len1)

/-- A `DateTime` class for the examples: the Gregorian calendar of the years
2000 to 2099, seconds counted from 1970-01-01. -/
def exampleDateTimeClass : DateTimeClass :=
  { unixtime := fun t =>
      ((date2days t.year t.month t.day * 24 + t.hour) * 60 + t.minute) * 60 + t.second
        + 946684800
    ofUnixtime := fun u =>
      let t := u - 946684800
      let yd := splitYear 200 0 (t / 86400)
      let md := splitMonth (yd.1 % 4 == 0) daysInMonth 1 yd.2
      { year := 2000 + yd.1, month := md.1, day := md.2
        hour := t / 3600 % 24, minute := t / 60 % 60, second := t % 60 } }

/-- The local time 2019-06-15 12:30:45 of the examples. -/
def exampleLocalTime : DateTime :=
  { year := 2019, month := 6, day := 15, hour := 12, minute := 30, second := 45 }

/-- The event is a write to the data characteristic. -/
def SenderEvent.isDataWrite : SenderEvent → Bool
  | SenderEvent.dataWrite _ _ => true
  | _ => false

/-- The event is a write to the data characteristic that was refused. -/
def SenderEvent.isRefusedData : SenderEvent → Bool
  | SenderEvent.dataWrite _ false => true
  | _ => false

/-- The event is a write to one of the two characteristics. -/
def SenderEvent.isCharacteristicWrite : SenderEvent → Bool
  | SenderEvent.dataWrite _ _ => true
  | SenderEvent.routeWrite _ _ => true
  | _ => false

/-- The values of the local `progress` of `FileSharingSendFile` after each chunk,
when no subtraction wraps: the bytes that remain to be sent. -/
def remainingAfter : Nat → List (List Nat) → List Nat
  | _, [] => []
  | progress, r :: rest => (progress - r.length) :: remainingAfter (progress - r.length) rest

/-- A world with one file of 1200 bytes, read in chunks of 500, 512 and 188
bytes, in which every write is accepted. -/
def streamEnv : SenderEnv :=
  { fsOpen := fun _ =>
      some { size := 1200
             reads := [List.replicate 500 65, List.replicate 512 66, List.replicate 188 67] }
    writeOk := fun _ => true
    UTCTime := exampleLocalTime
    timeZone := 2 }

/-! ## Theorems: slot selection -/

theorem scanLoop_range_free (BLEDevCache : List BlueToothDevice) (size : Nat) (hle : size ≤ 256)
    (hpos : 0 < size) :
    ∀ (n d : Nat),
      (∃ k, k < n ∧ slotFree BLEDevCache ((d + k) % size) = true) →
      ∃ k, k < n ∧
        (∀ st, scanLoop BLEDevCache size (List.range' d n) st = Sum.inl ((d + k) % size)) ∧
        slotFree BLEDevCache ((d + k) % size) = true ∧
        ∀ j, j < k → slotFree BLEDevCache ((d + j) % size) = false := by
  intro n
  induction n with
  | zero => rintro d ⟨k, hk, _⟩; omega
  | succ n ih =>
    intro d hex
    have hmod : (d % size) % 256 = d % size := by
      have := Nat.mod_lt d hpos
      exact Nat.mod_eq_of_lt (by omega)
    by_cases hd : slotFree BLEDevCache (d % size) = true
    · refine ⟨0, by omega, ?_, by simpa using hd, ?_⟩
      · intro st; simp [List.range'_succ, scanLoop, hmod, hd]
      · intro j hj; omega
    · have hex' : ∃ k, k < n ∧ slotFree BLEDevCache ((d + 1 + k) % size) = true := by
        obtain ⟨k, hk, hf⟩ := hex
        cases k with
        | zero => simp at hf; exact absurd hf hd
        | succ k => exact ⟨k, by omega, by rw [show d + 1 + k = d + (k + 1) by omega]; exact hf⟩
      obtain ⟨k, hk, hrun, hf, hbefore⟩ := ih (d + 1) hex'
      refine ⟨k + 1, by omega, ?_, ?_, ?_⟩
      · intro st
        rw [List.range'_succ]
        simp only [scanLoop, hmod, hd]
        rw [show d + (k + 1) = d + 1 + k by omega]
        exact hrun _
      · rw [show d + (k + 1) = d + 1 + k by omega]; exact hf
      · intro j hj
        cases j with
        | zero => simpa using hd
        | succ j =>
          rw [show d + (j + 1) = d + 1 + j by omega]
          exact hbefore j (by omega)

theorem scanStart_lt (size BLEDevCacheIndex : Nat) (hpos : 0 < size) :
    scanStart size BLEDevCacheIndex < size := Nat.mod_lt _ hpos

/-- Claim C2, amended. For a cache of `size` slots (`1 <= size <= 256`) with at
least one free slot and every value of `BLEDevCacheIndex`,
`getNextBLEDevCacheIndex` returns a free slot, the first one in the cyclic
order that starts at `((BLEDevCacheIndex + 1) mod 256) mod size`; that start is
`(BLEDevCacheIndex + 1) mod size` for every index below 255. -/
theorem C2_first_free (BLEDevCache : List BlueToothDevice) (size BLEDevCacheIndex : Nat)
    (hpos : 0 < size) (hle : size ≤ 256) (hlen : BLEDevCache.length = size)
    (hfree : ∃ i, i < size ∧ slotFree BLEDevCache i = true) :
    IsFirstFreeFrom BLEDevCache size (scanStart size BLEDevCacheIndex)
        (getNextBLEDevCacheIndex BLEDevCache size BLEDevCacheIndex) ∧
      (BLEDevCacheIndex < 255 →
        scanStart size BLEDevCacheIndex = (BLEDevCacheIndex + 1) % size) := by
  constructor
  · obtain ⟨i, hi, hf⟩ := hfree
    have hd := scanStart_lt size BLEDevCacheIndex hpos
    have hex : ∃ k, k < size ∧
        slotFree BLEDevCache ((scanStart size BLEDevCacheIndex + k) % size) = true := by
      by_cases h : scanStart size BLEDevCacheIndex ≤ i
      · refine ⟨i - scanStart size BLEDevCacheIndex, by omega, ?_⟩
        rw [show scanStart size BLEDevCacheIndex + (i - scanStart size BLEDevCacheIndex) = i by omega,
          Nat.mod_eq_of_lt hi]
        exact hf
      · refine ⟨i + size - scanStart size BLEDevCacheIndex, by omega, ?_⟩
        rw [show scanStart size BLEDevCacheIndex + (i + size - scanStart size BLEDevCacheIndex)
          = i + size by omega, Nat.add_mod_right, Nat.mod_eq_of_lt hi]
        exact hf
    obtain ⟨k, hk, hrun, hfk, hbefore⟩ :=
      scanLoop_range_free BLEDevCache size hle hpos size (scanStart size BLEDevCacheIndex) hex
    have hres : getNextBLEDevCacheIndex BLEDevCache size BLEDevCacheIndex
        = (scanStart size BLEDevCacheIndex + k) % size := by
      simp only [getNextBLEDevCacheIndex, hrun]
    exact ⟨k, hk, hres, by rw [hres]; exact hfk, hbefore⟩
  · intro h
    simp only [scanStart]
    rw [Nat.mod_eq_of_lt (by omega : BLEDevCacheIndex + 1 < 256)]

/-- Claim C2 on ten slots with slots 0 and 6 free, from index 3. -/
theorem C2_first_free_witness :
    IsFirstFreeFrom twoFreeExample 10 (scanStart 10 3)
        (getNextBLEDevCacheIndex twoFreeExample 10 3) ∧
      (3 < 255 → scanStart 10 3 = (3 + 1) % 10) :=
  C2_first_free twoFreeExample 10 3 (by decide) (by decide) (by decide) ⟨0, by decide, by decide⟩

/-- Claim C2, as stated, fails at `BLEDevCacheIndex = 255`: with slots 0 and 6
free the function returns slot 0, while the first free slot in the order that
starts at `(255 + 1) mod 10 = 6` is slot 6. -/
theorem C2_counterexample :
    ¬ IsFirstFreeFrom twoFreeExample 10 ((255 + 1) % 10)
        (getNextBLEDevCacheIndex twoFreeExample 10 255) := by
  rintro ⟨k, hk, hr, -, hbefore⟩
  have h0 : getNextBLEDevCacheIndex twoFreeExample 10 255 = 0 := by decide
  rw [h0] at hr
  have hk4 : 0 < k := by omega
  have := hbefore 0 hk4
  revert this
  decide

/-- Claim C1 (the code departs from it). On ten occupied slots where slot 3 alone
has the least hit count, with `BLEDevCacheIndex = 0`, the function returns
slot 1, whose hit count is 5, although slot 3 has hit count 0; the loop did
compute `outIndex = 3`. -/
theorem C1_returns_default_index :
    (∀ i, i < 10 → slotFree fullCacheExample i = false) ∧
    getNextBLEDevCacheIndex fullCacheExample 10 0 = 1 ∧
    slotHits fullCacheExample 1 = 5 ∧ slotHits fullCacheExample 3 = 0 ∧
    leastHitsIndex fullCacheExample 10 0 = some 3 := by
  decide


/-! ## Theorems: strings and the size announcement -/

theorem cString_append_zeros (s : List Nat) (k : Nat) :
    cString (s ++ List.replicate k 0) = cString s := by
  induction s with
  | nil => cases k <;> simp [cString, List.replicate_succ]
  | cons c rest ih =>
    by_cases hc : c = 0
    · simp [cString, hc]
    · have : cString (c :: (rest ++ List.replicate k 0)) = c :: cString (rest ++ List.replicate k 0) := by
        simp [cString, List.takeWhile_cons, hc]
      have h2 : cString (c :: rest) = c :: cString rest := by
        simp [cString, List.takeWhile_cons, hc]
      rw [List.cons_append, this, h2, ih]

theorem cString_of_nulFree (s : List Nat) (h : NulFree s) : cString s = s := by
  induction s with
  | nil => rfl
  | cons c rest ih =>
    have hc : c ≠ 0 := h c (List.mem_cons_self _ _)
    have hr : NulFree rest := fun x hx => h x (List.mem_cons_of_mem _ hx)
    have := ih hr
    simp only [cString] at this ⊢
    simp [List.takeWhile_cons, hc, this]

theorem cString_routingBuffer (data : List Nat) : cString (routingBuffer data) = cString data :=
  cString_append_zeros data _

theorem cString_drop_routingBuffer (data : List Nat) (pos : Nat) (h : NulFree data)
    (hpos : pos ≤ data.length) :
    cString ((routingBuffer data).drop pos) = data.drop pos := by
  unfold routingBuffer
  rw [List.drop_append_of_le_length hpos, cString_append_zeros]
  exact cString_of_nulFree _ (fun c hc => h c (List.mem_of_mem_drop hc))

theorem atoiDigits_append (xs ys : List Nat) (hx : ∀ c ∈ xs, isdigit c = true) (a : Nat) :
    atoiDigits (xs ++ ys) a = atoiDigits ys (atoiDigits xs a) := by
  induction xs generalizing a with
  | nil => rfl
  | cons c rest ih =>
    have hc : isdigit c = true := hx c (List.mem_cons_self _ _)
    simp only [List.cons_append, atoiDigits, hc, if_true]
    exact ih (fun x hxm => hx x (List.mem_cons_of_mem _ hxm)) _

theorem isdigit_digit (d : Nat) (h : d < 10) : isdigit (48 + d) = true := by
  simp only [isdigit, Bool.and_eq_true, decide_eq_true_eq]
  omega

theorem decimalAux_spec :
    ∀ (fuel n : Nat) (acc : List Nat), n < fuel →
      ∃ ds, decimalAux fuel n acc = ds ++ acc ∧ ds ≠ [] ∧ (∀ c ∈ ds, isdigit c = true) ∧
        ∀ a, atoiDigits ds a = a * 10 ^ ds.length + n := by
  intro fuel
  induction fuel with
  | zero => intro n acc h; omega
  | succ fuel ih =>
    intro n acc hn
    have hdig := isdigit_digit (n % 10) (Nat.mod_lt _ (by decide))
    by_cases h0 : n / 10 = 0
    · refine ⟨[48 + n % 10], by simp [decimalAux, h0], by simp, ?_, ?_⟩
      · intro c hc
        rw [List.mem_singleton] at hc
        rw [hc]; exact hdig
      · intro a
        simp only [atoiDigits, hdig, if_true, List.length_singleton, pow_one]
        omega
    · obtain ⟨ds, hrun, hne, hall, hval⟩ := ih (n / 10) ((48 + n % 10) :: acc) (by omega)
      refine ⟨ds ++ [48 + n % 10], ?_, by simp, ?_, ?_⟩
      · simp only [decimalAux, h0, if_false, hrun]
        simp
      · intro c hc
        rcases List.mem_append.1 hc with h | h
        · exact hall c h
        · rw [List.mem_singleton] at h
          rw [h]; exact hdig
      · intro a
        rw [atoiDigits_append ds _ hall, hval]
        simp only [atoiDigits, hdig, if_true, List.length_append, List.length_singleton]
        rw [pow_succ]
        have := Nat.div_add_mod n 10
        have e : 48 + n % 10 - 48 = n % 10 := by omega
        rw [e]
        nlinarith [Nat.div_add_mod n 10]

theorem decimal_spec (n : Nat) :
    decimal n ≠ [] ∧ (∀ c ∈ decimal n, isdigit c = true) ∧ atoiDigits (decimal n) 0 = n := by
  obtain ⟨ds, hrun, hne, hall, hval⟩ := decimalAux_spec (n + 1) n [] (Nat.lt_succ_self n)
  have : decimal n = ds := by simp [decimal, hrun]
  rw [this]
  exact ⟨hne, hall, by simpa using hval 0⟩

theorem nulFree_of_digits (ds : List Nat) (h : ∀ c ∈ ds, isdigit c = true) : NulFree ds := by
  intro c hc h0
  have := h c hc
  rw [h0] at this
  exact absurd this (by decide)

theorem atoi_decimal (n : Nat) (h : n < 2 ^ 31) : atoi (decimal n) = Int.ofNat n := by
  obtain ⟨hne, hall, hval⟩ := decimal_spec n
  have hnf := cString_of_nulFree _ (nulFree_of_digits _ hall)
  unfold atoi
  rw [hnf]
  cases hd : decimal n with
  | nil => exact absurd hd hne
  | cons c rest =>
    have hc : isdigit c = true := hall c (by rw [hd]; exact List.mem_cons_self _ _)
    have hb : 48 ≤ c ∧ c ≤ 57 := by
      simpa [isdigit] using hc
    have hsp : isspace c = false := by
      simp only [isspace, Bool.or_eq_false_iff, beq_eq_false_iff_ne, Bool.and_eq_false_iff,
        decide_eq_false_iff_not]
      omega
    rw [hd] at hval
    simp only [List.dropWhile_cons, hsp]
    have h45 : c ≠ 45 := by omega
    have h43 : c ≠ 43 := by omega
    simp only [Bool.false_eq_true, if_false, h45, h43, hval]
    congr 1
    omega

theorem decimalAux_length :
    ∀ (fuel k n : Nat) (acc : List Nat), n < 10 ^ k → 1 ≤ k →
      (decimalAux fuel n acc).length ≤ k + acc.length := by
  intro fuel
  induction fuel with
  | zero => intro k n acc _ _; simp [decimalAux]
  | succ fuel ih =>
    intro k n acc hn hk
    by_cases h0 : n / 10 = 0
    · simp only [decimalAux, h0, if_true, List.length_cons]; omega
    · simp only [decimalAux, h0, if_false]
      obtain ⟨j, rfl⟩ : ∃ j, k = j + 1 := ⟨k - 1, by omega⟩
      have hj : 1 ≤ j := by
        rcases Nat.eq_zero_or_pos j with hz | hp
        · subst hz; simp at hn; omega
        · exact hp
      have hdiv : n / 10 < 10 ^ j := by
        rw [pow_succ] at hn
        exact Nat.div_lt_of_lt_mul (by omega)
      have := ih j (n / 10) ((48 + n % 10) :: acc) hdiv hj
      simp only [List.length_cons] at this
      omega

theorem decimal_length_le (n : Nat) (h : n < 2 ^ 32) : (decimal n).length ≤ 10 := by
  have := decimalAux_length (n + 1) 10 n [] (by norm_num at h ⊢; omega) (by decide)
  simpa [decimal] using this

theorem strstrAux_of_isPrefixOf (needle hay : List Nat) (h : needle.isPrefixOf hay = true) :
    strstrAux needle hay = some hay := by
  cases hay <;> simp [strstrAux, h]

theorem nulFree_append {a b : List Nat} (ha : NulFree a) (hb : NulFree b) : NulFree (a ++ b) := by
  intro c hc
  rcases List.mem_append.1 hc with h | h
  · exact ha c h
  · exact hb c h

theorem nulFree_sizeMarker : NulFree sizeMarker := by
  intro c hc; revert c; decide

/-- A payload made of `"size:"` followed by a non-empty string without NUL sets
the expected size to `atoi` of that string. -/
theorem onWrite_sizeMarker_append (cfg : Config) (st : ReceiverState) (rest : List Nat)
    (openOk : Bool) (hnf : NulFree rest) (hne : rest ≠ []) (hlen : rest.length < 507) :
    FileSharingRouteCallbacks_onWrite cfg st (sizeMarker ++ rest) openOk =
      some { st with
        FileReceiverExpectedSize := toSizeT (atoi rest)
        Out := st.Out ++ [sizeMarker ++ rest, []] } := by
  have hnfm : NulFree (sizeMarker ++ rest) := nulFree_append nulFree_sizeMarker hnf
  have hcs : cString (routingBuffer (sizeMarker ++ rest)) = sizeMarker ++ rest := by
    rw [cString_routingBuffer, cString_of_nulFree _ hnfm]
  have hsl : sizeMarker.length = 5 := by decide
  have hcm : cString sizeMarker = sizeMarker := cString_of_nulFree _ nulFree_sizeMarker
  have hbranch : routeBranch (routingBuffer (sizeMarker ++ rest)) = RouteBranch.size := by
    have : strstr (routingBuffer (sizeMarker ++ rest)) sizeMarker = some (sizeMarker ++ rest) := by
      unfold strstr
      rw [hcs, hcm]
      exact strstrAux_of_isPrefixOf _ _ (by simp)
    simp [routeBranch, this]
  have hlen1 : strlen (routingBuffer (sizeMarker ++ rest)) = 5 + rest.length := by
    simp [strlen, hcs, hsl]
  have hlen2 : strlen sizeMarker = 5 := by simp [strlen, hcm, hsl]
  have hpos : 0 < rest.length := List.length_pos.2 hne
  have hsub : substr (routingBuffer (sizeMarker ++ rest)) 5
      ((5 + rest.length : Nat) - (5 : Nat) : Int) = some rest := by
    have hd : cString ((routingBuffer (sizeMarker ++ rest)).drop 5) = rest := by
      rw [cString_drop_routingBuffer _ 5 hnfm (by simp [hsl])]
      rw [← hsl, List.drop_left]
    have e : ((5 + rest.length : Nat) - (5 : Nat) : Int) = (rest.length : Int) := by
      push_cast; ring
    rw [e]
    simp only [substr, hd]
    have : (0 : Int) < rest.length := by exact_mod_cast hpos
    simp [this]
  have hshort : ¬ 512 ≤ (sizeMarker ++ rest).length := by
    simp [hsl]; omega
  unfold FileSharingRouteCallbacks_onWrite
  simp only [hshort, if_false, hbranch, hlen1, hlen2, hcs]
  have hgt : 5 + rest.length > 5 := by omega
  simp only [hgt, if_true, hsub]

theorem atoi_neg_decimal (k : Nat) (h : k ≤ 2 ^ 31) : atoi (45 :: decimal k) = -(Int.ofNat k) := by
  obtain ⟨_, hall, hval⟩ := decimal_spec k
  have hnf : cString (45 :: decimal k) = 45 :: decimal k := by
    apply cString_of_nulFree
    intro c hc
    rcases List.mem_cons.1 hc with h | h
    · rw [h]; decide
    · exact nulFree_of_digits _ hall c h
  unfold atoi
  rw [hnf]
  have hsp : isspace 45 = false := by decide
  simp only [List.dropWhile_cons, hsp, Bool.false_eq_true, if_false, if_true, hval]
  congr 2
  omega

theorem toSizeT_ofNat (n : Nat) (h : n < 2 ^ 32) : toSizeT (Int.ofNat n) = n := by
  simp only [toSizeT]
  have h1 : (Int.ofNat n) % (2 ^ 32 : Int) = Int.ofNat n := by
    apply Int.emod_eq_of_lt
    · exact Int.ofNat_nonneg _
    · have : (n : Int) < 2 ^ 32 := by exact_mod_cast h
      simpa using this
  rw [h1]; rfl

theorem toSizeT_neg (k : Nat) (h0 : 0 < k) (h : k ≤ 2 ^ 32) :
    toSizeT (-(Int.ofNat k)) = 2 ^ 32 - k := by
  simp only [toSizeT]
  have e : (-(Int.ofNat k)) % (2 ^ 32 : Int) = ((2 ^ 32 - k : Nat) : Int) := by
    have h2 : (-(Int.ofNat k)) = ((2 ^ 32 - k : Nat) : Int) + (2 ^ 32 : Int) * (-1) := by
      have : ((2 ^ 32 - k : Nat) : Int) = (2 ^ 32 : Int) - (k : Int) := by
        rw [Nat.cast_sub h]; norm_num
      rw [this]; simp only [Int.ofNat_eq_coe]; ring
    rw [h2, Int.add_mul_emod_self_left]
    apply Int.emod_eq_of_lt
    · exact Int.natCast_nonneg _
    · have : (2 ^ 32 - k : Nat) < 2 ^ 32 := by omega
      exact_mod_cast this
  rw [e]; rfl

/-- The route handler given the size announcement that the sender builds for a
`size_t` value `S`: the expected size becomes `S`. -/
theorem onWrite_sizeMessage (cfg : Config) (st : ReceiverState) (openOk : Bool) (S : Nat)
    (hS : S < 2 ^ 32) :
    FileSharingRouteCallbacks_onWrite cfg st (sizeMessage S) openOk =
      some { st with
        FileReceiverExpectedSize := S
        Out := st.Out ++ [sizeMessage S, []] } := by
  have hmod : S % 2 ^ 32 = S := Nat.mod_eq_of_lt hS
  by_cases hlt : S < 2 ^ 31
  · have hmsg : sizeMessage S = sizeMarker ++ decimal S := by
      simp only [sizeMessage, sprintf_d, hmod, hlt, if_true]
    obtain ⟨hne, hall, _⟩ := decimal_spec S
    have hl := decimal_length_le S hS
    rw [hmsg, onWrite_sizeMarker_append cfg st (decimal S) openOk (nulFree_of_digits _ hall) hne
      (by omega), atoi_decimal S hlt, toSizeT_ofNat S hS]
  · have hmsg : sizeMessage S = sizeMarker ++ (45 :: decimal (2 ^ 32 - S)) := by
      simp only [sizeMessage, sprintf_d, hmod, hlt, if_false]
    obtain ⟨_, hall, _⟩ := decimal_spec (2 ^ 32 - S)
    have hl := decimal_length_le (2 ^ 32 - S) (by omega)
    have hnf : NulFree (45 :: decimal (2 ^ 32 - S)) := by
      intro c hc
      rcases List.mem_cons.1 hc with h | h
      · rw [h]; decide
      · exact nulFree_of_digits _ hall c h
    rw [hmsg, onWrite_sizeMarker_append cfg st _ openOk hnf (by simp)
      (by simp only [List.length_cons]; omega), atoi_neg_decimal _ (by omega),
      toSizeT_neg _ (by omega) (by omega)]
    congr 2
    omega

/-- Claim C3. For every size `S` below `2 ^ 31`, every receiver state and file
names, the message that `FileSharingSendFile` builds for `S` is the marker
`size:` followed by `S` in decimal, and the route handler given that message
returns and leaves `FileReceiverExpectedSize` equal to `S`; only the console
changes besides. -/
theorem C3_size_round_trip (cfg : Config) (st : ReceiverState) (openOk : Bool) (S : Nat)
    (hS : S < 2 ^ 31) :
    sizeMessage S = sizeMarker ++ decimal S ∧
    FileSharingRouteCallbacks_onWrite cfg st (sizeMessage S) openOk =
      some { st with
        FileReceiverExpectedSize := S
        Out := st.Out ++ [sizeMessage S, []] } := by
  have hmod : S % 2 ^ 32 = S := Nat.mod_eq_of_lt (by omega)
  refine ⟨?_, onWrite_sizeMessage cfg st openOk S (by omega)⟩
  simp only [sizeMessage, sprintf_d, hmod, hS, if_true]

/-- Claim C3 at `S = 1024`: the message is `size:1024` and the expected size
becomes 1024. -/
theorem C3_size_round_trip_witness :
    sizeMessage 1024 = cstr "size:1024" ∧
    (sizeMessage 1024 = sizeMarker ++ decimal 1024 ∧
      FileSharingRouteCallbacks_onWrite exampleConfig initialReceiver (sizeMessage 1024) true =
        some { initialReceiver with
          FileReceiverExpectedSize := 1024
          Out := initialReceiver.Out ++ [sizeMessage 1024, []] }) :=
  ⟨by decide, C3_size_round_trip exampleConfig initialReceiver true 1024 (by decide)⟩

/-! ## Theorems: the file receiver -/

theorem strstr_routingBuffer (data needle : List Nat) :
    strstr (routingBuffer data) needle = strstr data needle := by
  simp only [strstr, cString_routingBuffer]

theorem strcmpEq_routingBuffer (data other : List Nat) :
    strcmpEq (routingBuffer data) other = strcmpEq data other := by
  simp only [strcmpEq, cString_routingBuffer]

theorem strcmpEq_self (s : List Nat) : strcmpEq s s = true := by
  simp [strcmpEq]

theorem routeBranch_routingBuffer (data : List Nat) :
    routeBranch (routingBuffer data) = routeBranch data := by
  simp only [routeBranch, strstr_routingBuffer, strcmpEq_routingBuffer]

theorem strcmpEq_slash_ne (name other : List Nat) (h : other.head? ≠ some 47)
    (hother : NulFree other) : strcmpEq (47 :: name) other = false := by
  simp only [strcmpEq, cString_of_nulFree other hother]
  have : cString (47 :: name) = 47 :: cString name := by
    simp [cString, List.takeWhile_cons]
  rw [this]
  cases other with
  | nil => simp
  | cons c rest =>
    have hc : c ≠ 47 := by simpa using h
    simp only [beq_eq_false_iff_ne, ne_eq, List.cons.injEq, not_and]
    intro h47
    exact absurd h47.symm hc

theorem routeBranch_BLEFile (cfg : Config) (hcfg : cfg.WellFormed) :
    routeBranch cfg.BLEFileToSend = RouteBranch.filenames := by
  obtain ⟨_, _, _, _, h1, h2, _, _⟩ := hcfg
  have hc : strcmpEq cfg.BLEFileToSend closeMessage = false :=
    strcmpEq_slash_ne _ _ (by decide) (by intro c hc; revert c; decide)
  have hr : strcmpEq cfg.BLEFileToSend restartMessage = false :=
    strcmpEq_slash_ne _ _ (by decide) (by intro c hc; revert c; decide)
  simp [routeBranch, h1, h2, hc, hr]

theorem routeBranch_MACFile (cfg : Config) (hcfg : cfg.WellFormed) :
    routeBranch cfg.MACFileToSend = RouteBranch.filenames := by
  obtain ⟨_, _, _, _, _, _, h1, h2⟩ := hcfg
  have hc : strcmpEq cfg.MACFileToSend closeMessage = false :=
    strcmpEq_slash_ne _ _ (by decide) (by intro c hc; revert c; decide)
  have hr : strcmpEq cfg.MACFileToSend restartMessage = false :=
    strcmpEq_slash_ne _ _ (by decide) (by intro c hc; revert c; decide)
  simp [routeBranch, h1, h2, hc, hr]

/-- What the route handler does with a file-selection message. -/
theorem onWrite_fileSelect (cfg : Config) (hcfg : cfg.WellFormed) (st : ReceiverState)
    (second openOk : Bool) :
    ∃ st1, FileSharingRouteCallbacks_onWrite cfg st
        (if second then cfg.MACFileToSend else cfg.BLEFileToSend) openOk = some st1 ∧
      st1.FileReceiverReceivedSize = 0 ∧ st1.FileReceiverProgress = 0 ∧
      st1.FileReceiverExpectedSize = st.FileReceiverExpectedSize ∧
      st1.FileReceiver.isSome = openOk := by
  have hB := routeBranch_BLEFile cfg hcfg
  have hM := routeBranch_MACFile cfg hcfg
  obtain ⟨_, _, hlB, hlM, _, _, _, _⟩ := hcfg
  cases second
  · simp only [Bool.false_eq_true, if_false]
    unfold FileSharingRouteCallbacks_onWrite
    simp only [Nat.not_le.2 hlB, if_false, routeBranch_routingBuffer, hB, strcmpEq_routingBuffer,
      strcmpEq_self, if_true]
    refine ⟨_, rfl, ?_⟩
    by_cases hsame : strcmpEq cfg.BLEFileToSend cfg.MACFileToSend = true
    · cases openOk <;> simp [hsame, FileSharingReceiveFile]
    · cases openOk <;> simp [hsame, FileSharingReceiveFile]
  · simp only [if_true]
    unfold FileSharingRouteCallbacks_onWrite
    simp only [Nat.not_le.2 hlM, if_false, routeBranch_routingBuffer, hM, strcmpEq_routingBuffer,
      strcmpEq_self, if_true]
    refine ⟨_, rfl, ?_⟩
    by_cases hsame : strcmpEq cfg.MACFileToSend cfg.BLEFileToSend = true
    · cases openOk <;> simp [hsame, FileSharingReceiveFile]
    · cases openOk <;> simp [hsame, FileSharingReceiveFile]

/-- What the route handler does with the close message. -/
theorem onWrite_close (cfg : Config) (st : ReceiverState) (openOk : Bool) :
    FileSharingRouteCallbacks_onWrite cfg st closeMessage openOk =
      some { FileSharingCloseFile st with
        Out := (FileSharingCloseFile st).Out ++ [closeMessage, []] } := by
  have h1 : ¬ 512 ≤ closeMessage.length := by decide
  have h2 : routeBranch closeMessage = RouteBranch.close := by decide
  have h3 : cString closeMessage = closeMessage := by decide
  unfold FileSharingRouteCallbacks_onWrite
  simp only [h1, if_false, routeBranch_routingBuffer, h2, cString_routingBuffer, h3]

/-- Claim C4 (the code departs from it). The payload `abcde123size:` does not
start with `size:`, yet the route handler takes its size branch and sets
`FileReceiverExpectedSize` to 123; the payload `xdateTime:ab` does not start
with `dateTime:`, yet the handler takes its time branch. -/
theorem C4_marker_inside_payload :
    sizeMarker.isPrefixOf (cstr "abcde123size:") = false ∧
    routeBranch (routingBuffer (cstr "abcde123size:")) = RouteBranch.size ∧
    FileSharingRouteCallbacks_onWrite exampleConfig initialReceiver (cstr "abcde123size:") true =
      some { initialReceiver with
        FileReceiverExpectedSize := 123
        Out := [cstr "abcde123size:", []] } ∧
    dateTimeMarker.isPrefixOf (cstr "xdateTime:ab") = false ∧
    routeBranch (routingBuffer (cstr "xdateTime:ab")) = RouteBranch.dateTime := by
  decide

theorem onWrite_data_ignored (st : ReceiverState) (data : List Nat)
    (h : st.FileReceiverExpectedSize = 0) :
    FileSharingWriteCallbacks_onWrite st data = st := by
  simp [FileSharingWriteCallbacks_onWrite, h]

/-- Claim C6. With `FileReceiverExpectedSize == 0`, a write of any bytes to the
data characteristic leaves the whole receiver state as it was: nothing is
appended to the file and the three counters keep their values. -/
theorem C6_write_without_size (st : ReceiverState) (data : List Nat)
    (h : st.FileReceiverExpectedSize = 0) :
    FileSharingWriteCallbacks_onWrite st data = st :=
  onWrite_data_ignored st data h

/-- Claim C6 at a state with an open file and counters 7 and 3. -/
theorem C6_write_without_size_witness :
    FileSharingWriteCallbacks_onWrite
        { initialReceiver with
          FileReceiver := some { path := exampleConfig.BLEFileToSend, content := [] }
          FileReceiverReceivedSize := 7
          FileReceiverProgress := 3 } [1, 2, 3] =
      { initialReceiver with
        FileReceiver := some { path := exampleConfig.BLEFileToSend, content := [] }
        FileReceiverReceivedSize := 7
        FileReceiverProgress := 3 } :=
  C6_write_without_size _ [1, 2, 3] rfl

/-- Claim C8, as stated, fails: after a size announcement of 100 the selection
of the first file leaves `FileReceiverExpectedSize` at 100, not 0. -/
theorem C8_counterexample :
    (receiverRun exampleConfig initialReceiver
        [ReceiverEvent.route (cstr "size:100") true,
         ReceiverEvent.route exampleConfig.BLEFileToSend true]).map
      (fun st => (st.FileReceiverExpectedSize, st.FileReceiverReceivedSize,
        st.FileReceiverProgress)) = some (100, 0, 0) := by
  decide

/-- Claim C8, amended. For every prior receiver state, the route handler given
a message equal to one of the two known file names returns, with
`FileReceiverReceivedSize` and `FileReceiverProgress` at 0 and
`FileReceiverExpectedSize` at its prior value. -/
theorem C8_file_select_resets (cfg : Config) (hcfg : cfg.WellFormed) (st : ReceiverState)
    (msg : List Nat) (openOk : Bool)
    (hmsg : msg = cfg.BLEFileToSend ∨ msg = cfg.MACFileToSend) :
    ∃ st1, FileSharingRouteCallbacks_onWrite cfg st msg openOk = some st1 ∧
      st1.FileReceiverReceivedSize = 0 ∧ st1.FileReceiverProgress = 0 ∧
      st1.FileReceiverExpectedSize = st.FileReceiverExpectedSize := by
  rcases hmsg with h | h
  · obtain ⟨st1, h1, h2, h3, h4, _⟩ := onWrite_fileSelect cfg hcfg st false openOk
    exact ⟨st1, by simpa [h] using h1, h2, h3, h4⟩
  · obtain ⟨st1, h1, h2, h3, h4, _⟩ := onWrite_fileSelect cfg hcfg st true openOk
    exact ⟨st1, by simpa [h] using h1, h2, h3, h4⟩

/-- Claim C8 at a state with counters 100, 40 and 40. -/
theorem C8_file_select_resets_witness :
    ∃ st1, FileSharingRouteCallbacks_onWrite exampleConfig
        { initialReceiver with
          FileReceiverExpectedSize := 100
          FileReceiverReceivedSize := 40
          FileReceiverProgress := 40 } exampleConfig.MACFileToSend true = some st1 ∧
      st1.FileReceiverReceivedSize = 0 ∧ st1.FileReceiverProgress = 0 ∧
      st1.FileReceiverExpectedSize = 100 :=
  C8_file_select_resets exampleConfig (by decide) _ exampleConfig.MACFileToSend true
    (Or.inr rfl)

theorem receiverRun_append (cfg : Config) (st : ReceiverState) (xs ys : List ReceiverEvent) :
    receiverRun cfg st (xs ++ ys) = (receiverRun cfg st xs).bind (fun s => receiverRun cfg s ys) := by
  induction xs generalizing st with
  | nil => simp [receiverRun]
  | cons e rest ih =>
    simp only [List.cons_append, receiverRun]
    cases receiverStep cfg st e with
    | none => simp
    | some st1 => simpa using ih st1

/-- One counted data write: the file is open and a size was announced. -/
theorem onWrite_data_counted (st : ReceiverState) (data : List Nat) (f : FsFile)
    (hE : st.FileReceiverExpectedSize ≠ 0) (hf : st.FileReceiver = some f) :
    (FileSharingWriteCallbacks_onWrite st data).FileReceiverExpectedSize
        = st.FileReceiverExpectedSize ∧
    (FileSharingWriteCallbacks_onWrite st data).FileReceiverReceivedSize
        = (st.FileReceiverReceivedSize + data.length) % 2 ^ 32 ∧
    (FileSharingWriteCallbacks_onWrite st data).FileReceiver
        = some { f with content := f.content ++ data } ∧
    (FileSharingWriteCallbacks_onWrite st data).Out = st.Out := by
  unfold FileSharingWriteCallbacks_onWrite
  simp only [hE, if_false, hf]
  split <;> simp

/-- A run of data writes with the file open and a non-zero announced size. -/
theorem receiverRun_writes (cfg : Config) (chunks : List (List Nat)) :
    ∀ (st : ReceiverState) (f : FsFile), st.FileReceiverExpectedSize ≠ 0 →
      st.FileReceiver = some f → st.FileReceiverReceivedSize < 2 ^ 32 →
      ∃ st1, receiverRun cfg st (chunks.map ReceiverEvent.write) = some st1 ∧
        st1.FileReceiverExpectedSize = st.FileReceiverExpectedSize ∧
        st1.FileReceiverReceivedSize = (st.FileReceiverReceivedSize + totalLength chunks) % 2 ^ 32 ∧
        st1.FileReceiver.isSome = true ∧ st1.Out = st.Out := by
  induction chunks with
  | nil =>
    intro st f hE hf hR
    refine ⟨st, rfl, rfl, ?_, by simp [hf], rfl⟩
    simp only [totalLength, List.map_nil, List.sum_nil, Nat.add_zero]
    exact (Nat.mod_eq_of_lt hR).symm
  | cons d rest ih =>
    intro st f hE hf hR
    obtain ⟨h1, h2, h3, h4⟩ := onWrite_data_counted st d f hE hf
    obtain ⟨st1, hrun, hE1, hR1, hF1, hO1⟩ :=
      ih (FileSharingWriteCallbacks_onWrite st d) _ (by rw [h1]; exact hE) h3
        (by rw [h2]; exact Nat.mod_lt _ (by decide))
    refine ⟨st1, ?_, by rw [hE1, h1], ?_, hF1, by rw [hO1, h4]⟩
    · simp only [List.map_cons, receiverRun, receiverStep]
      exact hrun
    · rw [hR1, h2]
      simp only [totalLength, List.map_cons, List.sum_cons]
      simp only [totalLength] at *
      omega

/-- A run of data writes while no size is announced leaves the state as it was. -/
theorem receiverRun_writes_ignored (cfg : Config) (chunks : List (List Nat))
    (st : ReceiverState) (hE : st.FileReceiverExpectedSize = 0) :
    receiverRun cfg st (chunks.map ReceiverEvent.write) = some st := by
  induction chunks with
  | nil => rfl
  | cons d rest ih =>
    simp only [List.map_cons, receiverRun, receiverStep, onWrite_data_ignored st d hE]
    exact ih

/-- Claim C5, as stated, fails for an announced size of 0: the data write of five
bytes is ignored and the close message reports success although 5 ≠ 0. -/
theorem C5_counterexample :
    (peerRun exampleConfig initialReceiver
        [PeerMessage.fileSelect false true, PeerMessage.sizeAnnounce 0,
         PeerMessage.data [1, 2, 3, 4, 5], PeerMessage.close]).map (fun st => st.Out) =
      some [exampleConfig.BLEFileToSend, [], cstr "size:0", [],
        cstr "Copy successful!", closeMessage, []] := by
  decide

/-- Claim C5, amended. From any receiver state, after the selection of a known
file that opens, the announcement of a size `S < 2 ^ 32` and data writes of
`chunks` (fewer than `2 ^ 32` bytes in all when `S` is not zero), the handlers
return; `FileReceiverExpectedSize` is `S` and `FileReceiverReceivedSize` is the
total number of bytes written when `S` is not zero, and 0 when `S` is zero (the
writes are then ignored). The close message then prints `Copy successful!` when
`S` is zero or the total equals `S`, and `Copy Failed, please try again.` in
every other case, and resets the three counters. -/
theorem C5_transfer_accounting (cfg : Config) (hcfg : cfg.WellFormed) (st0 : ReceiverState)
    (second : Bool) (S : Nat) (chunks : List (List Nat))
    (hS : S < 2 ^ 32) (htotal : 0 < S → totalLength chunks < 2 ^ 32) :
    ∃ st1 st2,
      peerRun cfg st0 ([PeerMessage.fileSelect second true, PeerMessage.sizeAnnounce S]
        ++ chunks.map PeerMessage.data) = some st1 ∧
      st1.FileReceiverReceivedSize = (if S = 0 then 0 else totalLength chunks) ∧
      st1.FileReceiverExpectedSize = S ∧
      receiverStep cfg st1 (PeerMessage.close.toEvent cfg) = some st2 ∧
      st2.Out = st1.Out ++
        [if S = 0 ∨ totalLength chunks = S then cstr "Copy successful!"
         else cstr "Copy Failed, please try again.", closeMessage, []] ∧
      st2.FileReceiverExpectedSize = 0 ∧ st2.FileReceiverReceivedSize = 0 ∧
      st2.FileReceiverProgress = 0 := by
  obtain ⟨sa, hsa, hRa, _, hEa, hFa⟩ := onWrite_fileSelect cfg hcfg st0 second true
  have hsb := onWrite_sizeMessage cfg sa true S hS
  obtain ⟨f, hf⟩ := Option.isSome_iff_exists.1 hFa
  have hmap : (chunks.map PeerMessage.data).map (PeerMessage.toEvent cfg)
      = chunks.map ReceiverEvent.write := by
    rw [List.map_map]; exact List.map_congr_left (fun d _ => rfl)
  have hpeer : ∀ st1, receiverRun cfg
      { sa with FileReceiverExpectedSize := S, Out := sa.Out ++ [sizeMessage S, []] }
      (chunks.map ReceiverEvent.write) = some st1 →
      peerRun cfg st0 ([PeerMessage.fileSelect second true, PeerMessage.sizeAnnounce S]
        ++ chunks.map PeerMessage.data) = some st1 := by
    intro st1 hrun
    show receiverRun cfg st0
      (ReceiverEvent.route (if second then cfg.MACFileToSend else cfg.BLEFileToSend) true ::
        ReceiverEvent.route (sizeMessage S) true ::
          (chunks.map PeerMessage.data).map (PeerMessage.toEvent cfg)) = some st1
    rw [hmap]
    simp only [receiverRun, receiverStep, hsa, hsb]
    exact hrun
  by_cases h0 : S = 0
  · have hrun := receiverRun_writes_ignored cfg chunks
      { sa with FileReceiverExpectedSize := S, Out := sa.Out ++ [sizeMessage S, []] } h0
    refine ⟨_, _, hpeer _ hrun, ?_, rfl, onWrite_close cfg _ true, ?_, ?_, ?_, ?_⟩
    · simp [h0, hRa]
    · simp [FileSharingCloseFile, hf, hRa, h0]
    · simp [FileSharingCloseFile, hf]
    · simp [FileSharingCloseFile, hf]
    · simp [FileSharingCloseFile, hf]
  · have htot := htotal (Nat.pos_of_ne_zero h0)
    obtain ⟨st1, hrun, hE1, hR1, hF1, _⟩ :=
      receiverRun_writes cfg chunks
        { sa with FileReceiverExpectedSize := S, Out := sa.Out ++ [sizeMessage S, []] } f
        (by simpa using h0) (by simpa using hf) (by simp [hRa])
    obtain ⟨f1, hf1⟩ := Option.isSome_iff_exists.1 hF1
    have hR1' : st1.FileReceiverReceivedSize = totalLength chunks := by
      rw [hR1]; simp only [hRa, Nat.zero_add]; exact Nat.mod_eq_of_lt htot
    have hE1' : st1.FileReceiverExpectedSize = S := by rw [hE1]
    refine ⟨st1, _, hpeer _ hrun, ?_, hE1', onWrite_close cfg st1 true, ?_, ?_, ?_, ?_⟩
    · simp [h0, hR1']
    · by_cases h : totalLength chunks = S
      · simp [FileSharingCloseFile, hf1, hR1', hE1', h]
      · simp [FileSharingCloseFile, hf1, hR1', hE1', h, h0]
    · simp [FileSharingCloseFile, hf1]
    · simp [FileSharingCloseFile, hf1]
    · simp [FileSharingCloseFile, hf1]

/-- Claim C5 at `S = 1536` with three writes of 512 bytes: the received size is
1536 and the close message reports success. -/
theorem C5_transfer_accounting_witness :
    ∃ st1 st2,
      peerRun exampleConfig initialReceiver
        ([PeerMessage.fileSelect false true, PeerMessage.sizeAnnounce 1536]
          ++ [List.replicate 512 7, List.replicate 512 8, List.replicate 512 9].map
            PeerMessage.data) = some st1 ∧
      st1.FileReceiverReceivedSize = 1536 ∧
      st1.FileReceiverExpectedSize = 1536 ∧
      receiverStep exampleConfig st1 (PeerMessage.close.toEvent exampleConfig) = some st2 ∧
      st2.Out = st1.Out ++ [cstr "Copy successful!", closeMessage, []] ∧
      st2.FileReceiverExpectedSize = 0 ∧ st2.FileReceiverReceivedSize = 0 ∧
      st2.FileReceiverProgress = 0 := by
  have ht : totalLength [List.replicate 512 7, List.replicate 512 8, List.replicate 512 9]
      = 1536 := by
    simp only [totalLength, List.map_cons, List.map_nil, List.length_replicate,
      List.sum_cons, List.sum_nil]
    rfl
  obtain ⟨st1, st2, h1, h2, h3, h4, h5, h6⟩ :=
    C5_transfer_accounting exampleConfig (by decide) initialReceiver false 1536
      [List.replicate 512 7, List.replicate 512 8, List.replicate 512 9]
      (by decide) (fun _ => by rw [ht]; decide)
  rw [ht] at h2 h5
  exact ⟨st1, st2, h1, h2, h3, h4, h5, h6⟩

/-- Claim C7, as stated, fails: after the selection of a file, the announcement
of 10 bytes and a data write of 20 bytes, `FileReceiverExpectedSize` is 10 and
`FileReceiverReceivedSize` is 20; and after the announcement of 10 bytes, a
data write of 10 bytes and a second announcement of 5 bytes,
`FileReceiverExpectedSize` is 5 and `FileReceiverReceivedSize` is 10. -/
theorem C7_counterexample :
    (peerRun exampleConfig initialReceiver
        [PeerMessage.fileSelect false true, PeerMessage.sizeAnnounce 10,
         PeerMessage.data (List.replicate 20 65)]).map
      (fun st => (st.FileReceiverExpectedSize, st.FileReceiverReceivedSize)) = some (10, 20) ∧
    (peerRun exampleConfig initialReceiver
        [PeerMessage.fileSelect false true, PeerMessage.sizeAnnounce 10,
         PeerMessage.data (List.replicate 10 65), PeerMessage.sizeAnnounce 5]).map
      (fun st => (st.FileReceiverExpectedSize, st.FileReceiverReceivedSize)) = some (5, 10) := by
  decide

/-- Effect of one data write on the size counters and on the open file. -/
theorem onWrite_data_sizes (st : ReceiverState) (data : List Nat) :
    (FileSharingWriteCallbacks_onWrite st data).FileReceiverExpectedSize
        = st.FileReceiverExpectedSize ∧
    (FileSharingWriteCallbacks_onWrite st data).FileReceiverReceivedSize
        ≤ st.FileReceiverReceivedSize + data.length ∧
    ((FileSharingWriteCallbacks_onWrite st data).FileReceiver = none →
      st.FileReceiver = none ∧
      (FileSharingWriteCallbacks_onWrite st data).FileReceiverReceivedSize
        = st.FileReceiverReceivedSize) := by
  by_cases hE : st.FileReceiverExpectedSize = 0
  · rw [onWrite_data_ignored st data hE]
    exact ⟨rfl, Nat.le_add_right _ _, fun h => ⟨h, rfl⟩⟩
  · cases hf : st.FileReceiver with
    | none =>
      have h : FileSharingWriteCallbacks_onWrite st data = st ∨
          FileSharingWriteCallbacks_onWrite st data =
            { st with FileReceiverProgress :=
                receiverProgress st.FileReceiverReceivedSize st.FileReceiverExpectedSize } := by
        unfold FileSharingWriteCallbacks_onWrite
        simp only [hE, if_false, hf]
        split
        · exact Or.inr rfl
        · exact Or.inl rfl
      rcases h with h | h <;> rw [h] <;>
        exact ⟨rfl, Nat.le_add_right _ _, fun _ => ⟨rfl, rfl⟩⟩
    | some f =>
      obtain ⟨h1, h2, h3, _⟩ := onWrite_data_counted st data f hE hf
      refine ⟨h1, ?_, ?_⟩
      · rw [h2]; exact Nat.mod_le _ _
      · intro h; rw [h3] at h; exact absurd h (by simp)

/-- One message of a peer that stays within what it announced: the handler
returns and the receiver state still agrees with the account of the peer. -/
theorem receiverStep_agrees (cfg : Config) (hcfg : cfg.WellFormed) (st : ReceiverState)
    (a s : Nat) (hinv : AgreesWithPeer st a s) :
    (∀ second openOk, ∃ st1,
      receiverStep cfg st ((PeerMessage.fileSelect second openOk).toEvent cfg) = some st1 ∧
      AgreesWithPeer st1 a 0) ∧
    (∀ S, S < 2 ^ 32 → (S = 0 ∨ s ≤ S) → ∃ st1,
      receiverStep cfg st ((PeerMessage.sizeAnnounce S).toEvent cfg) = some st1 ∧
      AgreesWithPeer st1 S s) ∧
    (∃ st1, receiverStep cfg st (PeerMessage.close.toEvent cfg) = some st1 ∧
      AgreesWithPeer st1 a 0) ∧
    (∀ bytes, (a = 0 ∨ s + bytes.length ≤ a) → ∃ st1,
      receiverStep cfg st ((PeerMessage.data bytes).toEvent cfg) = some st1 ∧
      AgreesWithPeer st1 a (s + bytes.length)) := by
  obtain ⟨hE, hR, hN, hA⟩ := hinv
  refine ⟨?_, ?_, ?_, ?_⟩
  · intro second openOk
    obtain ⟨st1, h1, hR1, _, hE1, _⟩ := onWrite_fileSelect cfg hcfg st second openOk
    refine ⟨st1, h1, ?_, ?_, ?_, ?_⟩
    · rw [hE1]; exact hE
    · rw [hR1]
    · intro _; exact hR1
    · exact Or.inr (Nat.zero_le _)
  · intro S hS hle
    refine ⟨_, onWrite_sizeMessage cfg st true S hS, ?_, hR, hN, hle⟩
    exact Or.inr rfl
  · refine ⟨_, onWrite_close cfg st true, ?_⟩
    cases hf : st.FileReceiver with
    | none =>
      have h0 := hN hf
      simp only [FileSharingCloseFile, hf]
      exact ⟨hE, by rw [h0], fun _ => h0, Or.inr (Nat.zero_le _)⟩
    | some f =>
      simp only [FileSharingCloseFile, hf]
      exact ⟨Or.inl rfl, Nat.le_refl 0, fun _ => rfl, Or.inr (Nat.zero_le _)⟩
  · intro bytes hle
    obtain ⟨h1, h2, h3⟩ := onWrite_data_sizes st bytes
    refine ⟨_, rfl, ?_, ?_, ?_, hle⟩
    · rw [h1]; exact hE
    · exact le_trans h2 (Nat.add_le_add_right hR _)
    · intro hnone
      obtain ⟨hn, hr⟩ := h3 hnone
      rw [hr]; exact hN hn

/-- A run of messages of a peer that stays within what it announced. -/
theorem peerRun_agrees (cfg : Config) (hcfg : cfg.WellFormed) (msgs : List PeerMessage) :
    ∀ (st : ReceiverState) (a s : Nat), AgreesWithPeer st a s →
      sendsWithinAnnounced a s msgs = true →
      ∃ st1 a1 s1, peerRun cfg st msgs = some st1 ∧ AgreesWithPeer st1 a1 s1 := by
  induction msgs with
  | nil => intro st a s hinv _; exact ⟨st, a, s, rfl, hinv⟩
  | cons m rest ih =>
    intro st a s hinv hall
    obtain ⟨hsel, hsize, hclose, hdata⟩ := receiverStep_agrees cfg hcfg st a s hinv
    have hcons : ∀ st1 a1 s1, receiverStep cfg st (m.toEvent cfg) = some st1 →
        AgreesWithPeer st1 a1 s1 → sendsWithinAnnounced a1 s1 rest = true →
        ∃ st2 a2 s2, peerRun cfg st (m :: rest) = some st2 ∧ AgreesWithPeer st2 a2 s2 := by
      intro st1 a1 s1 hstep hinv1 hrest
      obtain ⟨st2, a2, s2, hrun, hinv2⟩ := ih st1 a1 s1 hinv1 hrest
      refine ⟨st2, a2, s2, ?_, hinv2⟩
      simp only [peerRun, List.map_cons, receiverRun, hstep]
      exact hrun
    cases m with
    | fileSelect second openOk =>
      simp only [sendsWithinAnnounced] at hall
      obtain ⟨st1, hstep, hinv1⟩ := hsel second openOk
      exact hcons st1 a 0 hstep hinv1 hall
    | sizeAnnounce S =>
      simp only [sendsWithinAnnounced, Bool.and_eq_true, Bool.or_eq_true, decide_eq_true_eq,
        beq_iff_eq] at hall
      obtain ⟨⟨hS, hle⟩, hrest⟩ := hall
      obtain ⟨st1, hstep, hinv1⟩ := hsize S hS hle
      exact hcons st1 S s hstep hinv1 hrest
    | close =>
      simp only [sendsWithinAnnounced] at hall
      obtain ⟨st1, hstep, hinv1⟩ := hclose
      exact hcons st1 a 0 hstep hinv1 hall
    | data bytes =>
      simp only [sendsWithinAnnounced, Bool.and_eq_true, Bool.or_eq_true, decide_eq_true_eq,
        beq_iff_eq] at hall
      obtain ⟨hle, hrest⟩ := hall
      obtain ⟨st1, hstep, hinv1⟩ := hdata bytes hle
      exact hcons st1 a (s + bytes.length) hstep hinv1 hrest

/-- Claim C7, amended. From the initial state, after every sequence of file
selections, size announcements, close messages and data writes in which the
sending peer stays within what it announced (each announced size is below
`2 ^ 32` and is zero or at least the number of data bytes the peer wrote since
its last file selection or close message; each data write after a non-zero
announcement keeps that number within the size announced last), the handlers
return and `FileReceiverReceivedSize <= FileReceiverExpectedSize` holds
whenever `FileReceiverExpectedSize` is non-zero. -/
theorem C7_received_within_expected (cfg : Config) (hcfg : cfg.WellFormed)
    (msgs : List PeerMessage) (hmsgs : sendsWithinAnnounced 0 0 msgs = true) :
    ∃ st, peerRun cfg initialReceiver msgs = some st ∧
      (st.FileReceiverExpectedSize ≠ 0 →
        st.FileReceiverReceivedSize ≤ st.FileReceiverExpectedSize) := by
  obtain ⟨st, a, s, hrun, hE, hR, _, hA⟩ :=
    peerRun_agrees cfg hcfg msgs initialReceiver 0 0
      ⟨Or.inl rfl, Nat.le_refl _, fun _ => rfl, Or.inl rfl⟩ hmsgs
  refine ⟨st, hrun, fun hne => ?_⟩
  rcases hE with h0 | hEa
  · exact absurd h0 hne
  · rcases hA with ha | hsa
    · exact absurd (hEa.trans ha) hne
    · rw [hEa]; exact le_trans hR hsa

set_option maxRecDepth 8000 in
/-- Claim C7 on a transfer of 10 bytes in two writes, after which both size
counters are 10. -/
theorem C7_received_within_expected_witness :
    (∃ st, peerRun exampleConfig initialReceiver
        [PeerMessage.fileSelect false true, PeerMessage.sizeAnnounce 10,
         PeerMessage.data [1, 2, 3, 4], PeerMessage.data [5, 6, 7, 8, 9, 10]] = some st ∧
      (st.FileReceiverExpectedSize ≠ 0 →
        st.FileReceiverReceivedSize ≤ st.FileReceiverExpectedSize)) ∧
    (peerRun exampleConfig initialReceiver
        [PeerMessage.fileSelect false true, PeerMessage.sizeAnnounce 10,
         PeerMessage.data [1, 2, 3, 4], PeerMessage.data [5, 6, 7, 8, 9, 10]]).map
      (fun st => (st.FileReceiverExpectedSize, st.FileReceiverReceivedSize)) = some (10, 10) :=
  ⟨C7_received_within_expected exampleConfig (by decide)
    [PeerMessage.fileSelect false true, PeerMessage.sizeAnnounce 10,
     PeerMessage.data [1, 2, 3, 4], PeerMessage.data [5, 6, 7, 8, 9, 10]] (by decide),
   by decide⟩

/-! ## Theorems: the file sender and the client task -/

theorem sendLoop_trace (env : SenderEnv) (totalsize : Nat) (reads : List (List Nat)) :
    ∀ (progress : Nat) (lastpercent : Int) (st : SenderState),
      ∃ evs, (sendLoop env totalsize reads progress lastpercent st).trace = st.trace ++ evs ∧
        ∀ e ∈ evs, PayloadEvent e := by
  induction reads with
  | nil => intro p lp st; exact ⟨[], by simp [sendLoop], by simp⟩
  | cons r rest ih =>
    intro p lp st
    unfold sendLoop
    simp only
    split
    · exact ⟨[], by simp, by simp⟩
    · split
      · refine ⟨[SenderEvent.dataWrite (r.take BLE_FILECOPY_BUFFSIZE) (env.writeOk st.writes)],
          rfl, ?_⟩
        intro e he d ok hd
        rw [List.mem_singleton] at he
        rw [he] at hd; cases hd
      · split
        · obtain ⟨evs, htr, hall⟩ := ih ((p + 2 ^ 32 -
              (r.take BLE_FILECOPY_BUFFSIZE).length) % 2 ^ 32)
            (senderPercent ((p + 2 ^ 32 - (r.take BLE_FILECOPY_BUFFSIZE).length) % 2 ^ 32)
              totalsize)
            { fileSharingSendFileError := st.fileSharingSendFileError
              writes := st.writes + 1
              trace := st.trace ++
                [SenderEvent.dataWrite (r.take BLE_FILECOPY_BUFFSIZE) (env.writeOk st.writes)] ++
                [SenderEvent.progressBar (senderPercent ((p + 2 ^ 32 -
                  (r.take BLE_FILECOPY_BUFFSIZE).length) % 2 ^ 32) totalsize)]
              percents := st.percents ++ [senderPercent ((p + 2 ^ 32 -
                  (r.take BLE_FILECOPY_BUFFSIZE).length) % 2 ^ 32) totalsize] }
          refine ⟨SenderEvent.dataWrite (r.take BLE_FILECOPY_BUFFSIZE) (env.writeOk st.writes) ::
            SenderEvent.progressBar (senderPercent ((p + 2 ^ 32 -
                  (r.take BLE_FILECOPY_BUFFSIZE).length) % 2 ^ 32) totalsize) :: evs, ?_, ?_⟩
          · rw [htr]; simp
          · intro e he
            simp only [List.mem_cons] at he
            rcases he with h | h | h
            · intro d ok hd; rw [h] at hd; cases hd
            · intro d ok hd; rw [h] at hd; cases hd
            · exact hall e h
        · obtain ⟨evs, htr, hall⟩ := ih ((p + 2 ^ 32 -
              (r.take BLE_FILECOPY_BUFFSIZE).length) % 2 ^ 32) lp
            { fileSharingSendFileError := st.fileSharingSendFileError
              writes := st.writes + 1
              trace := st.trace ++
                [SenderEvent.dataWrite (r.take BLE_FILECOPY_BUFFSIZE) (env.writeOk st.writes)]
              percents := st.percents ++ [senderPercent ((p + 2 ^ 32 -
                  (r.take BLE_FILECOPY_BUFFSIZE).length) % 2 ^ 32) totalsize] }
          refine ⟨SenderEvent.dataWrite (r.take BLE_FILECOPY_BUFFSIZE) (env.writeOk st.writes) ::
            evs, ?_, ?_⟩
          · rw [htr]; simp
          · intro e he
            simp only [List.mem_cons] at he
            rcases he with h | h
            · intro d ok hd; rw [h] at hd; cases hd
            · exact hall e h

theorem sizeMessage_head (n : Nat) : (sizeMessage n).head? = some 115 := by
  have : sizeMarker = [115, 105, 122, 101, 58] := by decide
  simp [sizeMessage, this]

theorem dateTimeMessage_head (t : bt_time_t) : (dateTimeMessage t).head? = some 100 := by
  have : dateTimeMarker = [100, 97, 116, 101, 84, 105, 109, 101, 58] := by decide
  simp [dateTimeMessage, this]

/-- The events of one call of `FileSharingSendFile`. -/
theorem FileSharingSendFile_trace (env : SenderEnv) (filename : List Nat) (st : SenderState) :
    ∃ evs, (FileSharingSendFile env filename st).trace = st.trace ++ evs ∧
      ∀ e ∈ evs, PayloadEvent e := by
  unfold FileSharingSendFile
  cases hopen : env.fsOpen filename with
  | none =>
    refine ⟨[SenderEvent.fileOpen filename false], rfl, ?_⟩
    intro e he d ok hd
    rw [List.mem_singleton] at he
    rw [he] at hd; cases hd
  | some file =>
    simp only [routeWriteValue]
    obtain ⟨evs, htr, hall⟩ := sendLoop_trace env (file.size % 2 ^ 32) file.reads
      (file.size % 2 ^ 32) 0
      { fileSharingSendFileError := false
        writes := st.writes + 1 + 1
        trace := st.trace ++ [SenderEvent.fileOpen filename true] ++
          [SenderEvent.routeWrite (sizeMessage (file.size % 2 ^ 32)) (env.writeOk st.writes)] ++
          [SenderEvent.routeWrite (dateTimeMessage (getBLETime env.UTCTime env.timeZone))
            (env.writeOk (st.writes + 1))] ++ [SenderEvent.progressBar 0]
        percents := st.percents }
    refine ⟨[SenderEvent.fileOpen filename true,
        SenderEvent.routeWrite (sizeMessage (file.size % 2 ^ 32)) (env.writeOk st.writes),
        SenderEvent.routeWrite (dateTimeMessage (getBLETime env.UTCTime env.timeZone))
          (env.writeOk (st.writes + 1)), SenderEvent.progressBar 0] ++ evs ++
        [SenderEvent.progressBar 0], ?_, ?_⟩
    · rw [htr]; simp
    · intro e he
      simp only [List.mem_append, List.mem_cons, List.mem_singleton, List.not_mem_nil,
        or_false] at he
      rcases he with (((h | h | h | h) | h) | h)
      · intro d ok hd; rw [h] at hd; cases hd
      · intro d ok hd; rw [h] at hd; cases hd; exact Or.inl (sizeMessage_head _)
      · intro d ok hd; rw [h] at hd; cases hd; exact Or.inr (dateTimeMessage_head _)
      · intro d ok hd; rw [h] at hd; cases hd
      · exact hall e h
      · intro d ok hd; rw [h] at hd; cases hd

theorem payloadEvent_ne (e : SenderEvent) (h : PayloadEvent e) (m : List Nat) (ok : Bool)
    (h1 : m.head? ≠ some 115) (h2 : m.head? ≠ some 100) : e ≠ SenderEvent.routeWrite m ok := by
  intro he
  rcases h m ok he with h | h
  · exact h1 h
  · exact h2 h

theorem cString_path_head (name : List Nat) : (cString (47 :: name)).head? = some 47 := by
  simp [cString, List.takeWhile_cons]

/-- The events of the first `if` statement of the client task. -/
theorem sendFirstFile_trace (cfg : Config) (env : SenderEnv) (st : SenderState) :
    ∃ evs, (sendFirstFile cfg env st).trace = st.trace ++ evs ∧
      ∀ e ∈ evs, PayloadEvent e ∨ (∃ ok, e = SenderEvent.routeWrite (cString cfg.BLEFileToSend) ok) ∨
        (∃ ok, e = SenderEvent.routeWrite closeMessage ok) := by
  unfold sendFirstFile
  simp only [routeWriteValue]
  split
  · obtain ⟨evs, htr, hall⟩ := FileSharingSendFile_trace env cfg.BLEFileToSend
      { fileSharingSendFileError := st.fileSharingSendFileError
        writes := st.writes + 1
        trace := st.trace ++
          [SenderEvent.routeWrite (cString cfg.BLEFileToSend) (env.writeOk st.writes)]
        percents := st.percents }
    split
    · refine ⟨SenderEvent.routeWrite (cString cfg.BLEFileToSend) (env.writeOk st.writes) :: evs ++
        [SenderEvent.routeWrite closeMessage (env.writeOk (FileSharingSendFile env cfg.BLEFileToSend
          { fileSharingSendFileError := st.fileSharingSendFileError
            writes := st.writes + 1
            trace := st.trace ++
              [SenderEvent.routeWrite (cString cfg.BLEFileToSend) (env.writeOk st.writes)]
            percents := st.percents }).writes)], ?_, ?_⟩
      · simp only [htr]; simp
      · intro e he
        simp only [List.cons_append, List.mem_cons, List.mem_append, List.mem_singleton,
          List.not_mem_nil, or_false] at he
        rcases he with h | h | h
        · exact Or.inr (Or.inl ⟨_, h⟩)
        · exact Or.inl (hall e h)
        · exact Or.inr (Or.inr ⟨_, h⟩)
    · refine ⟨SenderEvent.routeWrite (cString cfg.BLEFileToSend) (env.writeOk st.writes) :: evs,
        ?_, ?_⟩
      · simp only [htr]; simp
      · intro e he
        simp only [List.mem_cons] at he
        rcases he with h | h
        · exact Or.inr (Or.inl ⟨_, h⟩)
        · exact Or.inl (hall e h)
  · refine ⟨[SenderEvent.routeWrite (cString cfg.BLEFileToSend) (env.writeOk st.writes)], rfl, ?_⟩
    intro e he
    rw [List.mem_singleton] at he
    exact Or.inr (Or.inl ⟨_, he⟩)

/-- The five ways in which the second `if` statement of the client task ends. -/
theorem sendSecondFile_cases (cfg : Config) (env : SenderEnv) (st : SenderState) :
    (sendSecondFile cfg env st).trace = st.trace ∨
    (sendSecondFile cfg env st).trace
      = st.trace ++ [SenderEvent.routeWrite (cString cfg.MACFileToSend) false] ∨
    (∃ evs, (∀ e ∈ evs, PayloadEvent e) ∧
      (sendSecondFile cfg env st).trace
        = st.trace ++ SenderEvent.routeWrite (cString cfg.MACFileToSend) true :: evs ∧
      (sendSecondFile cfg env st).fileSharingSendFileError = true) ∨
    (∃ evs, (∀ e ∈ evs, PayloadEvent e) ∧
      (sendSecondFile cfg env st).trace
        = st.trace ++ SenderEvent.routeWrite (cString cfg.MACFileToSend) true ::
          (evs ++ [SenderEvent.routeWrite closeMessage false])) ∨
    (∃ evs ok, (∀ e ∈ evs, PayloadEvent e) ∧
      (sendSecondFile cfg env st).trace
        = st.trace ++ SenderEvent.routeWrite (cString cfg.MACFileToSend) true ::
          (evs ++ [SenderEvent.routeWrite closeMessage true,
            SenderEvent.routeWrite restartMessage ok]) ∧
      (sendSecondFile cfg env st).fileSharingSendFileError = false) := by
  unfold sendSecondFile
  simp only [routeWriteValue]
  split
  · cases hw : env.writeOk st.writes with
    | false => right; left; simp
    | true =>
      simp only [if_true]
      obtain ⟨evs, htr, hall⟩ := FileSharingSendFile_trace env cfg.MACFileToSend
        { fileSharingSendFileError := st.fileSharingSendFileError
          writes := st.writes + 1
          trace := st.trace ++ [SenderEvent.routeWrite (cString cfg.MACFileToSend) true]
          percents := st.percents }
      generalize FileSharingSendFile env cfg.MACFileToSend
        { fileSharingSendFileError := st.fileSharingSendFileError
          writes := st.writes + 1
          trace := st.trace ++ [SenderEvent.routeWrite (cString cfg.MACFileToSend) true]
          percents := st.percents } = P at htr ⊢
      simp only at htr
      split
      · rename_i herr
        cases hc : env.writeOk P.writes with
        | false =>
          right; right; right; left
          refine ⟨evs, hall, ?_⟩
          simp [htr]
        | true =>
          right; right; right; right
          refine ⟨evs, env.writeOk (P.writes + 1), hall, ?_, ?_⟩
          · simp only [if_true, htr]
            simp
          · simpa using herr
      · rename_i herr
        right; right; left
        refine ⟨evs, hall, ?_, ?_⟩
        · simp [htr]
        · simpa using herr
  · left; rfl

/-- Claim C9 (the code departs from it). With both files present and every write
accepted except the close message of the first file (write number 4), the task
goes on to select, open and send the second file and writes the restart
message; the same happens when only the selection of the first file (write
number 0) is refused. -/
theorem C9_second_file_after_failure :
    (SenderEvent.routeWrite closeMessage false
        ∈ (FileSharingClientTask exampleConfig (exampleEnv 4) {}).trace ∧
      SenderEvent.routeWrite (cString exampleConfig.MACFileToSend) true
        ∈ (FileSharingClientTask exampleConfig (exampleEnv 4) {}).trace ∧
      SenderEvent.fileOpen exampleConfig.MACFileToSend true
        ∈ (FileSharingClientTask exampleConfig (exampleEnv 4) {}).trace ∧
      SenderEvent.routeWrite restartMessage true
        ∈ (FileSharingClientTask exampleConfig (exampleEnv 4) {}).trace) ∧
    (SenderEvent.routeWrite (cString exampleConfig.BLEFileToSend) false
        ∈ (FileSharingClientTask exampleConfig (exampleEnv 0) {}).trace ∧
      SenderEvent.routeWrite (cString exampleConfig.MACFileToSend) true
        ∈ (FileSharingClientTask exampleConfig (exampleEnv 0) {}).trace ∧
      SenderEvent.fileOpen exampleConfig.MACFileToSend true
        ∈ (FileSharingClientTask exampleConfig (exampleEnv 0) {}).trace ∧
      SenderEvent.routeWrite restartMessage true
        ∈ (FileSharingClientTask exampleConfig (exampleEnv 0) {}).trace) := by
  decide

theorem routeWrite_ne {a b : List Nat} (x y : Bool) (h : a ≠ b) :
    SenderEvent.routeWrite a x ≠ SenderEvent.routeWrite b y :=
  fun e => h (SenderEvent.routeWrite.inj e).1

/-- The two ways in which the client task ends, seen from the restart message. -/
theorem FileSharingClientTask_cases (cfg : Config) (env : SenderEnv) (flag : Bool)
    (hnames : cString cfg.BLEFileToSend ≠ cString cfg.MACFileToSend) :
    (¬ restartWritten (FileSharingClientTask cfg env { fileSharingSendFileError := flag }).trace ∧
      ¬ (secondFileClosed cfg
          (FileSharingClientTask cfg env { fileSharingSendFileError := flag }).trace ∧
        (FileSharingClientTask cfg env
          { fileSharingSendFileError := flag }).fileSharingSendFileError = false)) ∨
    (∃ pre ok,
      (FileSharingClientTask cfg env { fileSharingSendFileError := flag }).trace
        = pre ++ [SenderEvent.routeWrite closeMessage true,
            SenderEvent.routeWrite restartMessage ok] ∧
      ¬ restartWritten pre ∧
      secondFileClosed cfg
        (FileSharingClientTask cfg env { fileSharingSendFileError := flag }).trace ∧
      (FileSharingClientTask cfg env
        { fileSharingSendFileError := flag }).fileSharingSendFileError = false) := by
  have hMAChead : (cString cfg.MACFileToSend).head? = some 47 := cString_path_head _
  have hclose : closeMessage.head? = some 99 := by decide
  have hrestart : restartMessage.head? = some 114 := by decide
  -- a payload event is none of the control messages
  have hpayMAC : ∀ e, PayloadEvent e → ∀ ok, e ≠ SenderEvent.routeWrite (cString cfg.MACFileToSend) ok :=
    fun e he ok => payloadEvent_ne e he _ ok (by rw [hMAChead]; decide) (by rw [hMAChead]; decide)
  have hpayClose : ∀ e, PayloadEvent e → ∀ ok, e ≠ SenderEvent.routeWrite closeMessage ok :=
    fun e he ok => payloadEvent_ne e he _ ok (by rw [hclose]; decide) (by rw [hclose]; decide)
  have hpayRestart : ∀ e, PayloadEvent e → ∀ ok, e ≠ SenderEvent.routeWrite restartMessage ok :=
    fun e he ok => payloadEvent_ne e he _ ok (by rw [hrestart]; decide) (by rw [hrestart]; decide)
  have hMACne : cString cfg.MACFileToSend ≠ restartMessage := by
    intro h; rw [h] at hMAChead; revert hMAChead; decide
  have hMACneClose : cString cfg.MACFileToSend ≠ closeMessage := by
    intro h; rw [h] at hMAChead; revert hMAChead; decide
  have hBLEne : cString cfg.BLEFileToSend ≠ restartMessage := by
    intro h
    have := cString_path_head cfg.BLE_VENDOR_NAMES_DB_FILE
    rw [show cString (47 :: cfg.BLE_VENDOR_NAMES_DB_FILE) = restartMessage from h] at this
    revert this; decide
  have hCloseNe : closeMessage ≠ restartMessage := by decide
  have hempty : ¬ restartWritten [] ∧ ¬ (secondFileClosed cfg [] ∧ flag = false) := by
    constructor
    · rintro ⟨ok, h⟩; simp at h
    · rintro ⟨⟨pre, post, h, _⟩, _⟩; simp at h
  unfold FileSharingClientTask
  by_cases hconn : env.connectOk = true ∧ env.serviceFound = true ∧ env.writeCharFound = true ∧
      env.routeCharFound = true
  swap
  · left
    have : (if (!env.connectOk) = true then ({ fileSharingSendFileError := flag } : SenderState)
        else if (!env.serviceFound) = true then { fileSharingSendFileError := flag }
        else if (!env.writeCharFound) = true then { fileSharingSendFileError := flag }
        else if (!env.routeCharFound) = true then { fileSharingSendFileError := flag }
        else sendSecondFile cfg env (sendFirstFile cfg env { fileSharingSendFileError := flag }))
        = { fileSharingSendFileError := flag } := by
      cases h1 : env.connectOk <;> cases h2 : env.serviceFound <;>
        cases h3 : env.writeCharFound <;> cases h4 : env.routeCharFound <;> simp_all
    rw [this]
    exact hempty
  obtain ⟨h1, h2, h3, h4⟩ := hconn
  simp only [h1, h2, h3, h4, Bool.not_true, Bool.false_eq_true, if_false]
  obtain ⟨evsA, hA, hallA⟩ := sendFirstFile_trace cfg env { fileSharingSendFileError := flag }
  simp only [List.nil_append] at hA
  generalize sendFirstFile cfg env { fileSharingSendFileError := flag } = A at hA
  -- the first block writes neither the accepted second selection nor the restart message
  have hA_MAC : SenderEvent.routeWrite (cString cfg.MACFileToSend) true ∉ evsA := by
    intro hmem
    rcases hallA _ hmem with h | ⟨ok, h⟩ | ⟨ok, h⟩
    · exact hpayMAC _ h true rfl
    · exact routeWrite_ne _ _ (Ne.symm hnames) h
    · exact routeWrite_ne _ _ hMACneClose h
  have hA_restart : ∀ ok, SenderEvent.routeWrite restartMessage ok ∉ evsA := by
    intro ok hmem
    rcases hallA _ hmem with h | ⟨ok1, h⟩ | ⟨ok1, h⟩
    · exact hpayRestart _ h ok rfl
    · exact routeWrite_ne _ _ (Ne.symm hBLEne) h
    · exact routeWrite_ne _ _ (Ne.symm hCloseNe) h
  rcases sendSecondFile_cases cfg env A with hT | hT | ⟨evs, hev, hT, herr⟩ | ⟨evs, hev, hT⟩ |
      ⟨evs, ok, hev, hT, herr⟩
  · left
    rw [hT, hA]
    refine ⟨fun ⟨ok, h⟩ => hA_restart ok h, ?_⟩
    rintro ⟨⟨pre, post, h, _⟩, _⟩
    exact hA_MAC (by rw [h]; exact List.mem_append_cons_self)
  · left
    rw [hT, hA]
    constructor
    · rintro ⟨ok, h⟩
      rcases List.mem_append.1 h with h | h
      · exact hA_restart ok h
      · rw [List.mem_singleton] at h
        exact routeWrite_ne _ _ (Ne.symm hMACne) h
    · rintro ⟨⟨pre, post, h, _⟩, _⟩
      have hmem : SenderEvent.routeWrite (cString cfg.MACFileToSend) true ∈
          evsA ++ [SenderEvent.routeWrite (cString cfg.MACFileToSend) false] := by
        rw [h]; exact List.mem_append_cons_self
      rcases List.mem_append.1 hmem with h | h
      · exact hA_MAC h
      · rw [List.mem_singleton] at h
        have := (SenderEvent.routeWrite.inj h).2
        cases this
  · left
    constructor
    · rw [hT, hA]
      rintro ⟨ok, h⟩
      rcases List.mem_append.1 h with h | h
      · exact hA_restart ok h
      · rcases List.mem_cons.1 h with h | h
        · exact routeWrite_ne _ _ (Ne.symm hMACne) h
        · exact hpayRestart _ (hev _ h) ok rfl
    · rintro ⟨_, hE⟩
      rw [herr] at hE; cases hE
  · left
    rw [hT, hA]
    constructor
    · rintro ⟨ok, h⟩
      rcases List.mem_append.1 h with h | h
      · exact hA_restart ok h
      · rcases List.mem_cons.1 h with h | h
        · exact routeWrite_ne _ _ (Ne.symm hMACne) h
        · rcases List.mem_append.1 h with h | h
          · exact hpayRestart _ (hev _ h) ok rfl
          · rw [List.mem_singleton] at h
            exact routeWrite_ne _ _ (Ne.symm hCloseNe) h
    · rintro ⟨⟨pre, post, h, hclosed⟩, _⟩
      have hnotin : SenderEvent.routeWrite (cString cfg.MACFileToSend) true ∉
          evs ++ [SenderEvent.routeWrite closeMessage false] := by
        intro hm
        rcases List.mem_append.1 hm with hm | hm
        · exact hpayMAC _ (hev _ hm) true rfl
        · rw [List.mem_singleton] at hm
          exact routeWrite_ne _ _ hMACneClose hm
      obtain ⟨_, _, hpost⟩ := (List.append_cons_inj_of_not_mem hA_MAC hnotin).1 h
      rw [← hpost] at hclosed
      rcases List.mem_append.1 hclosed with hm | hm
      · exact hpayClose _ (hev _ hm) true rfl
      · rw [List.mem_singleton] at hm
        have := (SenderEvent.routeWrite.inj hm).2
        cases this
  · right
    refine ⟨evsA ++ SenderEvent.routeWrite (cString cfg.MACFileToSend) true :: evs, ok, ?_, ?_, ?_,
      herr⟩
    · rw [hT, hA]; simp
    · rintro ⟨ok1, h⟩
      rcases List.mem_append.1 h with h | h
      · exact hA_restart ok1 h
      · rcases List.mem_cons.1 h with h | h
        · exact routeWrite_ne _ _ (Ne.symm hMACne) h
        · exact hpayRestart _ (hev _ h) ok1 rfl
    · refine ⟨evsA, _, by rw [hT, hA], ?_⟩
      simp

theorem restartWritten_append (xs ys : List SenderEvent) :
    restartWritten (xs ++ ys) ↔ restartWritten xs ∨ restartWritten ys := by
  constructor
  · rintro ⟨ok, h⟩
    rcases List.mem_append.1 h with h | h
    · exact Or.inl ⟨ok, h⟩
    · exact Or.inr ⟨ok, h⟩
  · rintro (⟨ok, h⟩ | ⟨ok, h⟩)
    · exact ⟨ok, List.mem_append_left _ h⟩
    · exact ⟨ok, List.mem_append_right _ h⟩

theorem restartWritten_payload (evs : List SenderEvent) (h : ∀ e ∈ evs, PayloadEvent e) :
    ¬ restartWritten evs := by
  rintro ⟨ok, hmem⟩
  have hrestart : restartMessage.head? = some 114 := by decide
  exact payloadEvent_ne _ (h _ hmem) restartMessage ok (by rw [hrestart]; decide)
    (by rw [hrestart]; decide) rfl

theorem restartWritten_single (m : List Nat) (ok : Bool) (h : m ≠ restartMessage) :
    ¬ restartWritten [SenderEvent.routeWrite m ok] := by
  rintro ⟨ok1, hmem⟩
  rw [List.mem_singleton] at hmem
  exact routeWrite_ne _ _ (Ne.symm h) hmem

theorem path_ne_restart (name : List Nat) : cString (47 :: name) ≠ restartMessage := by
  intro h
  have := cString_path_head name
  rw [h] at this
  revert this; decide

/-- The first `if` statement of the client task writes no restart message. -/
theorem sendFirstFile_no_restart (cfg : Config) (env : SenderEnv) (st : SenderState)
    (hst : ¬ restartWritten st.trace) : ¬ restartWritten (sendFirstFile cfg env st).trace := by
  obtain ⟨evs, htr, hall⟩ := sendFirstFile_trace cfg env st
  rw [htr, restartWritten_append]
  rintro (h | ⟨ok, hmem⟩)
  · exact hst h
  · rcases hall _ hmem with h | ⟨ok1, h⟩ | ⟨ok1, h⟩
    · exact restartWritten_payload [_] (by simpa using h) ⟨ok, by simp⟩
    · exact routeWrite_ne _ _ (Ne.symm (path_ne_restart cfg.BLE_VENDOR_NAMES_DB_FILE)) h
    · exact routeWrite_ne _ _ (by decide) h

/-- The selection of the second file is no restart message. -/
theorem selection_no_restart (cfg : Config) (env : SenderEnv) (st : SenderState)
    (hst : ¬ restartWritten st.trace) :
    ¬ restartWritten (routeWriteValue env st (cString cfg.MACFileToSend)).2.trace := by
  show ¬ restartWritten (st.trace ++ _)
  rw [restartWritten_append]
  rintro (h | h)
  · exact hst h
  · exact restartWritten_single _ _ (path_ne_restart cfg.MAC_OUI_NAMES_DB_FILE) h

/-- The selection and the transfer of the second file write no restart message. -/
theorem secondSend_no_restart (cfg : Config) (env : SenderEnv) (st : SenderState)
    (hst : ¬ restartWritten st.trace) :
    ¬ restartWritten (FileSharingSendFile env cfg.MACFileToSend
      (routeWriteValue env st (cString cfg.MACFileToSend)).2).trace := by
  obtain ⟨evs, htr, hall⟩ := FileSharingSendFile_trace env cfg.MACFileToSend
    (routeWriteValue env st (cString cfg.MACFileToSend)).2
  rw [htr, restartWritten_append]
  rintro (h | h)
  · exact selection_no_restart cfg env st hst h
  · exact restartWritten_payload evs hall h

/-- The restart message in the second `if` statement of the client task, by the
outcomes of its writes. -/
theorem sendSecondFile_restart (cfg : Config) (env : SenderEnv) (st : SenderState)
    (hst : ¬ restartWritten st.trace) :
    (restartWritten (sendSecondFile cfg env st).trace ↔
      st.fileSharingSendFileError = false ∧ env.writeOk st.writes = true ∧
      (FileSharingSendFile env cfg.MACFileToSend
        (routeWriteValue env st (cString cfg.MACFileToSend)).2).fileSharingSendFileError = false ∧
      env.writeOk (FileSharingSendFile env cfg.MACFileToSend
        (routeWriteValue env st (cString cfg.MACFileToSend)).2).writes = true) ∧
    (restartWritten (sendSecondFile cfg env st).trace →
      (sendSecondFile cfg env st).trace =
        (FileSharingSendFile env cfg.MACFileToSend
          (routeWriteValue env st (cString cfg.MACFileToSend)).2).trace ++
          [SenderEvent.routeWrite closeMessage true,
           SenderEvent.routeWrite restartMessage
            (env.writeOk ((FileSharingSendFile env cfg.MACFileToSend
              (routeWriteValue env st (cString cfg.MACFileToSend)).2).writes + 1))]) := by
  have hw2 : ¬ restartWritten (routeWriteValue env st (cString cfg.MACFileToSend)).2.trace :=
    selection_no_restart cfg env st hst
  have hBno := secondSend_no_restart cfg env st hst
  have hunf : sendSecondFile cfg env st =
      if (!st.fileSharingSendFileError) = true then
        if env.writeOk st.writes = true then
          if (!(FileSharingSendFile env cfg.MACFileToSend
              (routeWriteValue env st (cString cfg.MACFileToSend)).2).fileSharingSendFileError)
                = true then
            if env.writeOk (FileSharingSendFile env cfg.MACFileToSend
                (routeWriteValue env st (cString cfg.MACFileToSend)).2).writes = true then
              (routeWriteValue env (routeWriteValue env (FileSharingSendFile env cfg.MACFileToSend
                (routeWriteValue env st (cString cfg.MACFileToSend)).2) closeMessage).2
                  restartMessage).2
            else (routeWriteValue env (FileSharingSendFile env cfg.MACFileToSend
                (routeWriteValue env st (cString cfg.MACFileToSend)).2) closeMessage).2
          else FileSharingSendFile env cfg.MACFileToSend
                (routeWriteValue env st (cString cfg.MACFileToSend)).2
        else (routeWriteValue env st (cString cfg.MACFileToSend)).2
      else st := rfl
  generalize FileSharingSendFile env cfg.MACFileToSend
    (routeWriteValue env st (cString cfg.MACFileToSend)).2 = B at hunf hBno ⊢
  rw [hunf]
  cases h1 : st.fileSharingSendFileError with
  | true =>
    simp only [Bool.not_true, Bool.false_eq_true, if_false]
    exact ⟨⟨fun h => absurd h hst, fun h => absurd h.1 (by simp)⟩, fun h => absurd h hst⟩
  | false =>
    simp only [Bool.not_false, if_true]
    cases h2 : env.writeOk st.writes with
    | false =>
      simp only [Bool.false_eq_true, if_false]
      exact ⟨⟨fun h => absurd h hw2, fun h => absurd h.2.1 (by simp)⟩, fun h => absurd h hw2⟩
    | true =>
      simp only [if_true]
      cases h3 : B.fileSharingSendFileError with
      | true =>
        simp only [Bool.not_true, Bool.false_eq_true, if_false]
        exact ⟨⟨fun h => absurd h hBno, fun h => absurd h.2.2.1 (by simp)⟩,
          fun h => absurd h hBno⟩
      | false =>
        simp only [Bool.not_false, if_true]
        cases h4 : env.writeOk B.writes with
        | false =>
          simp only [Bool.false_eq_true, if_false]
          have hno : ¬ restartWritten (routeWriteValue env B closeMessage).2.trace := by
            show ¬ restartWritten (B.trace ++ _)
            rw [restartWritten_append]
            rintro (h | h)
            · exact hBno h
            · exact restartWritten_single _ _ (by decide) h
          exact ⟨⟨fun h => absurd h hno, fun h => absurd h.2.2.2 (by simp)⟩,
            fun h => absurd h hno⟩
        | true =>
          simp only [if_true]
          have htrace : (routeWriteValue env (routeWriteValue env B closeMessage).2
              restartMessage).2.trace = B.trace ++ [SenderEvent.routeWrite closeMessage true,
                SenderEvent.routeWrite restartMessage (env.writeOk (B.writes + 1))] := by
            simp [routeWriteValue, h4]
          refine ⟨⟨fun _ => by simp, fun _ => ?_⟩, fun _ => htrace⟩
          rw [htrace]
          exact ⟨env.writeOk (B.writes + 1), by simp⟩

theorem sendLoop_accepted (env : SenderEnv) (hok : ∀ n, env.writeOk n = true) (totalsize : Nat)
    (reads : List (List Nat)) :
    ∀ (progress : Nat) (lastpercent : Int) (st : SenderState),
      (sendLoop env totalsize reads progress lastpercent st).fileSharingSendFileError
        = st.fileSharingSendFileError := by
  induction reads with
  | nil => intro p lp st; rfl
  | cons r rest ih =>
    intro p lp st
    unfold sendLoop
    simp only [hok, Bool.not_true, Bool.false_eq_true, if_false]
    split
    · rfl
    · split
      · rw [ih]
      · rw [ih]

/-- When the file opens and every write is accepted, `FileSharingSendFile`
returns with the error flag false. -/
theorem FileSharingSendFile_accepted (env : SenderEnv) (hok : ∀ n, env.writeOk n = true)
    (filename : List Nat) (st : SenderState) (hopen : env.fsOpen filename ≠ none) :
    (FileSharingSendFile env filename st).fileSharingSendFileError = false := by
  unfold FileSharingSendFile
  cases h : env.fsOpen filename with
  | none => exact absurd h hopen
  | some file =>
    simp only
    rw [sendLoop_accepted env hok]
    rfl

/-- When the first file opens and every write is accepted, the first `if`
statement of the client task ends with the error flag false. -/
theorem sendFirstFile_accepted (cfg : Config) (env : SenderEnv)
    (hok : ∀ n, env.writeOk n = true) (st : SenderState)
    (hopen : env.fsOpen cfg.BLEFileToSend ≠ none) :
    (sendFirstFile cfg env st).fileSharingSendFileError = false := by
  have hf := FileSharingSendFile_accepted env hok cfg.BLEFileToSend
    (routeWriteValue env st (cString cfg.BLEFileToSend)).2 hopen
  have hunf : sendFirstFile cfg env st =
      if env.writeOk st.writes = true then
        if (!(FileSharingSendFile env cfg.BLEFileToSend
            (routeWriteValue env st (cString cfg.BLEFileToSend)).2).fileSharingSendFileError)
              = true then
          (routeWriteValue env (FileSharingSendFile env cfg.BLEFileToSend
            (routeWriteValue env st (cString cfg.BLEFileToSend)).2) closeMessage).2
        else FileSharingSendFile env cfg.BLEFileToSend
            (routeWriteValue env st (cString cfg.BLEFileToSend)).2
      else (routeWriteValue env st (cString cfg.BLEFileToSend)).2 := rfl
  rw [hunf]
  simp only [hok, if_true, hf, Bool.not_false]
  exact hf

theorem FileSharingClientTask_connected (cfg : Config) (env : SenderEnv) (st : SenderState)
    (h : env.connected) :
    FileSharingClientTask cfg env st = sendSecondFile cfg env (sendFirstFile cfg env st) := by
  obtain ⟨h1, h2, h3, h4⟩ := h
  simp [FileSharingClientTask, h1, h2, h3, h4]

theorem FileSharingClientTask_not_connected (cfg : Config) (env : SenderEnv) (st : SenderState)
    (h : ¬ env.connected) : FileSharingClientTask cfg env st = st := by
  unfold FileSharingClientTask SenderEnv.connected at *
  cases h1 : env.connectOk <;> cases h2 : env.serviceFound <;>
    cases h3 : env.writeCharFound <;> cases h4 : env.routeCharFound <;> simp_all

/-- The restart message of the client task, by the outcomes of the connection
steps, of the file opens and of the writes. -/
theorem FileSharingClientTask_restart (cfg : Config) (env : SenderEnv) (flag : Bool) :
    (restartWritten (FileSharingClientTask cfg env { fileSharingSendFileError := flag }).trace ↔
      env.connected ∧
      (afterFirstFile cfg env flag).fileSharingSendFileError = false ∧
      env.writeOk (afterFirstFile cfg env flag).writes = true ∧
      (afterSecondSend cfg env flag).fileSharingSendFileError = false ∧
      env.writeOk (afterSecondSend cfg env flag).writes = true) ∧
    (restartWritten (FileSharingClientTask cfg env { fileSharingSendFileError := flag }).trace →
      (FileSharingClientTask cfg env { fileSharingSendFileError := flag }).trace =
        (afterSecondSend cfg env flag).trace ++
          [SenderEvent.routeWrite closeMessage true,
           SenderEvent.routeWrite restartMessage
            (env.writeOk ((afterSecondSend cfg env flag).writes + 1))] ∧
      ¬ restartWritten (afterSecondSend cfg env flag).trace) ∧
    (env.connected → env.fsOpen cfg.BLEFileToSend ≠ none → env.fsOpen cfg.MACFileToSend ≠ none →
      (∀ n, env.writeOk n = true) →
      restartWritten (FileSharingClientTask cfg env { fileSharingSendFileError := flag }).trace) := by
  have hnil : ¬ restartWritten ({ fileSharingSendFileError := flag } : SenderState).trace := by
    rintro ⟨ok, h⟩; simp at h
  by_cases hc : env.connected
  · have hA := sendFirstFile_no_restart cfg env { fileSharingSendFileError := flag } hnil
    obtain ⟨hiff, htr⟩ := sendSecondFile_restart cfg env
      (sendFirstFile cfg env { fileSharingSendFileError := flag }) hA
    rw [FileSharingClientTask_connected cfg env _ hc]
    refine ⟨⟨fun h => ⟨hc, hiff.1 h⟩, fun h => hiff.2 h.2⟩,
      fun h => ⟨htr h, secondSend_no_restart cfg env _ hA⟩, ?_⟩
    intro _ hB hM hok
    refine hiff.2 ⟨?_, hok _, FileSharingSendFile_accepted env hok _ _ hM, hok _⟩
    exact sendFirstFile_accepted cfg env hok _ hB
  · rw [FileSharingClientTask_not_connected cfg env _ hc]
    exact ⟨⟨fun h => absurd h hnil, fun h => absurd h.1 hc⟩, fun h => absurd h hnil,
      fun h => absurd h hc⟩

/-- Claim C10. Whatever the outcomes of the writes, of the file opens and of the
connection steps, and whatever the prior value of the error flag, the client
task writes the restart message exactly when the second file completes: the
connection steps succeed and the first `if` statement ends with the error flag
false (so that the selection of the second file is written), the world accepts
that selection write, `FileSharingSendFile` returns from the second file with
the error flag false, and the world accepts the close write that follows.
In terms of the events: exactly when the selection of the second file was
written and accepted, a close message was written and accepted after it, and
the error flag is false at the end. When the restart message is written, the
events of the task are those up to the return of `FileSharingSendFile`, none of
which is a restart message, then the accepted close message, then the restart
message with the outcome the world gives it: it is written once, last, after
that close. When the connection steps succeed, both files open and every write
is accepted, the restart message is written. -/
theorem C10_restart_after_second_file (cfg : Config) (env : SenderEnv) (flag : Bool)
    (hnames : cString cfg.BLEFileToSend ≠ cString cfg.MACFileToSend) :
    (restartWritten (FileSharingClientTask cfg env { fileSharingSendFileError := flag }).trace ↔
      env.connected ∧
      (afterFirstFile cfg env flag).fileSharingSendFileError = false ∧
      env.writeOk (afterFirstFile cfg env flag).writes = true ∧
      (afterSecondSend cfg env flag).fileSharingSendFileError = false ∧
      env.writeOk (afterSecondSend cfg env flag).writes = true) ∧
    (restartWritten (FileSharingClientTask cfg env { fileSharingSendFileError := flag }).trace ↔
      secondFileClosed cfg
          (FileSharingClientTask cfg env { fileSharingSendFileError := flag }).trace ∧
        (FileSharingClientTask cfg env
          { fileSharingSendFileError := flag }).fileSharingSendFileError = false) ∧
    (restartWritten (FileSharingClientTask cfg env { fileSharingSendFileError := flag }).trace →
      (FileSharingClientTask cfg env { fileSharingSendFileError := flag }).trace =
        (afterSecondSend cfg env flag).trace ++
          [SenderEvent.routeWrite closeMessage true,
           SenderEvent.routeWrite restartMessage
            (env.writeOk ((afterSecondSend cfg env flag).writes + 1))] ∧
      ¬ restartWritten (afterSecondSend cfg env flag).trace) ∧
    (env.connected → env.fsOpen cfg.BLEFileToSend ≠ none → env.fsOpen cfg.MACFileToSend ≠ none →
      (∀ n, env.writeOk n = true) →
      restartWritten (FileSharingClientTask cfg env { fileSharingSendFileError := flag }).trace) := by
  obtain ⟨hiff, htr, hlive⟩ := FileSharingClientTask_restart cfg env flag
  refine ⟨hiff, ?_, htr, hlive⟩
  rcases FileSharingClientTask_cases cfg env flag hnames with ⟨h1, h2⟩ | ⟨pre, ok, htr, hpre, h3, h4⟩
  · exact ⟨fun h => absurd h h1, fun h => absurd h h2⟩
  · have hw : restartWritten
        (FileSharingClientTask cfg env { fileSharingSendFileError := flag }).trace :=
      ⟨ok, by rw [htr]; simp⟩
    exact ⟨fun _ => ⟨h3, h4⟩, fun _ => hw⟩

/-- Claim C10 in a world where every write is accepted: the restart message is
written, and accepted. -/
theorem C10_restart_after_second_file_witness :
    ((restartWritten (FileSharingClientTask exampleConfig acceptingEnv
        { fileSharingSendFileError := true }).trace ↔
      acceptingEnv.connected ∧
      (afterFirstFile exampleConfig acceptingEnv true).fileSharingSendFileError = false ∧
      acceptingEnv.writeOk (afterFirstFile exampleConfig acceptingEnv true).writes = true ∧
      (afterSecondSend exampleConfig acceptingEnv true).fileSharingSendFileError = false ∧
      acceptingEnv.writeOk (afterSecondSend exampleConfig acceptingEnv true).writes = true) ∧
    (restartWritten (FileSharingClientTask exampleConfig acceptingEnv
        { fileSharingSendFileError := true }).trace ↔
      secondFileClosed exampleConfig
          (FileSharingClientTask exampleConfig acceptingEnv
            { fileSharingSendFileError := true }).trace ∧
        (FileSharingClientTask exampleConfig acceptingEnv
          { fileSharingSendFileError := true }).fileSharingSendFileError = false) ∧
    (restartWritten (FileSharingClientTask exampleConfig acceptingEnv
        { fileSharingSendFileError := true }).trace →
      (FileSharingClientTask exampleConfig acceptingEnv
          { fileSharingSendFileError := true }).trace =
        (afterSecondSend exampleConfig acceptingEnv true).trace ++
          [SenderEvent.routeWrite closeMessage true,
           SenderEvent.routeWrite restartMessage
            (acceptingEnv.writeOk
              ((afterSecondSend exampleConfig acceptingEnv true).writes + 1))] ∧
      ¬ restartWritten (afterSecondSend exampleConfig acceptingEnv true).trace) ∧
    (acceptingEnv.connected → acceptingEnv.fsOpen exampleConfig.BLEFileToSend ≠ none →
      acceptingEnv.fsOpen exampleConfig.MACFileToSend ≠ none →
      (∀ n, acceptingEnv.writeOk n = true) →
      restartWritten (FileSharingClientTask exampleConfig acceptingEnv
        { fileSharingSendFileError := true }).trace)) ∧
    restartWritten (FileSharingClientTask exampleConfig acceptingEnv
      { fileSharingSendFileError := true }).trace ∧
    SenderEvent.routeWrite restartMessage true ∈
      (FileSharingClientTask exampleConfig acceptingEnv
        { fileSharingSendFileError := true }).trace :=
  ⟨C10_restart_after_second_file exampleConfig acceptingEnv true (by decide),
   (C10_restart_after_second_file exampleConfig acceptingEnv true (by decide)).2.2.2
     ⟨rfl, rfl, rfl, rfl⟩ (by decide) (by decide) (fun _ => rfl),
   by decide⟩

/-! ## Theorems: close without a file, index range, progress of the receiver -/

/-- Claim C16, as stated, fails: with no file open, after a size announcement of
100 the close message leaves `FileReceiverExpectedSize` at 100. -/
theorem C16_counterexample :
    (receiverRun exampleConfig initialReceiver
        [ReceiverEvent.route (cstr "size:100") true,
         ReceiverEvent.route closeMessage true]).map ReceiverState.counters
      = some (100, 0, 0) := by
  decide

/-- Claim C16, amended. For every receiver state the route handler given the
message `close` returns; when a file is open the three counters are 0
afterwards, and when no file is open (`FileSharingCloseFile` returns at once)
they keep their values. -/
theorem C16_close_counters (cfg : Config) (st : ReceiverState) (openOk : Bool) :
    ∃ st1, FileSharingRouteCallbacks_onWrite cfg st closeMessage openOk = some st1 ∧
      st1.counters = if st.FileReceiver.isSome then (0, 0, 0) else st.counters := by
  refine ⟨_, onWrite_close cfg st openOk, ?_⟩
  cases hf : st.FileReceiver with
  | none => simp [FileSharingCloseFile, hf, ReceiverState.counters]
  | some f => simp [FileSharingCloseFile, hf, ReceiverState.counters]

theorem scanLoop_inl_lt (BLEDevCache : List BlueToothDevice) (size : Nat) (hpos : 0 < size) :
    ∀ (l : List Nat) (st : ScanState) (t : Nat),
      scanLoop BLEDevCache size l st = Sum.inl t → t < size := by
  intro l
  induction l with
  | nil => intro st t h; simp [scanLoop] at h
  | cons i rest ih =>
    intro st t h
    unfold scanLoop at h
    simp only at h
    split at h
    · have ht : (i % size) % 256 = t := Sum.inl.inj h
      rw [← ht]
      exact lt_of_le_of_lt (Nat.mod_le _ _) (Nat.mod_lt _ hpos)
    · exact ih _ t h

theorem getNextBLEDevCacheIndex_lt (BLEDevCache : List BlueToothDevice)
    (size BLEDevCacheIndex : Nat) (hpos : 0 < size) :
    getNextBLEDevCacheIndex BLEDevCache size BLEDevCacheIndex < size := by
  unfold getNextBLEDevCacheIndex
  simp only
  split
  · rename_i t h
    exact scanLoop_inl_lt BLEDevCache size hpos _ _ t h
  · exact scanStart_lt size BLEDevCacheIndex hpos

/-- Claim C18. For a cache of `size > 0` slots, every content and every value of
`BLEDevCacheIndex` (255 included, and any other), `getNextBLEDevCacheIndex`
returns an index below `size`; writing a device to the returned slot keeps the
number of slots, so at most `size` slots are occupied afterwards. -/
theorem C18_index_below_size (BLEDevCache : List BlueToothDevice) (size BLEDevCacheIndex : Nat)
    (dev : BlueToothDevice) (hpos : 0 < size) (hlen : BLEDevCache.length = size) :
    getNextBLEDevCacheIndex BLEDevCache size BLEDevCacheIndex < size ∧
    (BLEDevCache.set (getNextBLEDevCacheIndex BLEDevCache size BLEDevCacheIndex) dev).length
      = size ∧
    occupiedSlots
      (BLEDevCache.set (getNextBLEDevCacheIndex BLEDevCache size BLEDevCacheIndex) dev) ≤ size := by
  refine ⟨getNextBLEDevCacheIndex_lt BLEDevCache size BLEDevCacheIndex hpos, ?_, ?_⟩
  · rw [List.length_set, hlen]
  · unfold occupiedSlots
    refine le_trans (List.countP_le_length _) ?_
    rw [List.length_set, hlen]

/-- Claim C18 on a full cache of ten slots at `BLEDevCacheIndex = 255`. -/
theorem C18_index_below_size_witness :
    getNextBLEDevCacheIndex fullCacheExample 10 255 < 10 ∧
    (fullCacheExample.set (getNextBLEDevCacheIndex fullCacheExample 10 255)
      (mkDevice (cstr "11:22:33:44:55:66") 0)).length = 10 ∧
    occupiedSlots
      (fullCacheExample.set (getNextBLEDevCacheIndex fullCacheExample 10 255)
        (mkDevice (cstr "11:22:33:44:55:66") 0)) ≤ 10 :=
  C18_index_below_size fullCacheExample 10 255 (mkDevice (cstr "11:22:33:44:55:66") 0)
    (by decide) (by decide)

set_option maxRecDepth 8000 in
/-- Claim C13 (the code departs from it). With a file open, 3 bytes expected and 2
received, a write of one byte takes `FileReceiverReceivedSize` to 3, the
expected size, and leaves `FileReceiverProgress` at 66, computed from the 2
bytes received before the write; with 100 expected and 29 received, a write of
one byte gives progress 28, the `float` quotient 29/100 times 100 truncated. -/
theorem C13_progress_before_update :
    (FileSharingWriteCallbacks_onWrite (receivingExample 3 2 33) [65]).counters = (3, 3, 66) ∧
    (FileSharingWriteCallbacks_onWrite (receivingExample 100 29 28) [65]).counters
      = (100, 30, 28) ∧
    (FileSharingWriteCallbacks_onWrite (receivingExample 100 29 0) [65]).counters
      = (100, 30, 28) := by
  decide

/-! ## Theorems: the time record -/

set_option maxHeartbeats 1000000 in
theorem wrap32_sub_add (u : Nat) (a : Int) (hu : u < 2 ^ 32) :
    wrap32 (Int.ofNat (wrap32 (Int.ofNat u - a)) + a) = u := by
  unfold wrap32
  simp only [Int.ofNat_eq_coe]
  omega

/-- The time round trip for a time zone that the byte `tz` holds: when the two
conversions of `DateTime` invert each other at the local time and at the UTC
time, and the UTC fields fit the record, `setBLETime` recovers the local time. -/
theorem setBLETime_getBLETime_of_byte (dt : DateTimeClass) (LocalTime : DateTime)
    (timeZone : Int) (htz : 0 ≤ timeZone) (htz2 : timeZone < 256)
    (hu : dt.unixtime LocalTime < 2 ^ 32)
    (hlocal : dt.ofUnixtime (dt.unixtime LocalTime) = LocalTime)
    (hutc : dt.unixtime (dt.ofUnixtime (wrap32 (Int.ofNat (dt.unixtime LocalTime)
        - timeZone * 3600)))
      = wrap32 (Int.ofNat (dt.unixtime LocalTime) - timeZone * 3600))
    (hfit : (dt.ofUnixtime (wrap32 (Int.ofNat (dt.unixtime LocalTime)
        - timeZone * 3600))).year < 65536 ∧
      (dt.ofUnixtime (wrap32 (Int.ofNat (dt.unixtime LocalTime) - timeZone * 3600))).month < 256 ∧
      (dt.ofUnixtime (wrap32 (Int.ofNat (dt.unixtime LocalTime) - timeZone * 3600))).day < 256 ∧
      (dt.ofUnixtime (wrap32 (Int.ofNat (dt.unixtime LocalTime) - timeZone * 3600))).hour < 256 ∧
      (dt.ofUnixtime (wrap32 (Int.ofNat (dt.unixtime LocalTime) - timeZone * 3600))).minute < 256 ∧
      (dt.ofUnixtime (wrap32 (Int.ofNat (dt.unixtime LocalTime) - timeZone * 3600))).second
        < 256) :
    setBLETimeLocalTime dt (getBLETimeAt dt LocalTime timeZone) = LocalTime := by
  obtain ⟨h1, h2, h3, h4, h5, h6⟩ := hfit
  generalize hU : dt.ofUnixtime (wrap32 (Int.ofNat (dt.unixtime LocalTime) - timeZone * 3600))
    = U at *
  have htzn : Int.ofNat ((timeZone % 256).toNat) = timeZone := by
    simp only [Int.ofNat_eq_coe]; omega
  unfold setBLETimeLocalTime getBLETimeAt
  rw [hU]
  simp only [getBLETime, Nat.mod_eq_of_lt h1, Nat.mod_eq_of_lt h2, Nat.mod_eq_of_lt h3,
    Nat.mod_eq_of_lt h4, Nat.mod_eq_of_lt h5, Nat.mod_eq_of_lt h6]
  have hUeta : ({ year := U.year, month := U.month, day := U.day, hour := U.hour
                  minute := U.minute, second := U.second } : DateTime) = U := rfl
  rw [hUeta, hutc, htzn, wrap32_sub_add _ _ hu, hlocal]

set_option maxHeartbeats 1000000 in
theorem wrap32_neg_zone (u : Nat) (a : Int) (ha : a < 0) (ha2 : -256 ≤ a) :
    wrap32 (Int.ofNat (wrap32 (Int.ofNat u - a * 3600)) + (a + 256) * 3600)
      = wrap32 (Int.ofNat u + 921600) := by
  unfold wrap32
  simp only [Int.ofNat_eq_coe]
  omega

/-- The time round trip for a negative time zone: under the same conditions on
the conversions, `setBLETime` computes the instant 921600 seconds (256 hours)
after the local time. -/
theorem setBLETime_getBLETime_of_negative (dt : DateTimeClass) (LocalTime : DateTime)
    (timeZone : Int) (htz : timeZone < 0) (htz2 : -256 ≤ timeZone)
    (hutc : dt.unixtime (dt.ofUnixtime (wrap32 (Int.ofNat (dt.unixtime LocalTime)
        - timeZone * 3600)))
      = wrap32 (Int.ofNat (dt.unixtime LocalTime) - timeZone * 3600))
    (hfit : (dt.ofUnixtime (wrap32 (Int.ofNat (dt.unixtime LocalTime)
        - timeZone * 3600))).year < 65536 ∧
      (dt.ofUnixtime (wrap32 (Int.ofNat (dt.unixtime LocalTime) - timeZone * 3600))).month < 256 ∧
      (dt.ofUnixtime (wrap32 (Int.ofNat (dt.unixtime LocalTime) - timeZone * 3600))).day < 256 ∧
      (dt.ofUnixtime (wrap32 (Int.ofNat (dt.unixtime LocalTime) - timeZone * 3600))).hour < 256 ∧
      (dt.ofUnixtime (wrap32 (Int.ofNat (dt.unixtime LocalTime) - timeZone * 3600))).minute < 256 ∧
      (dt.ofUnixtime (wrap32 (Int.ofNat (dt.unixtime LocalTime) - timeZone * 3600))).second
        < 256) :
    setBLETimeLocalTime dt (getBLETimeAt dt LocalTime timeZone)
      = dt.ofUnixtime (wrap32 (Int.ofNat (dt.unixtime LocalTime) + 921600)) := by
  obtain ⟨h1, h2, h3, h4, h5, h6⟩ := hfit
  generalize hU : dt.ofUnixtime (wrap32 (Int.ofNat (dt.unixtime LocalTime) - timeZone * 3600))
    = U at *
  have htzn : Int.ofNat ((timeZone % 256).toNat) = timeZone + 256 := by
    simp only [Int.ofNat_eq_coe]; omega
  unfold setBLETimeLocalTime getBLETimeAt
  rw [hU]
  simp only [getBLETime, Nat.mod_eq_of_lt h1, Nat.mod_eq_of_lt h2, Nat.mod_eq_of_lt h3,
    Nat.mod_eq_of_lt h4, Nat.mod_eq_of_lt h5, Nat.mod_eq_of_lt h6]
  have hUeta : ({ year := U.year, month := U.month, day := U.day, hour := U.hour
                  minute := U.minute, second := U.second } : DateTime) = U := rfl
  rw [hUeta, hutc, htzn, wrap32_neg_zone _ _ htz htz2]

/-- Claim C11 (the code departs from it). With the local time 2019-06-15 12:30:45
and the time zone -5, `getBLETime` builds the record of 17:30:45 UTC with
`tz = 251`, and `setBLETime` computes from it the local time 2019-06-26
04:30:45, 256 hours late; with the time zone +2 it recovers the local time. -/
theorem C11_negative_time_zone :
    getBLETimeAt exampleDateTimeClass exampleLocalTime (-5) =
      { year := 2019, month := 6, day := 15, hour := 17, minutes := 30, seconds := 45,
        wday := 0, fraction := 0, adjust := 0, tz := 251 } ∧
    setBLETimeLocalTime exampleDateTimeClass
        (getBLETimeAt exampleDateTimeClass exampleLocalTime (-5)) =
      { year := 2019, month := 6, day := 26, hour := 4, minute := 30, second := 45 } ∧
    setBLETimeLocalTime exampleDateTimeClass
        (getBLETimeAt exampleDateTimeClass exampleLocalTime 2) = exampleLocalTime := by
  decide

/-- Claim C12 (the code departs from it). The sender's record for 12:30:45 UTC on
2019-06-15 with time zone 2 has `wday = 0`, so the message built with `%s`
carries the seven bytes of year to seconds only; a receiver whose
`BLERemoteTime` held `wday = 3`, `fraction = 7`, `adjust = 1`, `tz = 9` keeps
these four values, and its record differs from the sender's. -/
theorem C12_record_cut_at_nul :
    dateTimeMessage (getBLETime exampleLocalTime 2)
      = dateTimeMarker ++ [227, 7, 6, 15, 12, 30, 45] ∧
    (FileSharingRouteCallbacks_onWrite exampleConfig
        { initialReceiver with
          BLERemoteTime := { wday := 3, fraction := 7, adjust := 1, tz := 9 } }
        (dateTimeMessage (getBLETime exampleLocalTime 2)) true).map
      (fun st => st.BLERemoteTime) =
      some { year := 2019, month := 6, day := 15, hour := 12, minutes := 30, seconds := 45
             wday := 3, fraction := 7, adjust := 1, tz := 9 } ∧
    getBLETime exampleLocalTime 2 =
      { year := 2019, month := 6, day := 15, hour := 12, minutes := 30, seconds := 45,
        wday := 0, fraction := 0, adjust := 0, tz := 2 } := by
  decide

/-! ## Theorems: the error flag of the sender -/

/-- The loop of `FileSharingSendFile` ends in one of two ways: every chunk write
was accepted and the flag is untouched, or the last event is the first refused
chunk write and the flag is set. -/
theorem sendLoop_refusal (env : SenderEnv) (totalsize : Nat) (reads : List (List Nat)) :
    ∀ (progress : Nat) (lastpercent : Int) (st : SenderState),
      ∃ evs, (sendLoop env totalsize reads progress lastpercent st).trace = st.trace ++ evs ∧
        (((sendLoop env totalsize reads progress lastpercent st).fileSharingSendFileError
            = st.fileSharingSendFileError ∧ ∀ e ∈ evs, e.isRefusedData = false) ∨
         ((sendLoop env totalsize reads progress lastpercent st).fileSharingSendFileError = true ∧
            ∃ pre d, evs = pre ++ [SenderEvent.dataWrite d false] ∧
              ∀ e ∈ pre, e.isRefusedData = false)) := by
  induction reads with
  | nil => intro p lp st; exact ⟨[], by simp [sendLoop], Or.inl ⟨rfl, by simp⟩⟩
  | cons r rest ih =>
    intro p lp st
    unfold sendLoop
    simp only
    split
    · exact ⟨[], by simp, Or.inl ⟨rfl, by simp⟩⟩
    · cases hok : env.writeOk st.writes with
      | false =>
        refine ⟨[SenderEvent.dataWrite (r.take BLE_FILECOPY_BUFFSIZE) false], by simp,
          Or.inr ⟨by simp, [], r.take BLE_FILECOPY_BUFFSIZE, by simp, by simp⟩⟩
      | true =>
        simp only [Bool.not_true, Bool.false_eq_true, if_false]
        split
        · obtain ⟨evs, htr, hcase⟩ := ih ((p + 2 ^ 32 -
              (r.take BLE_FILECOPY_BUFFSIZE).length) % 2 ^ 32)
            (senderPercent ((p + 2 ^ 32 - (r.take BLE_FILECOPY_BUFFSIZE).length) % 2 ^ 32)
              totalsize)
            { fileSharingSendFileError := st.fileSharingSendFileError
              writes := st.writes + 1
              trace := st.trace ++
                [SenderEvent.dataWrite (r.take BLE_FILECOPY_BUFFSIZE) true] ++
                [SenderEvent.progressBar (senderPercent ((p + 2 ^ 32 -
                  (r.take BLE_FILECOPY_BUFFSIZE).length) % 2 ^ 32) totalsize)]
              percents := st.percents ++ [senderPercent ((p + 2 ^ 32 -
                  (r.take BLE_FILECOPY_BUFFSIZE).length) % 2 ^ 32) totalsize] }
          refine ⟨SenderEvent.dataWrite (r.take BLE_FILECOPY_BUFFSIZE) true ::
            SenderEvent.progressBar (senderPercent ((p + 2 ^ 32 -
                  (r.take BLE_FILECOPY_BUFFSIZE).length) % 2 ^ 32) totalsize) :: evs, ?_, ?_⟩
          · rw [htr]; simp
          · rcases hcase with ⟨hf, hall⟩ | ⟨hf, pre, d, hevs, hpre⟩
            · left
              refine ⟨hf, ?_⟩
              intro e he
              simp only [List.mem_cons] at he
              rcases he with h | h | h
              · rw [h]; rfl
              · rw [h]; rfl
              · exact hall e h
            · right
              refine ⟨hf, SenderEvent.dataWrite (r.take BLE_FILECOPY_BUFFSIZE) true ::
                SenderEvent.progressBar (senderPercent ((p + 2 ^ 32 -
                  (r.take BLE_FILECOPY_BUFFSIZE).length) % 2 ^ 32) totalsize) :: pre, d, ?_, ?_⟩
              · rw [hevs]; simp
              · intro e he
                simp only [List.mem_cons] at he
                rcases he with h | h | h
                · rw [h]; rfl
                · rw [h]; rfl
                · exact hpre e h
        · obtain ⟨evs, htr, hcase⟩ := ih ((p + 2 ^ 32 -
              (r.take BLE_FILECOPY_BUFFSIZE).length) % 2 ^ 32) lp
            { fileSharingSendFileError := st.fileSharingSendFileError
              writes := st.writes + 1
              trace := st.trace ++
                [SenderEvent.dataWrite (r.take BLE_FILECOPY_BUFFSIZE) true]
              percents := st.percents ++ [senderPercent ((p + 2 ^ 32 -
                  (r.take BLE_FILECOPY_BUFFSIZE).length) % 2 ^ 32) totalsize] }
          refine ⟨SenderEvent.dataWrite (r.take BLE_FILECOPY_BUFFSIZE) true :: evs, ?_, ?_⟩
          · rw [htr]; simp
          · rcases hcase with ⟨hf, hall⟩ | ⟨hf, pre, d, hevs, hpre⟩
            · left
              refine ⟨hf, ?_⟩
              intro e he
              simp only [List.mem_cons] at he
              rcases he with h | h
              · rw [h]; rfl
              · exact hall e h
            · right
              refine ⟨hf, SenderEvent.dataWrite (r.take BLE_FILECOPY_BUFFSIZE) true :: pre, d,
                ?_, ?_⟩
              · rw [hevs]; simp
              · intro e he
                simp only [List.mem_cons] at he
                rcases he with h | h
                · rw [h]; rfl
                · exact hpre e h

/-- What `FileSharingSendFile` does, by the outcome of the open and of the chunk
writes. -/
theorem FileSharingSendFile_outcomes (env : SenderEnv) (filename : List Nat) (st : SenderState) :
    (env.fsOpen filename = none ∧
      (FileSharingSendFile env filename st).fileSharingSendFileError = true ∧
      (FileSharingSendFile env filename st).trace
        = st.trace ++ [SenderEvent.fileOpen filename false]) ∨
    (∃ file, env.fsOpen filename = some file ∧
      ((∃ evs, (FileSharingSendFile env filename st).fileSharingSendFileError = false ∧
          (FileSharingSendFile env filename st).trace = st.trace ++ evs ∧
          ∀ e ∈ evs, e.isRefusedData = false) ∨
       (∃ pre d, (FileSharingSendFile env filename st).fileSharingSendFileError = true ∧
          (FileSharingSendFile env filename st).trace
            = st.trace ++ (pre ++ SenderEvent.dataWrite d false :: [SenderEvent.progressBar 0]) ∧
          ∀ e ∈ pre, e.isRefusedData = false))) := by
  unfold FileSharingSendFile
  cases hopen : env.fsOpen filename with
  | none => left; exact ⟨rfl, rfl, rfl⟩
  | some file =>
    right
    refine ⟨file, rfl, ?_⟩
    simp only [routeWriteValue]
    obtain ⟨evs, htr, hcase⟩ := sendLoop_refusal env (file.size % 2 ^ 32) file.reads
      (file.size % 2 ^ 32) 0
      { fileSharingSendFileError := false
        writes := st.writes + 1 + 1
        trace := st.trace ++ [SenderEvent.fileOpen filename true] ++
          [SenderEvent.routeWrite (sizeMessage (file.size % 2 ^ 32)) (env.writeOk st.writes)] ++
          [SenderEvent.routeWrite (dateTimeMessage (getBLETime env.UTCTime env.timeZone))
            (env.writeOk (st.writes + 1))] ++ [SenderEvent.progressBar 0]
        percents := st.percents }
    rcases hcase with ⟨hf, hall⟩ | ⟨hf, pre, d, hevs, hpre⟩
    · left
      refine ⟨[SenderEvent.fileOpen filename true,
        SenderEvent.routeWrite (sizeMessage (file.size % 2 ^ 32)) (env.writeOk st.writes),
        SenderEvent.routeWrite (dateTimeMessage (getBLETime env.UTCTime env.timeZone))
          (env.writeOk (st.writes + 1)), SenderEvent.progressBar 0] ++ evs ++
        [SenderEvent.progressBar 0], hf, ?_, ?_⟩
      · rw [htr]; simp
      · intro e he
        simp only [List.mem_append, List.mem_cons, List.mem_singleton, List.not_mem_nil,
          or_false] at he
        rcases he with (((h | h | h | h) | h) | h)
        · rw [h]; rfl
        · rw [h]; rfl
        · rw [h]; rfl
        · rw [h]; rfl
        · exact hall e h
        · rw [h]; rfl
    · right
      refine ⟨[SenderEvent.fileOpen filename true,
        SenderEvent.routeWrite (sizeMessage (file.size % 2 ^ 32)) (env.writeOk st.writes),
        SenderEvent.routeWrite (dateTimeMessage (getBLETime env.UTCTime env.timeZone))
          (env.writeOk (st.writes + 1)), SenderEvent.progressBar 0] ++ pre, d, hf, ?_, ?_⟩
      · rw [htr, hevs]; simp
      · intro e he
        simp only [List.mem_append, List.mem_cons, List.mem_singleton, List.not_mem_nil,
          or_false] at he
        rcases he with ((h | h | h | h) | h)
        · rw [h]; rfl
        · rw [h]; rfl
        · rw [h]; rfl
        · rw [h]; rfl
        · exact hpre e h

/-- Claim C17. For every prior state (so every prior value of the flag), every
world and every file name, `FileSharingSendFile` returns with the flag true
exactly when the file could not be opened or some chunk write was refused;
when the file cannot be opened none of its events is a write to a
characteristic; and no chunk is written after a refused chunk write. -/
theorem C17_error_flag (env : SenderEnv) (filename : List Nat) (st : SenderState) :
    ∃ evs, (FileSharingSendFile env filename st).trace = st.trace ++ evs ∧
      ((FileSharingSendFile env filename st).fileSharingSendFileError = true ↔
        (env.fsOpen filename = none ∨ ∃ e ∈ evs, e.isRefusedData = true)) ∧
      (env.fsOpen filename = none → ∀ e ∈ evs, e.isCharacteristicWrite = false) ∧
      (∀ pre e post, evs = pre ++ e :: post → e.isRefusedData = true →
        ∀ e2 ∈ post, e2.isDataWrite = false) := by
  rcases FileSharingSendFile_outcomes env filename st with
    ⟨hnone, hflag, htr⟩ | ⟨file, hsome, ⟨evs, hflag, htr, hall⟩ | ⟨pre, d, hflag, htr, hpre⟩⟩
  · refine ⟨[SenderEvent.fileOpen filename false], htr, ?_, ?_, ?_⟩
    · exact ⟨fun _ => Or.inl hnone, fun _ => hflag⟩
    · intro _ e he
      rw [List.mem_singleton] at he
      rw [he]; rfl
    · intro pre e post hdec hrefused
      have he : e ∈ [SenderEvent.fileOpen filename false] := by
        rw [hdec]; exact List.mem_append_cons_self
      rw [List.mem_singleton] at he
      rw [he] at hrefused
      exact absurd hrefused (by simp [SenderEvent.isRefusedData])
  · refine ⟨evs, htr, ?_, ?_, ?_⟩
    · constructor
      · intro h; rw [hflag] at h; exact absurd h (by decide)
      · rintro (h | ⟨e, he, hr⟩)
        · rw [hsome] at h; exact absurd h (by simp)
        · rw [hall e he] at hr; exact absurd hr (by decide)
    · intro h; rw [hsome] at h; exact absurd h (by simp)
    · intro pre e post hdec hrefused
      have he : e ∈ evs := by rw [hdec]; exact List.mem_append_cons_self
      rw [hall e he] at hrefused
      exact absurd hrefused (by decide)
  · refine ⟨pre ++ SenderEvent.dataWrite d false :: [SenderEvent.progressBar 0], htr, ?_, ?_, ?_⟩
    · exact ⟨fun _ => Or.inr ⟨SenderEvent.dataWrite d false, List.mem_append_cons_self, rfl⟩,
        fun _ => hflag⟩
    · intro h; rw [hsome] at h; exact absurd h (by simp)
    · intro pre2 e post hdec hrefused
      have hnotpre : e ∉ pre := fun hmem => by
        rw [hpre e hmem] at hrefused; exact absurd hrefused (by decide)
      have hnotpost : e ∉ [SenderEvent.progressBar 0] := fun hmem => by
        rw [List.mem_singleton] at hmem
        rw [hmem] at hrefused; exact absurd hrefused (by simp [SenderEvent.isRefusedData])
      obtain ⟨_, _, hpost⟩ := (List.append_cons_inj_of_not_mem hnotpre hnotpost).1 hdec
      intro e2 he2
      rw [← hpost, List.mem_singleton] at he2
      rw [he2]; rfl

/-! ## Theorems: the rounding of the progress computations -/

theorem log2Aux_spec :
    ∀ (fuel n : Nat), 0 < n → n ≤ fuel →
      2 ^ log2Aux fuel n ≤ n ∧ n < 2 ^ (log2Aux fuel n + 1) := by
  intro fuel
  induction fuel with
  | zero => intro n h0 h; omega
  | succ fuel ih =>
    intro n h0 h
    unfold log2Aux
    by_cases hz : n / 2 = 0
    · simp only [hz, if_true]
      have : n < 2 := by
        by_contra hc
        have := Nat.div_pos (Nat.le_of_not_lt hc) (by decide : 0 < 2)
        omega
      constructor <;> simp <;> omega
    · simp only [hz, if_false]
      have hpos : 0 < n / 2 := Nat.pos_of_ne_zero hz
      obtain ⟨h1, h2⟩ := ih (n / 2) hpos (by omega)
      constructor
      · rw [pow_succ]; omega
      · rw [pow_succ]; omega

theorem log2_spec (n : Nat) (h : 0 < n) : 2 ^ log2 n ≤ n ∧ n < 2 ^ (log2 n + 1) :=
  log2Aux_spec n n h (Nat.le_refl n)

theorem log2_eq_of_bounds (n L : Nat) (h1 : 2 ^ L ≤ n) (h2 : n < 2 ^ (L + 1)) : log2 n = L := by
  have hpos : 0 < n := lt_of_lt_of_le (Nat.two_pow_pos _) h1
  obtain ⟨a, b⟩ := log2_spec n hpos
  have hA : L < log2 n + 1 := (Nat.pow_lt_pow_iff_right (by decide : 1 < 2)).1 (lt_of_le_of_lt h1 b)
  have hB : log2 n < L + 1 := (Nat.pow_lt_pow_iff_right (by decide : 1 < 2)).1 (lt_of_le_of_lt a h2)
  omega

theorem log2_mono (m n : Nat) (hm : 0 < m) (h : m ≤ n) : log2 m ≤ log2 n := by
  obtain ⟨a, _⟩ := log2_spec m hm
  obtain ⟨_, b⟩ := log2_spec n (lt_of_lt_of_le hm h)
  have : log2 m < log2 n + 1 :=
    (Nat.pow_lt_pow_iff_right (by decide : 1 < 2)).1 (lt_of_le_of_lt (le_trans a h) b)
  omega

theorem log2_mul_pow (c k : Nat) (hc : 0 < c) : log2 (c * 2 ^ k) = log2 c + k := by
  obtain ⟨a, b⟩ := log2_spec c hc
  apply log2_eq_of_bounds
  · rw [pow_add]; exact Nat.mul_le_mul_right _ a
  · rw [show log2 c + k + 1 = (log2 c + 1) + k by omega, pow_add]
    exact Nat.mul_lt_mul_of_pos_right b (Nat.two_pow_pos _)

theorem rne_mono (U N N' : Nat) (hU : 0 < U) (h : N ≤ N') :
    (if 2 * (N % U) > U ∨ (2 * (N % U) = U ∧ N / U % 2 = 1) then N / U + 1 else N / U) ≤
    (if 2 * (N' % U) > U ∨ (2 * (N' % U) = U ∧ N' / U % 2 = 1) then N' / U + 1 else N' / U) := by
  have hm : N / U ≤ N' / U := Nat.div_le_div_right h
  have e1 := Nat.div_add_mod N U
  have e2 := Nat.div_add_mod N' U
  have r1 := Nat.mod_lt N hU
  have r2 := Nat.mod_lt N' hU
  rcases Nat.lt_or_eq_of_le hm with hlt | heq
  · split_ifs <;> omega
  · rw [← heq] at e2 ⊢
    generalize U * (N / U) = t at e1 e2
    split_ifs <;> omega

theorem rne_bounds (U N : Nat) :
    N / U ≤ (if 2 * (N % U) > U ∨ (2 * (N % U) = U ∧ N / U % 2 = 1) then N / U + 1 else N / U) ∧
    (if 2 * (N % U) > U ∨ (2 * (N % U) = U ∧ N / U % 2 = 1) then N / U + 1 else N / U)
      ≤ N / U + 1 := by
  split_ifs <;> omega

/-- The quantities inside `roundToBits` for a positive fraction: the quotient
scaled by `2 ^ k` has at least `p + 2` bits, and the significand kept has
exactly `p` bits. -/
theorem roundToBits_significand (p n d : Nat) (hp : 1 ≤ p) (hn : 0 < n) (hd : 0 < d) :
    2 ^ (p + 1) ≤ n * 2 ^ (p + 2 + log2 d) / d ∧
    p + 1 ≤ log2 (n * 2 ^ (p + 2 + log2 d) / d) ∧
    2 ^ (p - 1) ≤ n * 2 ^ (p + 2 + log2 d)
      / (d * 2 ^ (log2 (n * 2 ^ (p + 2 + log2 d) / d) + 1 - p)) ∧
    n * 2 ^ (p + 2 + log2 d) / (d * 2 ^ (log2 (n * 2 ^ (p + 2 + log2 d) / d) + 1 - p)) < 2 ^ p := by
  obtain ⟨_, hd2⟩ := log2_spec d hd
  have hQ : 2 ^ (p + 1) ≤ n * 2 ^ (p + 2 + log2 d) / d := by
    rw [Nat.le_div_iff_mul_le hd]
    have : 2 ^ (p + 2 + log2 d) = 2 ^ (p + 1) * 2 ^ (log2 d + 1) := by
      rw [← pow_add]; congr 1; omega
    rw [this]
    calc 2 ^ (p + 1) * d ≤ 2 ^ (p + 1) * 2 ^ (log2 d + 1) :=
          Nat.mul_le_mul_left _ (le_of_lt hd2)
      _ ≤ n * (2 ^ (p + 1) * 2 ^ (log2 d + 1)) := Nat.le_mul_of_pos_left _ hn
  have hQpos : 0 < n * 2 ^ (p + 2 + log2 d) / d := lt_of_lt_of_le (Nat.two_pow_pos _) hQ
  obtain ⟨hL1, hL2⟩ := log2_spec _ hQpos
  have hL : p + 1 ≤ log2 (n * 2 ^ (p + 2 + log2 d) / d) := by
    have : p + 1 < log2 (n * 2 ^ (p + 2 + log2 d) / d) + 1 :=
      (Nat.pow_lt_pow_iff_right (by decide : 1 < 2)).1 (lt_of_le_of_lt hQ hL2)
    omega
  refine ⟨hQ, hL, ?_, ?_⟩
  · rw [← Nat.div_div_eq_div_mul, Nat.le_div_iff_mul_le (Nat.two_pow_pos _), ← pow_add]
    have : p - 1 + (log2 (n * 2 ^ (p + 2 + log2 d) / d) + 1 - p)
        = log2 (n * 2 ^ (p + 2 + log2 d) / d) := by omega
    rw [this]; exact hL1
  · rw [← Nat.div_div_eq_div_mul, Nat.div_lt_iff_lt_mul (Nat.two_pow_pos _), ← pow_add]
    have : p + (log2 (n * 2 ^ (p + 2 + log2 d) / d) + 1 - p)
        = log2 (n * 2 ^ (p + 2 + log2 d) / d) + 1 := by omega
    rw [this]; exact hL2

theorem roundToBits_snd (p n d : Nat) (hn : 0 < n) :
    (roundToBits p n d).2 = 2 ^ (p + 2 + log2 d) := by
  simp [roundToBits, Nat.ne_of_gt hn]

theorem roundToBits_zero (p d : Nat) : roundToBits p 0 d = (0, 1) := by
  simp [roundToBits]

theorem roundToBits_fst_pos (p n d : Nat) (hp : 1 ≤ p) (hn : 0 < n) (hd : 0 < d) :
    0 < (roundToBits p n d).1 := by
  obtain ⟨_, _, hm, _⟩ := roundToBits_significand p n d hp hn hd
  have hb := (rne_bounds (d * 2 ^ (log2 (n * 2 ^ (p + 2 + log2 d) / d) + 1 - p))
    (n * 2 ^ (p + 2 + log2 d))).1
  have hpos : 0 < 2 ^ (p - 1) := Nat.two_pow_pos _
  simp only [roundToBits, Nat.ne_of_gt hn, if_false]
  exact Nat.mul_pos (by omega) (Nat.two_pow_pos _)

/-- For a fixed denominator the rounded value does not decrease when the
numerator grows. -/
theorem roundToBits_mono (p d n n' : Nat) (hp : 1 ≤ p) (hd : 0 < d) (hn : 0 < n) (h : n ≤ n') :
    (roundToBits p n d).1 ≤ (roundToBits p n' d).1 := by
  have hn' : 0 < n' := lt_of_lt_of_le hn h
  obtain ⟨hQ, hL, hm1, hm2⟩ := roundToBits_significand p n d hp hn hd
  obtain ⟨hQ', hL', hm1', hm2'⟩ := roundToBits_significand p n' d hp hn' hd
  have hN : n * 2 ^ (p + 2 + log2 d) ≤ n' * 2 ^ (p + 2 + log2 d) := Nat.mul_le_mul_right _ h
  have hQQ : n * 2 ^ (p + 2 + log2 d) / d ≤ n' * 2 ^ (p + 2 + log2 d) / d :=
    Nat.div_le_div_right hN
  have hLL := log2_mono _ _ (lt_of_lt_of_le (Nat.two_pow_pos _) hQ) hQQ
  simp only [roundToBits, Nat.ne_of_gt hn, Nat.ne_of_gt hn', if_false]
  generalize n * 2 ^ (p + 2 + log2 d) = N at *
  generalize n' * 2 ^ (p + 2 + log2 d) = N' at *
  generalize log2 (N / d) = L at *
  generalize log2 (N' / d) = L' at *
  rcases Nat.lt_or_eq_of_le hLL with hlt | heq
  · -- a lower binade: at most 2 ^ p units of 2 ^ s, at most 2 ^ (p - 1) units of 2 ^ s'
    have hb := (rne_bounds (d * 2 ^ (L + 1 - p)) N).2
    have hb' := (rne_bounds (d * 2 ^ (L' + 1 - p)) N').1
    calc _ ≤ 2 ^ p * 2 ^ (L + 1 - p) := Nat.mul_le_mul_right _ (by omega)
      _ = 2 ^ (L + 1) := by rw [← pow_add]; congr 1; omega
      _ ≤ 2 ^ L' := Nat.pow_le_pow_right (by decide) hlt
      _ = 2 ^ (p - 1) * 2 ^ (L' + 1 - p) := by rw [← pow_add]; congr 1; omega
      _ ≤ _ := Nat.mul_le_mul_right _ (by omega)
  · rw [← heq]
    exact Nat.mul_le_mul_right _
      (rne_mono (d * 2 ^ (L + 1 - p)) N N' (Nat.mul_pos hd (Nat.two_pow_pos _)) hN)

theorem log2_lt_of_lt_pow (c p : Nat) (hc : 0 < c) (h : c < 2 ^ p) : log2 c < p := by
  obtain ⟨a, _⟩ := log2_spec c hc
  exact (Nat.pow_lt_pow_iff_right (by decide : 1 < 2)).1 (lt_of_le_of_lt a h)

theorem le_log2_pow_mul (i h : Nat) (hh : 0 < h) : i ≤ log2 (2 ^ i * h) := by
  have h1 : log2 (1 * 2 ^ i) = log2 1 + i := log2_mul_pow 1 i (by decide)
  have h0 : log2 1 = 0 := by decide
  have h2 : log2 (1 * 2 ^ i) ≤ log2 (2 ^ i * h) :=
    log2_mono _ _ (by simp) (by rw [Nat.one_mul]; exact Nat.le_mul_of_pos_right _ hh)
  omega

/-- A value `c / 2 ^ i` whose numerator `c` has at most `p` bits is not changed by
the rounding to `p` bits. -/
theorem roundToBits_exact (p c h i : Nat) (hp : 1 ≤ p) (hc : 0 < c) (hc2 : c < 2 ^ p)
    (hh : 0 < h) :
    roundToBits p (c * h) (2 ^ i * h)
      = (c * 2 ^ (p + 2 + log2 (2 ^ i * h) - i), 2 ^ (p + 2 + log2 (2 ^ i * h))) := by
  have hi := le_log2_pow_mul i h hh
  have hlc := log2_lt_of_lt_pow c p hc hc2
  have hn : c * h ≠ 0 := Nat.ne_of_gt (Nat.mul_pos hc hh)
  obtain ⟨k1, hk1⟩ : ∃ k1, p + 2 + log2 (2 ^ i * h) = i + k1 := ⟨p + 2 + log2 (2 ^ i * h) - i, by omega⟩
  have hk1p : p + 2 ≤ k1 := by omega
  simp only [roundToBits, hn, if_false]
  rw [hk1]
  have hN : c * h * 2 ^ (i + k1) = c * 2 ^ k1 * (2 ^ i * h) := by rw [pow_add]; ring
  have hd : 0 < 2 ^ i * h := Nat.mul_pos (Nat.two_pow_pos _) hh
  have hQ : c * h * 2 ^ (i + k1) / (2 ^ i * h) = c * 2 ^ k1 := by
    rw [hN]; exact Nat.mul_div_cancel _ hd
  rw [hQ, log2_mul_pow c k1 hc]
  obtain ⟨s, hs⟩ : ∃ s, log2 c + k1 + 1 - p = s := ⟨_, rfl⟩
  rw [hs]
  have hsk : s ≤ k1 := by omega
  have hN2 : c * h * 2 ^ (i + k1) = c * 2 ^ (k1 - s) * (2 ^ i * h * 2 ^ s) := by
    rw [hN]
    have : 2 ^ k1 = 2 ^ (k1 - s) * 2 ^ s := by rw [← pow_add]; congr 1; omega
    rw [this]; ring
  have hU : 0 < 2 ^ i * h * 2 ^ s := Nat.mul_pos hd (Nat.two_pow_pos _)
  have hm : c * h * 2 ^ (i + k1) / (2 ^ i * h * 2 ^ s) = c * 2 ^ (k1 - s) := by
    rw [hN2]; exact Nat.mul_div_cancel _ hU
  have hr : c * h * 2 ^ (i + k1) % (2 ^ i * h * 2 ^ s) = 0 := by
    rw [hN2]; exact Nat.mul_mod_left _ _
  rw [hm, hr]
  have hcond : ¬ (2 * 0 > 2 ^ i * h * 2 ^ s ∨
      (2 * 0 = 2 ^ i * h * 2 ^ s ∧ c * 2 ^ (k1 - s) % 2 = 1)) := by
    rintro (h1 | ⟨h1, _⟩) <;> omega
  simp only [hcond, if_false]
  have e1 : c * 2 ^ (k1 - s) * 2 ^ s = c * 2 ^ k1 := by
    rw [Nat.mul_assoc, ← pow_add]; congr 2; omega
  rw [e1, show i + k1 - i = k1 by omega]

/-- A fraction that is at most `c / 2 ^ i` rounds to at most `c / 2 ^ i`. -/
theorem roundToBits_le_of_le (p c h i n : Nat) (hp : 1 ≤ p) (hc : 0 < c) (hc2 : c < 2 ^ p)
    (hh : 0 < h) (hle : n ≤ c * h) :
    (roundToBits p n (2 ^ i * h)).1 * 2 ^ i ≤ c * (roundToBits p n (2 ^ i * h)).2 := by
  rcases Nat.eq_zero_or_pos n with h0 | hpos
  · rw [h0, roundToBits_zero]; simp
  · have hd : 0 < 2 ^ i * h := Nat.mul_pos (Nat.two_pow_pos _) hh
    have hmono := roundToBits_mono p (2 ^ i * h) n (c * h) hp hd hpos hle
    rw [roundToBits_exact p c h i hp hc hc2 hh] at hmono
    rw [roundToBits_snd p n _ hpos]
    have hi := le_log2_pow_mul i h hh
    calc (roundToBits p n (2 ^ i * h)).1 * 2 ^ i
        ≤ c * 2 ^ (p + 2 + log2 (2 ^ i * h) - i) * 2 ^ i := Nat.mul_le_mul_right _ hmono
      _ = c * 2 ^ (p + 2 + log2 (2 ^ i * h)) := by
          rw [Nat.mul_assoc, ← pow_add]; congr 2; omega

/-- A fraction that is at least `c` rounds to at least `c`. -/
theorem roundToBits_ge_of_ge (p c d n : Nat) (hp : 1 ≤ p) (hc : 0 < c) (hc2 : c < 2 ^ p)
    (hd : 0 < d) (hle : c * d ≤ n) :
    c * (roundToBits p n d).2 ≤ (roundToBits p n d).1 := by
  have hpos : 0 < n := lt_of_lt_of_le (Nat.mul_pos hc hd) hle
  have hmono := roundToBits_mono p d (c * d) n hp hd (Nat.mul_pos hc hd) hle
  have hex := roundToBits_exact p c d 0 hp hc hc2 hd
  simp only [pow_zero, Nat.one_mul, Nat.sub_zero] at hex
  rw [hex] at hmono
  rw [roundToBits_snd p n _ hpos]
  exact hmono

theorem roundToBits_le_int (p c d n : Nat) (hp : 1 ≤ p) (hc : 0 < c) (hc2 : c < 2 ^ p)
    (hd : 0 < d) (hle : n ≤ c * d) :
    (roundToBits p n d).1 ≤ c * (roundToBits p n d).2 := by
  have := roundToBits_le_of_le p c d 0 n hp hc hc2 hd hle
  simpa using this

theorem roundToBits_snd_pos (p n d : Nat) : 0 < (roundToBits p n d).2 := by
  rcases Nat.eq_zero_or_pos n with h0 | hpos
  · rw [h0, roundToBits_zero]; decide
  · rw [roundToBits_snd p n d hpos]; exact Nat.two_pow_pos _

theorem log2_one : log2 1 = 0 := by decide

/-- The conversion `(float)a` of a positive `size_t`. -/
theorem toFloat_snd (a : Nat) (ha : 0 < a) : (roundToBits 24 a 1).2 = 2 ^ 26 := by
  rw [roundToBits_snd 24 a 1 ha, log2_one]

theorem floatRatio_snd (a b : Nat) (ha : 0 < a) :
    (floatRatio a b).2 = 2 ^ (26 + log2 (2 ^ 26 * (roundToBits 24 b 1).1)) := by
  have h1 := roundToBits_fst_pos 24 a 1 (by decide) ha (by decide)
  unfold floatRatio
  simp only
  rw [roundToBits_snd _ _ _ (Nat.mul_pos h1 (roundToBits_snd_pos _ _ _)), toFloat_snd a ha]

theorem floatRatio_fst_pos (a b : Nat) (ha : 0 < a) (hb : 0 < b) : 0 < (floatRatio a b).1 := by
  have h1 := roundToBits_fst_pos 24 a 1 (by decide) ha (by decide)
  have h2 := roundToBits_fst_pos 24 b 1 (by decide) hb (by decide)
  unfold floatRatio
  simp only
  exact roundToBits_fst_pos 24 _ _ (by decide) (Nat.mul_pos h1 (roundToBits_snd_pos _ _ _))
    (Nat.mul_pos (roundToBits_snd_pos _ _ _) h2)

theorem floatRatio_mono (a a' b : Nat) (ha : 0 < a) (hb : 0 < b) (h : a ≤ a') :
    (floatRatio a b).1 ≤ (floatRatio a' b).1 := by
  have ha' : 0 < a' := lt_of_lt_of_le ha h
  have h1 := roundToBits_fst_pos 24 a 1 (by decide) ha (by decide)
  have h2 := roundToBits_fst_pos 24 b 1 (by decide) hb (by decide)
  have hm := roundToBits_mono 24 1 a a' (by decide) (by decide) ha h
  unfold floatRatio
  simp only
  rw [toFloat_snd a ha, toFloat_snd a' ha']
  exact roundToBits_mono 24 _ _ _ (by decide) (Nat.mul_pos (Nat.two_pow_pos _) h2)
    (Nat.mul_pos h1 (roundToBits_snd_pos _ _ _)) (Nat.mul_le_mul_right _ hm)

/-- The quotient `(float)a / (float)b` is at most 1 when `a <= b`. -/
theorem floatRatio_le_one (a b : Nat) (hb : 0 < b) (h : a ≤ b) :
    (floatRatio a b).1 ≤ (floatRatio a b).2 := by
  rcases Nat.eq_zero_or_pos a with h0 | ha
  · subst h0
    simp [floatRatio, roundToBits_zero]
  · have h2 := roundToBits_fst_pos 24 b 1 (by decide) hb (by decide)
    have hm := roundToBits_mono 24 1 a b (by decide) (by decide) ha h
    have := roundToBits_le_int 24 1 ((roundToBits 24 a 1).2 * (roundToBits 24 b 1).1)
      ((roundToBits 24 a 1).1 * (roundToBits 24 b 1).2) (by decide) (by decide) (by decide)
      (Nat.mul_pos (roundToBits_snd_pos _ _ _) h2)
      (by rw [toFloat_snd a ha, toFloat_snd b hb, Nat.one_mul, Nat.mul_comm]
          exact Nat.mul_le_mul_left _ hm)
    unfold floatRatio
    simpa using this

theorem ratioTimes100_snd (a b : Nat) (ha : 0 < a) (hb : 0 < b) :
    (ratioTimes100 a b).2 = 2 ^ (55 + log2 (floatRatio a b).2) := by
  unfold ratioTimes100
  simp only
  rw [roundToBits_snd _ _ _ (Nat.mul_pos (floatRatio_fst_pos a b ha hb) (by decide))]

theorem ratioTimes100_mono (a a' b : Nat) (ha : 0 < a) (hb : 0 < b) (h : a ≤ a') :
    (ratioTimes100 a b).1 ≤ (ratioTimes100 a' b).1 ∧
    (ratioTimes100 a b).2 = (ratioTimes100 a' b).2 := by
  have ha' : 0 < a' := lt_of_lt_of_le ha h
  have hs : (floatRatio a b).2 = (floatRatio a' b).2 := by
    rw [floatRatio_snd a b ha, floatRatio_snd a' b ha']
  constructor
  · unfold ratioTimes100
    simp only
    rw [← hs]
    exact roundToBits_mono 53 _ _ _ (by decide) (roundToBits_snd_pos _ _ _)
      (Nat.mul_pos (floatRatio_fst_pos a b ha hb) (by decide))
      (Nat.mul_le_mul_right _ (floatRatio_mono a a' b ha hb h))
  · rw [ratioTimes100_snd a b ha hb, ratioTimes100_snd a' b ha' hb, hs]

/-- The product `((float)a / (float)b) * 100.00` is at most 100 when `a <= b`. -/
theorem ratioTimes100_le (a b : Nat) (hb : 0 < b) (h : a ≤ b) :
    (ratioTimes100 a b).1 ≤ 100 * (ratioTimes100 a b).2 := by
  unfold ratioTimes100
  simp only
  exact roundToBits_le_int 53 100 _ _ (by decide) (by decide) (by decide)
    (roundToBits_snd_pos _ _ _)
    (by rw [Nat.mul_comm]; exact Nat.mul_le_mul_left _ (floatRatio_le_one a b hb h))

/-- For `progress <= totalsize` the sender computes its percent value in the
first branch: the product is at most 100. -/
theorem senderPercent_eq (a b : Nat) (hb : 0 < b) (h : a ≤ b) :
    senderPercent a b = Int.ofNat
      ((roundToBits 53 (100 * (ratioTimes100 a b).2 - (ratioTimes100 a b).1)
          (ratioTimes100 a b).2).1 /
        (roundToBits 53 (100 * (ratioTimes100 a b).2 - (ratioTimes100 a b).1)
          (ratioTimes100 a b).2).2) := by
  unfold senderPercent
  simp only [ratioTimes100_le a b hb h, if_true]

theorem senderPercent_zero (b : Nat) : senderPercent 0 b = 100 := by
  have h1 : ratioTimes100 0 b = (0, 1) := by
    simp [ratioTimes100, floatRatio, roundToBits_zero]
  unfold senderPercent
  rw [h1]
  decide

theorem senderPercent_nonneg (a b : Nat) (hb : 0 < b) (h : a ≤ b) : 0 ≤ senderPercent a b := by
  rw [senderPercent_eq a b hb h]
  exact Int.ofNat_nonneg _

theorem senderPercent_le_100 (a b : Nat) (hb : 0 < b) (h : a ≤ b) : senderPercent a b ≤ 100 := by
  rw [senderPercent_eq a b hb h]
  have hle := roundToBits_le_int 53 100 (ratioTimes100 a b).2
    (100 * (ratioTimes100 a b).2 - (ratioTimes100 a b).1) (by decide) (by decide) (by decide)
    (roundToBits_snd_pos _ _ _) (Nat.sub_le _ _)
  have : (roundToBits 53 (100 * (ratioTimes100 a b).2 - (ratioTimes100 a b).1)
          (ratioTimes100 a b).2).1 /
        (roundToBits 53 (100 * (ratioTimes100 a b).2 - (ratioTimes100 a b).1)
          (ratioTimes100 a b).2).2 ≤ 100 :=
    Nat.div_le_of_le_mul (by omega)
  exact Int.ofNat_le.2 this

/-- The percent value does not decrease when fewer bytes remain. -/
theorem senderPercent_antitone (a a' b : Nat) (hb : 0 < b) (h : a' ≤ a) (hab : a ≤ b) :
    senderPercent a b ≤ senderPercent a' b := by
  rcases Nat.eq_zero_or_pos a' with h0 | ha'
  · subst h0
    rw [senderPercent_zero]
    exact senderPercent_le_100 a b hb hab
  · have ha : 0 < a := lt_of_lt_of_le ha' h
    obtain ⟨hx, hs⟩ := ratioTimes100_mono a' a b ha' hb h
    rw [senderPercent_eq a b hb hab, senderPercent_eq a' b hb (le_trans h hab)]
    rw [hs]
    rcases Nat.eq_zero_or_pos (100 * (ratioTimes100 a b).2 - (ratioTimes100 a b).1) with hz | hpos
    · rw [hz, roundToBits_zero]
      exact Int.ofNat_le.2 (by simp)
    · have hm := roundToBits_mono 53 (ratioTimes100 a b).2 _
        (100 * (ratioTimes100 a b).2 - (ratioTimes100 a' b).1) (by decide)
        (roundToBits_snd_pos _ _ _) hpos (Nat.sub_le_sub_left hx _)
      have hpos' : 0 < 100 * (ratioTimes100 a b).2 - (ratioTimes100 a' b).1 :=
        lt_of_lt_of_le hpos (Nat.sub_le_sub_left hx _)
      have hden : (roundToBits 53 (100 * (ratioTimes100 a b).2 - (ratioTimes100 a b).1)
          (ratioTimes100 a b).2).2 = (roundToBits 53 (100 * (ratioTimes100 a b).2
            - (ratioTimes100 a' b).1) (ratioTimes100 a b).2).2 := by
        rw [roundToBits_snd _ _ _ hpos, roundToBits_snd _ _ _ hpos']
      rw [hden]
      exact Int.ofNat_le.2 (Nat.div_le_div_right hm)

/-! ## Theorems: the progress of the sender -/

theorem sendLoop_percents (env : SenderEnv) (totalsize : Nat) (reads : List (List Nat)) :
    ∀ (progress : Nat) (lastpercent : Int) (st : SenderState),
      (∀ i, i < reads.length → env.writeOk (st.writes + i) = true) →
      (∀ r ∈ reads, 1 ≤ r.length ∧ r.length ≤ 512) → totalLength reads ≤ progress →
      progress < 2 ^ 32 →
      (sendLoop env totalsize reads progress lastpercent st).percents
        = st.percents ++ (remainingAfter progress reads).map (fun p => senderPercent p totalsize) := by
  induction reads with
  | nil => intro p lp st _ _ _ _; simp [sendLoop, remainingAfter]
  | cons r rest ih =>
    intro p lp st hok hall hsum hp
    obtain ⟨hr1, hr2⟩ := hall r (List.mem_cons_self _ _)
    have hrest : ∀ r' ∈ rest, 1 ≤ r'.length ∧ r'.length ≤ 512 :=
      fun r' h => hall r' (List.mem_cons_of_mem _ h)
    have hsum' : r.length + totalLength rest ≤ p := by
      simpa [totalLength] using hsum
    have hlen : (r.take BLE_FILECOPY_BUFFSIZE).length = r.length := by
      rw [List.length_take]; exact Nat.min_eq_right hr2
    have hprog : (p + 2 ^ 32 - r.length) % 2 ^ 32 = p - r.length := by
      have : p + 2 ^ 32 - r.length = (p - r.length) + 2 ^ 32 := by omega
      rw [this, Nat.add_mod_right]
      exact Nat.mod_eq_of_lt (by omega)
    have hok0 : env.writeOk st.writes = true := by
      have := hok 0 (by simp)
      simpa using this
    have hokrest : ∀ i, i < rest.length → env.writeOk (st.writes + 1 + i) = true := by
      intro i hi
      have := hok (i + 1) (by simp; omega)
      rw [show st.writes + 1 + i = st.writes + (i + 1) by omega]
      exact this
    unfold sendLoop
    simp only [hlen, hprog, hok0, Bool.not_true, Bool.false_eq_true, if_false,
      Nat.ne_of_gt hr1, remainingAfter, List.map_cons]
    split
    · rw [ih (p - r.length) _ _ hokrest hrest (by omega) (by omega)]
      simp
    · rw [ih (p - r.length) _ _ hokrest hrest (by omega) (by omega)]
      simp

theorem remainingAfter_length (p : Nat) (reads : List (List Nat)) :
    (remainingAfter p reads).length = reads.length := by
  induction reads generalizing p with
  | nil => rfl
  | cons r rest ih => simp [remainingAfter, ih]

theorem remainingAfter_le (reads : List (List Nat)) :
    ∀ (p : Nat), ∀ v ∈ remainingAfter p reads, v ≤ p := by
  induction reads with
  | nil => intro p v hv; simp [remainingAfter] at hv
  | cons r rest ih =>
    intro p v hv
    simp only [remainingAfter, List.mem_cons] at hv
    rcases hv with h | h
    · omega
    · have := ih (p - r.length) v h; omega

theorem remainingAfter_pairwise (reads : List (List Nat)) :
    ∀ (p : Nat), List.Pairwise (fun a b => b ≤ a) (remainingAfter p reads) := by
  induction reads with
  | nil => intro p; simp [remainingAfter]
  | cons r rest ih =>
    intro p
    simp only [remainingAfter, List.pairwise_cons]
    exact ⟨fun v hv => remainingAfter_le rest _ v hv, ih _⟩

theorem remainingAfter_getLast (reads : List (List Nat)) :
    ∀ (p : Nat), reads ≠ [] →
      (remainingAfter p reads).getLast? = some (p - totalLength reads) := by
  induction reads with
  | nil => intro p h; exact absurd rfl h
  | cons r rest ih =>
    intro p _
    cases rest with
    | nil => simp [remainingAfter, totalLength]
    | cons r2 rest2 =>
      have := ih (p - r.length) (by simp)
      simp only [remainingAfter, totalLength, List.map_cons, List.sum_cons] at this ⊢
      rw [List.getLast?_cons_cons, this]
      congr 1
      omega

/-- The percent values of a stream that sends the whole file. -/
theorem remaining_percents (totalsize : Nat) (reads : List (List Nat)) (hpos : 0 < totalsize)
    (hne : reads ≠ []) (hsum : totalLength reads = totalsize) :
    List.Pairwise (fun a b => a ≤ b)
        ((remainingAfter totalsize reads).map (fun p => senderPercent p totalsize)) ∧
      (∀ v ∈ (remainingAfter totalsize reads).map (fun p => senderPercent p totalsize),
        0 ≤ v ∧ v ≤ 100) ∧
      ((remainingAfter totalsize reads).map (fun p => senderPercent p totalsize)).getLast?
        = some 100 := by
  refine ⟨?_, ?_, ?_⟩
  · rw [List.pairwise_map]
    have hp := remainingAfter_pairwise reads totalsize
    have hle := remainingAfter_le reads totalsize
    exact List.Pairwise.imp_of_mem
      (fun {a b} ha _ hab => senderPercent_antitone a b totalsize hpos hab (hle a ha)) hp
  · intro v hv
    rw [List.mem_map] at hv
    obtain ⟨p, hp, rfl⟩ := hv
    have := remainingAfter_le reads totalsize p hp
    exact ⟨senderPercent_nonneg p totalsize hpos this, senderPercent_le_100 p totalsize hpos this⟩
  · rw [List.getLast?_map, remainingAfter_getLast reads totalsize hne, hsum, Nat.sub_self]
    simp [senderPercent_zero]

/-- Claim C14. For a file of `totalsize` bytes with `0 < totalsize < 2 ^ 32`, read
as chunks of 1 to 512 bytes whose lengths sum to `totalsize`, with every chunk
write accepted (the chunks are the writes that follow the size and the time
announcements), the percent values that `FileSharingSendFile` computes, one per
chunk, are non-decreasing, lie between 0 and 100, and the last one is 100. -/
theorem C14_sender_percent_monotone (env : SenderEnv) (filename : List Nat) (st : SenderState)
    (file : StoredFile) (hopen : env.fsOpen filename = some file)
    (hpos : 0 < file.size) (hsize : file.size < 2 ^ 32)
    (hreads : ∀ r ∈ file.reads, 1 ≤ r.length ∧ r.length ≤ 512)
    (hsum : totalLength file.reads = file.size)
    (hok : ∀ i, i < file.reads.length → env.writeOk (st.writes + 2 + i) = true) :
    ∃ ps, (FileSharingSendFile env filename st).percents = st.percents ++ ps ∧
      ps.length = file.reads.length ∧
      List.Pairwise (fun a b => a ≤ b) ps ∧
      (∀ v ∈ ps, 0 ≤ v ∧ v ≤ 100) ∧
      ps.getLast? = some 100 := by
  have hne : file.reads ≠ [] := by
    intro h
    rw [h] at hsum
    simp [totalLength] at hsum
    omega
  have hmod : file.size % 2 ^ 32 = file.size := Nat.mod_eq_of_lt hsize
  obtain ⟨h1, h2, h3⟩ := remaining_percents file.size file.reads hpos hne hsum
  refine ⟨(remainingAfter file.size file.reads).map (fun p => senderPercent p file.size),
    ?_, by rw [List.length_map, remainingAfter_length], h1, h2, h3⟩
  unfold FileSharingSendFile
  simp only [hopen, hmod, routeWriteValue]
  rw [sendLoop_percents env file.size file.reads file.size 0 _ hok hreads (le_of_eq hsum) hsize]

/-- Claim C14 on a file of 1200 bytes read in chunks of 500, 512 and 188 bytes. -/
theorem C14_sender_percent_monotone_witness :
    ∃ ps, (FileSharingSendFile streamEnv exampleConfig.BLEFileToSend {}).percents
        = ({} : SenderState).percents ++ ps ∧
      ps.length = [List.replicate 500 65, List.replicate 512 66, List.replicate 188 67].length ∧
      List.Pairwise (fun a b => a ≤ b) ps ∧
      (∀ v ∈ ps, 0 ≤ v ∧ v ≤ 100) ∧
      ps.getLast? = some 100 :=
  C14_sender_percent_monotone streamEnv exampleConfig.BLEFileToSend {}
    { size := 1200
      reads := [List.replicate 500 65, List.replicate 512 66, List.replicate 188 67] }
    rfl (by decide) (by decide)
    (by
      intro r hr
      simp only [List.mem_cons, List.mem_singleton, List.not_mem_nil, or_false] at hr
      rcases hr with h | h | h <;> rw [h] <;> simp only [List.length_replicate] <;> decide)
    (by
      simp only [totalLength, List.map_cons, List.map_nil, List.length_replicate, List.sum_cons,
        List.sum_nil]
      decide)
    (fun _ _ => rfl)

/-! ## Theorems: the rounding error of the progress computations -/

theorem rne_err (U N : Nat) (hU : 0 < U) :
    2 * ((if 2 * (N % U) > U ∨ (2 * (N % U) = U ∧ N / U % 2 = 1) then N / U + 1 else N / U) * U)
        ≤ 2 * N + U ∧
    2 * N ≤ 2 * ((if 2 * (N % U) > U ∨ (2 * (N % U) = U ∧ N / U % 2 = 1) then N / U + 1
        else N / U) * U) + U := by
  have e1 := Nat.div_add_mod N U
  have r1 := Nat.mod_lt N hU
  have e2 : N / U * U = U * (N / U) := Nat.mul_comm _ _
  have e3 : (N / U + 1) * U = U * (N / U) + U := by ring
  split_ifs with h
  · rw [e3]
    generalize U * (N / U) = t at e1
    rcases h with h | ⟨h, _⟩ <;> constructor <;> omega
  · rw [e2]
    generalize U * (N / U) = t at e1
    have : 2 * (N % U) ≤ U := by
      by_contra hc
      exact h (Or.inl (by omega))
    constructor <;> omega

/-- The rounding to `p` bits changes a positive fraction by at most one part in
`2 ^ p`: with `(v, k)` the result for `n / d`,
`2 ^ p * |v * d - n * k| <= n * k`. -/
theorem roundToBits_err (p n d : Nat) (hp : 1 ≤ p) (hn : 0 < n) (hd : 0 < d) :
    2 ^ p * ((roundToBits p n d).1 * d) ≤ 2 ^ p * (n * (roundToBits p n d).2)
        + n * (roundToBits p n d).2 ∧
    2 ^ p * (n * (roundToBits p n d).2) ≤ 2 ^ p * ((roundToBits p n d).1 * d)
        + n * (roundToBits p n d).2 := by
  obtain ⟨_, _, hm1, _⟩ := roundToBits_significand p n d hp hn hd
  simp only [roundToBits, Nat.ne_of_gt hn, if_false]
  generalize n * 2 ^ (p + 2 + log2 d) = N at *
  generalize log2 (N / d) + 1 - p = s at *
  have hU : 0 < d * 2 ^ s := Nat.mul_pos hd (Nat.two_pow_pos _)
  obtain ⟨ha, hb⟩ := rne_err (d * 2 ^ s) N hU
  generalize (if 2 * (N % (d * 2 ^ s)) > d * 2 ^ s ∨
      (2 * (N % (d * 2 ^ s)) = d * 2 ^ s ∧ N / (d * 2 ^ s) % 2 = 1)
    then N / (d * 2 ^ s) + 1 else N / (d * 2 ^ s)) = m1 at *
  have hUN : d * 2 ^ s * 2 ^ (p - 1) ≤ N :=
    le_trans (Nat.mul_le_mul_left _ hm1) (Nat.mul_div_le N (d * 2 ^ s))
  have e : m1 * 2 ^ s * d = m1 * (d * 2 ^ s) := by ring
  have hP : 2 ^ p = 2 * 2 ^ (p - 1) := by
    rw [← pow_succ']; congr 1; omega
  rw [e, hP]
  generalize d * 2 ^ s = U at *
  generalize 2 ^ (p - 1) = P at *
  constructor <;> nlinarith

/-- The rounding error in rational form, for at least ten bits of precision. -/
theorem roundToBits_val (p n d : Nat) (hp : 10 ≤ p) (hn : 0 < n) (hd : 0 < d) :
    (999 / 1000 : ℚ) * ((n : ℚ) / d) ≤ ((roundToBits p n d).1 : ℚ) / (roundToBits p n d).2 ∧
    ((roundToBits p n d).1 : ℚ) / (roundToBits p n d).2 ≤ (1001 / 1000 : ℚ) * ((n : ℚ) / d) := by
  obtain ⟨h1, h2⟩ := roundToBits_err p n d (by omega) hn hd
  have hK : 0 < (roundToBits p n d).2 := roundToBits_snd_pos p n d
  have hP : 1024 ≤ 2 ^ p := by
    calc 1024 = 2 ^ 10 := by norm_num
      _ ≤ 2 ^ p := Nat.pow_le_pow_right (by decide) hp
  generalize (roundToBits p n d).1 = V at *
  generalize (roundToBits p n d).2 = K at *
  generalize 2 ^ p = P at *
  have h1q : (P : ℚ) * (V * d) ≤ P * (n * K) + n * K := by exact_mod_cast h1
  have h2q : (P : ℚ) * (n * K) ≤ P * (V * d) + n * K := by exact_mod_cast h2
  have hPq : (1024 : ℚ) ≤ P := by exact_mod_cast hP
  have hKq : (0 : ℚ) < K := by exact_mod_cast hK
  have hdq : (0 : ℚ) < d := by exact_mod_cast hd
  have hnq : (0 : ℚ) < n := by exact_mod_cast hn
  have hVq : (0 : ℚ) ≤ V := by exact_mod_cast Nat.zero_le V
  have hnK : (0 : ℚ) < n * K := mul_pos hnq hKq
  constructor
  · rw [le_div_iff₀ hKq, ← mul_div_assoc, div_mul_eq_mul_div, div_le_iff₀ hdq]
    nlinarith
  · rw [div_le_iff₀ hKq, ← mul_div_assoc, div_mul_eq_mul_div, le_div_iff₀ hdq]
    nlinarith

/-- Four roundings of relative error at most one part in a thousand change
`100 * r / t`, for `r <= t`, by at most one half. -/
theorem four_roundings (r t α β qv xv : ℚ) (ht : 0 < t) (hr : 0 ≤ r) (hrt : r ≤ t)
    (hα1 : 999 / 1000 * r ≤ α) (hα2 : α ≤ 1001 / 1000 * r)
    (hβ1 : 999 / 1000 * t ≤ β) (hβ2 : β ≤ 1001 / 1000 * t)
    (hq1 : 999 / 1000 * (α / β) ≤ qv) (hq2 : qv ≤ 1001 / 1000 * (α / β))
    (hx1 : 999 / 1000 * (100 * qv) ≤ xv) (hx2 : xv ≤ 1001 / 1000 * (100 * qv)) :
    100 * r / t - 1 / 2 ≤ xv ∧ xv ≤ 100 * r / t + 1 / 2 := by
  have hβ : 0 < β := by linarith
  obtain ⟨w, hw⟩ : ∃ w : ℚ, w = r / t := ⟨_, rfl⟩
  have hwt : w * t = r := by rw [hw]; field_simp
  have hw0 : 0 ≤ w := by rw [hw]; exact div_nonneg hr (le_of_lt ht)
  have hw1 : w ≤ 1 := by rw [hw]; exact (div_le_one ht).2 hrt
  have hwβ1 : w * (999 / 1000 * t) ≤ w * β := mul_le_mul_of_nonneg_left hβ1 hw0
  have hwβ2 : w * β ≤ w * (1001 / 1000 * t) := mul_le_mul_of_nonneg_left hβ2 hw0
  have hu2 : α / β ≤ 10021 / 10000 * w := by
    rw [div_le_iff₀ hβ]; linarith
  have hu1 : 998 / 1000 * w ≤ α / β := by
    rw [le_div_iff₀ hβ]; linarith
  have e : 100 * r / t = 100 * w := by rw [hw]; ring
  rw [e]
  constructor <;> linarith

/-- The product `((float)r / (float)t) * 100.00` is within one half of
`100 * r / t`, for `0 < r <= t`. -/
theorem ratioTimes100_near (r t : Nat) (hr : 0 < r) (ht : 0 < t) (hrt : r ≤ t) :
    (100 * (r : ℚ) / t - 1 / 2 ≤ ((ratioTimes100 r t).1 : ℚ) / (ratioTimes100 r t).2) ∧
    (((ratioTimes100 r t).1 : ℚ) / (ratioTimes100 r t).2 ≤ 100 * (r : ℚ) / t + 1 / 2) := by
  have ha := roundToBits_val 24 r 1 (by decide) hr (by decide)
  have hb := roundToBits_val 24 t 1 (by decide) ht (by decide)
  have ha1 := roundToBits_fst_pos 24 r 1 (by decide) hr (by decide)
  have hb1 := roundToBits_fst_pos 24 t 1 (by decide) ht (by decide)
  have ha2 := roundToBits_snd_pos 24 r 1
  have hb2 := roundToBits_snd_pos 24 t 1
  have hq := roundToBits_val 24 ((roundToBits 24 r 1).1 * (roundToBits 24 t 1).2)
    ((roundToBits 24 r 1).2 * (roundToBits 24 t 1).1) (by decide) (Nat.mul_pos ha1 hb2)
    (Nat.mul_pos ha2 hb1)
  have hq1 := floatRatio_fst_pos r t hr ht
  have hq2 : 0 < (floatRatio r t).2 := roundToBits_snd_pos _ _ _
  have hx := roundToBits_val 53 ((floatRatio r t).1 * 100) (floatRatio r t).2 (by decide)
    (Nat.mul_pos hq1 (by decide)) hq2
  have hqe : floatRatio r t = roundToBits 24 ((roundToBits 24 r 1).1 * (roundToBits 24 t 1).2)
    ((roundToBits 24 r 1).2 * (roundToBits 24 t 1).1) := rfl
  have hxe : ratioTimes100 r t = roundToBits 53 ((floatRatio r t).1 * 100) (floatRatio r t).2 :=
    rfl
  rw [hxe]
  rw [← hqe] at hq
  generalize roundToBits 53 ((floatRatio r t).1 * 100) (floatRatio r t).2 = X at *
  generalize floatRatio r t = Q at *
  generalize roundToBits 24 r 1 = A at *
  generalize roundToBits 24 t 1 = B at *
  have hA2 : (0 : ℚ) < A.2 := by exact_mod_cast ha2
  have hB2 : (0 : ℚ) < B.2 := by exact_mod_cast hb2
  have hB1 : (0 : ℚ) < B.1 := by exact_mod_cast hb1
  have hQ2 : (0 : ℚ) < Q.2 := by exact_mod_cast hq2
  have e1 : (((A.1 * B.2 : Nat) : ℚ)) / ((A.2 * B.1 : Nat) : ℚ)
      = ((A.1 : ℚ) / A.2) / ((B.1 : ℚ) / B.2) := by
    push_cast; field_simp
  have e2 : (((Q.1 * 100 : Nat) : ℚ)) / (Q.2 : ℚ) = 100 * ((Q.1 : ℚ) / Q.2) := by
    push_cast; field_simp; ring
  rw [e1] at hq
  rw [e2] at hx
  simp only [Nat.cast_one, div_one] at ha hb
  exact four_roundings (r : ℚ) (t : ℚ) _ _ _ _ (by exact_mod_cast ht)
    (by exact_mod_cast Nat.zero_le r) (by exact_mod_cast hrt)
    ha.1 ha.2 hb.1 hb.2 hq.1 hq.2 hx.1 hx.2

/-- The product in integer form: with `(X1, X2)` the product for `r` of `t` and
`j = floor(100 * r / t)`, `j - 1/2 <= X1 / X2 <= j + 3/2`. -/
theorem ratioTimes100_bracket (r t : Nat) (hr : 0 < r) (ht : 0 < t) (hrt : r ≤ t) :
    2 * (100 * r / t) * (ratioTimes100 r t).2
        ≤ 2 * (ratioTimes100 r t).1 + (ratioTimes100 r t).2 ∧
    2 * (ratioTimes100 r t).1 ≤ (2 * (100 * r / t) + 3) * (ratioTimes100 r t).2 := by
  obtain ⟨h1, h2⟩ := ratioTimes100_near r t hr ht hrt
  have hX2 : 0 < (ratioTimes100 r t).2 := roundToBits_snd_pos _ _ _
  have hj1 : 100 * r / t * t ≤ 100 * r := Nat.div_mul_le_self _ _
  have hj2 : 100 * r < (100 * r / t + 1) * t := by
    have := Nat.lt_succ_self (100 * r / t)
    exact (Nat.div_lt_iff_lt_mul ht).1 this
  generalize 100 * r / t = j at *
  generalize (ratioTimes100 r t).1 = X1 at *
  generalize (ratioTimes100 r t).2 = X2 at *
  have hX2q : (0 : ℚ) < X2 := by exact_mod_cast hX2
  have htq : (0 : ℚ) < t := by exact_mod_cast ht
  have hj1q : (j : ℚ) * t ≤ 100 * r := by exact_mod_cast hj1
  have hj2q : 100 * (r : ℚ) < (j + 1) * t := by exact_mod_cast hj2
  have hjle : (j : ℚ) ≤ 100 * r / t := by rw [le_div_iff₀ htq]; exact hj1q
  have hjlt : 100 * (r : ℚ) / t < j + 1 := by rw [div_lt_iff₀ htq]; exact hj2q
  have hlow : (j : ℚ) - 1 / 2 ≤ (X1 : ℚ) / X2 := by linarith
  have hup : (X1 : ℚ) / X2 ≤ j + 3 / 2 := by linarith
  rw [le_div_iff₀ hX2q] at hlow
  rw [div_le_iff₀ hX2q] at hup
  constructor
  · have : (2 * (j : ℚ)) * X2 ≤ 2 * X1 + X2 := by linarith
    exact_mod_cast this
  · have : 2 * (X1 : ℚ) ≤ (2 * j + 3) * X2 := by linarith
    exact_mod_cast this

theorem ratioTimes100_snd_even (r t : Nat) (hr : 0 < r) (ht : 0 < t) :
    (ratioTimes100 r t).2 = 2 ^ 1 * 2 ^ (54 + log2 (floatRatio r t).2) := by
  rw [ratioTimes100_snd r t hr ht, ← pow_add]
  congr 1
  omega

/-- The percent value of the sender against the exact quotient: it is
`100 - floor(100 * r / t)`, or one or two less, and never negative. -/
theorem senderPercent_bracket (r t : Nat) (ht : 0 < t) (hrt : r ≤ t) :
    (100 : Int) - ((100 * r / t : Nat) : Int) - 2 ≤ senderPercent r t ∧
    senderPercent r t ≤ 100 - ((100 * r / t : Nat) : Int) ∧
    0 ≤ senderPercent r t := by
  refine ⟨?_, ?_, senderPercent_nonneg r t ht hrt⟩
  · rcases Nat.eq_zero_or_pos r with h0 | hr
    · subst h0; rw [senderPercent_zero]; simp
    · obtain ⟨_, hub⟩ := ratioTimes100_bracket r t hr ht hrt
      have hX2 : 0 < (ratioTimes100 r t).2 := roundToBits_snd_pos _ _ _
      have hnn := senderPercent_nonneg r t ht hrt
      rw [senderPercent_eq r t ht hrt] at hnn ⊢
      generalize 100 * r / t = j at *
      by_cases hj : 98 ≤ j
      · have : (100 : Int) - (j : Int) - 2 ≤ 0 := by omega
        exact le_trans this hnn
      · have hc : 0 < 98 - j := by omega
        have hge : (98 - j) * (ratioTimes100 r t).2
            ≤ 100 * (ratioTimes100 r t).2 - (ratioTimes100 r t).1 := by
          generalize (ratioTimes100 r t).1 = X1 at *
          generalize (ratioTimes100 r t).2 = X2 at *
          have e1 : (98 - j) * X2 = 98 * X2 - j * X2 := Nat.sub_mul _ _ _
          have e2 : (2 * j + 3) * X2 = 2 * (j * X2) + 3 * X2 := by ring
          rw [e1]; rw [e2] at hub
          generalize j * X2 = jx at *
          omega
        have := roundToBits_ge_of_ge 53 (98 - j) (ratioTimes100 r t).2 _ (by decide) hc
          (lt_of_le_of_lt (Nat.sub_le _ _) (by norm_num)) hX2 hge
        have hdiv : 98 - j ≤ (roundToBits 53 (100 * (ratioTimes100 r t).2 - (ratioTimes100 r t).1)
            (ratioTimes100 r t).2).1 / (roundToBits 53 (100 * (ratioTimes100 r t).2
              - (ratioTimes100 r t).1) (ratioTimes100 r t).2).2 :=
          (Nat.le_div_iff_mul_le (roundToBits_snd_pos _ _ _)).2 this
        have hcast : ((98 - j : Nat) : Int) = 100 - (j : Int) - 2 := by omega
        rw [← hcast]
        exact Int.ofNat_le.2 hdiv
  · rcases Nat.eq_zero_or_pos r with h0 | hr
    · subst h0; rw [senderPercent_zero]; simp
    · obtain ⟨hlb, _⟩ := ratioTimes100_bracket r t hr ht hrt
      have hx100 := ratioTimes100_le r t ht hrt
      have heven := ratioTimes100_snd_even r t hr ht
      have hj100 : 100 * r / t ≤ 100 := by
        apply Nat.div_le_of_le_mul
        calc 100 * r ≤ 100 * t := Nat.mul_le_mul_left _ hrt
          _ = t * 100 := Nat.mul_comm _ _
      rw [senderPercent_eq r t ht hrt]
      generalize 100 * r / t = j at *
      generalize 2 ^ (54 + log2 (floatRatio r t).2) = h at *
      have hh : 0 < h := by
        have := roundToBits_snd_pos 53 ((floatRatio r t).1 * 100) (floatRatio r t).2
        have hX : 0 < (ratioTimes100 r t).2 := this
        rw [heven] at hX
        omega
      have hle : 100 * (ratioTimes100 r t).2 - (ratioTimes100 r t).1 ≤ (201 - 2 * j) * h := by
        rw [heven] at hlb hx100 ⊢
        generalize (ratioTimes100 r t).1 = X1 at *
        have e1 : (201 - 2 * j) * h = 201 * h - 2 * (j * h) := by
          rw [Nat.sub_mul]; ring_nf
        have e2 : 2 * j * (2 ^ 1 * h) = 4 * (j * h) := by ring
        rw [e1]; rw [e2] at hlb
        generalize j * h = jh at *
        omega
      have hr53 := roundToBits_le_of_le 53 (201 - 2 * j) h 1
        (100 * (ratioTimes100 r t).2 - (ratioTimes100 r t).1) (by decide) (by omega)
        (lt_of_le_of_lt (Nat.sub_le _ _) (by norm_num)) hh hle
      rw [← heven] at hr53
      have hlt : (roundToBits 53 (100 * (ratioTimes100 r t).2 - (ratioTimes100 r t).1)
            (ratioTimes100 r t).2).1 / (roundToBits 53 (100 * (ratioTimes100 r t).2
              - (ratioTimes100 r t).1) (ratioTimes100 r t).2).2 < 101 - j := by
        apply Nat.div_lt_of_lt_mul
        have hY2 := roundToBits_snd_pos 53 (100 * (ratioTimes100 r t).2 - (ratioTimes100 r t).1)
          (ratioTimes100 r t).2
        generalize (roundToBits 53 (100 * (ratioTimes100 r t).2 - (ratioTimes100 r t).1)
            (ratioTimes100 r t).2).1 = Y1 at *
        generalize (roundToBits 53 (100 * (ratioTimes100 r t).2 - (ratioTimes100 r t).1)
            (ratioTimes100 r t).2).2 = Y2 at *
        have e1 : (201 - 2 * j) * Y2 = 201 * Y2 - 2 * (j * Y2) := by
          rw [Nat.sub_mul]; ring_nf
        have e2 : Y2 * (101 - j) = 101 * Y2 - j * Y2 := by
          rw [Nat.mul_comm, Nat.sub_mul]
        have hjy : j * Y2 ≤ 100 * Y2 := Nat.mul_le_mul_right _ hj100
        rw [e1] at hr53; rw [e2]
        generalize j * Y2 = jy at *
        omega
      have hcast : (100 : Int) - (j : Int) = ((100 - j : Nat) : Int) := by omega
      rw [hcast]
      exact Int.ofNat_le.2 (by omega)

set_option maxRecDepth 8000 in
/-- Claim C15, as stated, fails: with 1 byte remaining of 3 the sender computes
66, while `100 - floor(100 * 1 / 3)` is 67; with 1675225546 bytes remaining of
2538220574 it computes 33, while the formula gives 35. -/
theorem C15_counterexample :
    senderPercent 1 3 = 66 ∧ (100 : Int) - ((100 * 1 / 3 : Nat) : Int) = 67 ∧
    senderPercent 1675225546 2538220574 = 33 ∧
    (100 : Int) - ((100 * 1675225546 / 2538220574 : Nat) : Int) = 35 := by
  decide

/-- With nothing left to send of a non-empty file the sender computes 0: the
quotient `(float)t / (float)t` is exactly one. -/
theorem senderPercent_full (t : Nat) (ht : 0 < t) : senderPercent t t = 0 := by
  have h := senderPercent_bracket t t ht (le_refl t)
  have e : 100 * t / t = 100 := Nat.mul_div_cancel 100 ht
  rw [e] at h
  omega

/-- Claim C15, amended. For every `totalsize > 0` and every number `r` of bytes
remaining with `r <= totalsize`, the percent value that `FileSharingSendFile`
computes is `100 - floor(100 * r / totalsize)` or one or two less, and is never
negative; it is exactly 100 when no byte remains (`r = 0`) and exactly 0 when
all bytes remain (`r = totalsize`). -/
theorem C15_sender_percent_bracket (r totalsize : Nat) (hpos : 0 < totalsize)
    (hr : r ≤ totalsize) :
    (100 : Int) - ((100 * r / totalsize : Nat) : Int) - 2 ≤ senderPercent r totalsize ∧
    senderPercent r totalsize ≤ 100 - ((100 * r / totalsize : Nat) : Int) ∧
    0 ≤ senderPercent r totalsize ∧
    senderPercent 0 totalsize = 100 ∧ senderPercent totalsize totalsize = 0 :=
  have h := senderPercent_bracket r totalsize hpos hr
  ⟨h.1, h.2.1, h.2.2, senderPercent_zero totalsize, senderPercent_full totalsize hpos⟩

/-- Claim C15 with 700 bytes remaining of 1200, and with 0 and 1200 remaining. -/
theorem C15_sender_percent_bracket_witness :
    (100 : Int) - ((100 * 700 / 1200 : Nat) : Int) - 2 ≤ senderPercent 700 1200 ∧
    senderPercent 700 1200 ≤ 100 - ((100 * 700 / 1200 : Nat) : Int) ∧
    0 ≤ senderPercent 700 1200 ∧
    senderPercent 0 1200 = 100 ∧ senderPercent 1200 1200 = 0 :=
  C15_sender_percent_bracket 700 1200 (by decide) (by decide)

end BLECollector
